import Mathlib

/-! # OneFlow: memory locality, register descriptor, convolution kernel, model io seed

Shallow embedding of

* `oneflow/core/memory/memory_case_util.cpp` (`MemoryCaseUtil`),
* `oneflow/core/register/runtime_register_desc.cpp` (`RtRegstDesc`),
* `oneflow/core/register/register.h` (`Regst`),
* `oneflow/core/kernel/convolution_kernel.cpp` (`Im2Col`, `Col2Im` on the CPU),
* `oneflow/core/operator/model_io_v2_op.cpp` (`GenModelIoV2KernelConf`),

followed by the properties established about them.

Conventions.

* An `int64_t` value is an `Int` in `[-2^63, 2^63)`; a `size_t` value is a `Nat` below `2^64`.
  64-bit arithmetic is done on the two's complement bit pattern (`toBits64` / `ofBits64`),
  so every result is reduced modulo `2^64`.
* A fatal check (`CHECK`, `UNIMPLEMENTED`, a throwing `std::vector::at`) is the result `none`.
  So is a division by zero, and a loop that does not end.
* An output parameter is threaded through: the function takes its old value and returns
  the new one.
-/

namespace oneflow

/-! ## 64-bit machine integers -/

/-- The predicate "fits in `int64_t`". -/
def IsInt64 (x : Int) : Prop := -(2 : Int) ^ 63 ≤ x ∧ x < (2 : Int) ^ 63

instance (x : Int) : Decidable (IsInt64 x) := by
  unfold IsInt64; exact inferInstance

/-- Two's complement bit pattern of an `int64_t`, as a natural number below `2^64`. -/
def toBits64 (x : Int) : Nat := (x % (2 : Int) ^ 64).toNat

/-- Signed reading of the low 64 bits of a natural number. -/
def ofBits64 (n : Nat) : Int :=
  if n % 2 ^ 64 < 2 ^ 63 then ((n % 2 ^ 64 : Nat) : Int)
  else ((n % 2 ^ 64 : Nat) : Int) - (2 : Int) ^ 64

/-- Addition `x + y` on `int64_t`. -/
def add64 (x y : Int) : Int := ofBits64 (toBits64 x + toBits64 y)

/-- Multiplication `x * y` on `int64_t`. -/
def mul64 (x y : Int) : Int := ofBits64 (toBits64 x * toBits64 y)

/-- Left shift `x << k` on `int64_t`. -/
def shl64 (x : Int) (k : Nat) : Int := ofBits64 (toBits64 x <<< k)

/-- Bitwise or `x | y` on `int64_t`. -/
def or64 (x y : Int) : Int := ofBits64 (toBits64 x ||| toBits64 y)

/-- Compound assignment `x += n` with `x` an `int64_t` and `n` a `size_t`: the sum is formed on
64-bit unsigned integers and stored back into the signed variable. -/
def addSize64 (x : Int) (n : Nat) : Int := ofBits64 (toBits64 x + n)

/-- The high 32 bits of an `int64_t`, as an unsigned 32-bit field. -/
def high32 (x : Int) : Nat := toBits64 x / 2 ^ 32

/-- The low 32 bits of an `int64_t`, as an unsigned 32-bit field. -/
def low32 (x : Int) : Nat := toBits64 x % 2 ^ 32

/-! ## Memory case (memory_case.proto) -/

/-- Modelled from the spec: the protobuf message `CudaPinnedMemory` (memory_case.proto is not
among the sources); the source reads and writes its `int64` field `device_id`. -/
structure CudaPinnedMemory where
  device_id : Int := 0
  deriving DecidableEq

/-- Modelled from the spec: the protobuf message `HostMemory`. The source tests the presence of
both fields (`has_cuda_pinned_mem`, `has_used_by_network`), so each is kept with its presence;
an absent `used_by_network` reads as `false`. -/
structure HostMemory where
  cuda_pinned_mem_ : Option CudaPinnedMemory := none
  used_by_network_ : Option Bool := none
  deriving DecidableEq

/-- Modelled from the spec: the protobuf message `DeviceCudaMemory` with its `int64` field
`device_id`. -/
structure DeviceCudaMemory where
  device_id : Int := 0
  deriving DecidableEq

/-- Modelled from the spec: the protobuf message `MemoryCase`, a `oneof` of host memory and
device memory, which may also be unset. -/
inductive MemoryCase where
  | CASE_NOT_SET : MemoryCase
  | host_mem_case (h : HostMemory) : MemoryCase
  | device_cuda_mem_case (d : DeviceCudaMemory) : MemoryCase
  deriving DecidableEq

namespace HostMemory

def has_cuda_pinned_mem (h : HostMemory) : Bool := h.cuda_pinned_mem_.isSome

/-- Getter of a message field: the default message when the field is absent. -/
def cuda_pinned_mem (h : HostMemory) : CudaPinnedMemory := h.cuda_pinned_mem_.getD {}

def has_used_by_network (h : HostMemory) : Bool := h.used_by_network_.isSome

/-- Getter of the optional `bool` field: `false` when the field is absent. -/
def used_by_network (h : HostMemory) : Bool := h.used_by_network_.getD false

end HostMemory

namespace MemoryCase

def has_device_cuda_mem : MemoryCase → Bool
  | device_cuda_mem_case _ => true
  | _ => false

def has_host_mem : MemoryCase → Bool
  | host_mem_case _ => true
  | _ => false

/-- Getter of the `oneof` member: the default message when another member is set. -/
def device_cuda_mem : MemoryCase → DeviceCudaMemory
  | device_cuda_mem_case d => d
  | _ => {}

/-- Getter of the `oneof` member: the default message when another member is set. -/
def host_mem : MemoryCase → HostMemory
  | host_mem_case h => h
  | _ => {}

/-- The message behind `mutable_host_mem()`: the present host member, or a fresh one that
replaces whatever the `oneof` held. -/
def mutable_host_mem (m : MemoryCase) : HostMemory := m.host_mem

end MemoryCase

/-! ## MemoryCaseUtil (memory_case_util.cpp) -/

namespace MemoryCaseUtil

open MemoryCase

/-- `MemoryCaseUtil::GetCommonMemoryCase(a, b, common)`: the returned pair is the `bool` result
and the value of `*common` afterwards (`common` is its value before the call). -/
def GetCommonMemoryCase (a b common : MemoryCase) : Bool × MemoryCase :=
  if a.has_device_cuda_mem && b.has_device_cuda_mem then
    if a.device_cuda_mem.device_id = b.device_cuda_mem.device_id then
      (true, a)
    else
      (false, common)
  else if a.has_host_mem && b.has_host_mem then
    let common := a
    let common :=
      if b.host_mem.has_cuda_pinned_mem then
        host_mem_case
          { common.mutable_host_mem with cuda_pinned_mem_ := some b.host_mem.cuda_pinned_mem }
      else common
    let common :=
      if b.host_mem.has_used_by_network then
        host_mem_case { common.mutable_host_mem with used_by_network_ := some true }
      else common
    (true, common)
  else
    (false, common)

/-- `MemoryCaseUtil::GetHostPinnedMemoryCaseForRegstSeparatedHeader(mem_case)`; `none` is the
failed `CHECK`. -/
def GetHostPinnedMemoryCaseForRegstSeparatedHeader (mem_case : MemoryCase) : Option MemoryCase :=
  if mem_case.has_device_cuda_mem then
    let ret : MemoryCase := CASE_NOT_SET
    let ret :=
      host_mem_case
        { ret.mutable_host_mem with
          cuda_pinned_mem_ :=
            some { ret.mutable_host_mem.cuda_pinned_mem with
                   device_id := mem_case.device_cuda_mem.device_id } }
    some ret
  else
    none

/-- `MemoryCaseUtil::GenMemZoneId(mem_case)`; `none` is `UNIMPLEMENTED()`. -/
def GenMemZoneId (mem_case : MemoryCase) : Option Int :=
  if mem_case.has_device_cuda_mem then
    some mem_case.device_cuda_mem.device_id
  else if mem_case.has_host_mem then
    if mem_case.host_mem.has_cuda_pinned_mem then
      some (add64 129 mem_case.host_mem.cuda_pinned_mem.device_id)
    else
      some 128
  else
    none

/-- `MemoryCaseUtil::GenMemZoneUniqueId(machine_id, mem_case)`. -/
def GenMemZoneUniqueId (machine_id : Int) (mem_case : MemoryCase) : Option Int :=
  (GenMemZoneId mem_case).map fun zone_id => or64 (shl64 machine_id 32) zone_id

/-- `MemoryCaseUtil::IsHostUnPinnedMemoryCase(mem_case)`. -/
def IsHostUnPinnedMemoryCase (mem_case : MemoryCase) : Bool :=
  mem_case.has_host_mem && !mem_case.host_mem.has_cuda_pinned_mem
    && !mem_case.host_mem.used_by_network

/-- The device ids of a memory case lie in the range `0..127` that `GenMemZoneId` reserves for
them: the id of a device memory case, the id a host memory case is pinned for. -/
def DeviceIdReserved : MemoryCase → Prop
  | device_cuda_mem_case d => 0 ≤ d.device_id ∧ d.device_id ≤ 127
  | host_mem_case h =>
    match h.cuda_pinned_mem_ with
    | some pinned => 0 ≤ pinned.device_id ∧ pinned.device_id ≤ 127
    | none => True
  | CASE_NOT_SET => True

/-- Two memory cases are of the same placement class with the same device id: two devices with
one id, two unpinned hosts, or two hosts pinned for one device id. -/
def SamePlacement : MemoryCase → MemoryCase → Prop
  | device_cuda_mem_case a, device_cuda_mem_case b => a.device_id = b.device_id
  | host_mem_case a, host_mem_case b => a.cuda_pinned_mem_ = b.cuda_pinned_mem_
  | _, _ => False

end MemoryCaseUtil

/-! ## Register descriptor (runtime_register_desc.cpp) -/

/-- Modelled from the spec: the protobuf message `LogicalBlobId` (the tensor id), which is not
among the sources; it names a tensor by operator name and blob name. -/
structure LogicalBlobId where
  op_name : String := ""
  blob_name : String := ""
  deriving DecidableEq

/-- Modelled from the spec: the class `RtBlobDesc` (the blob descriptor), which is not among the
sources. Only its three `size_t` size queries are used by the register descriptor; each is a
field here. -/
structure RtBlobDesc where
  ByteSizeOfBlobHeader : Nat := 0
  AlignedByteSizeOfBlobBody : Nat := 0
  AlignedTotalByteSize : Nat := 0
  deriving DecidableEq

/-- Modelled from the spec: the order on tensor ids (`operator<` of `LogicalBlobId`, not among
the sources); the spec asks for a total order: operator name first, then blob name. -/
def LogicalBlobId.lt (lhs rhs : LogicalBlobId) : Bool :=
  decide (lhs.op_name < rhs.op_name)
    || (decide (lhs.op_name = rhs.op_name) && decide (lhs.blob_name < rhs.blob_name))

/-- Modelled from the spec: the protobuf message `BlobDescProto` and the conversion
`RtBlobDesc(proto)`, neither among the sources. The spec derives the blob descriptor
deterministically from the description, which is represented by the descriptor it yields. -/
structure BlobDescProto where
  rt_blob_desc : RtBlobDesc := {}
  deriving DecidableEq

/-- The conversion `RtBlobDesc(const BlobDescProto&)`. -/
def RtBlobDesc.ofProto (proto : BlobDescProto) : RtBlobDesc := proto.rt_blob_desc

/-- Modelled from the spec: the protobuf message `LbiBlobDescPair`, a tensor id with its blob
description. -/
structure LbiBlobDescPair where
  lbi : LogicalBlobId := {}
  blob_desc : BlobDescProto := {}
  deriving DecidableEq

/-- Modelled from the spec: `CompareLbiBlobDescPair` (not among the sources) orders the pairs by
tensor id. -/
def CompareLbiBlobDescPair (lhs rhs : LbiBlobDescPair) : Bool := lhs.lbi.lt rhs.lbi

/-- The call `std::sort(begin, end, comp)` on a vector: the elements rearranged into an order
compatible with `comp`. -/
def stdSort {α : Type} (comp : α → α → Bool) (v : List α) : List α :=
  v.insertionSort fun lhs rhs => comp lhs rhs = true

/-- Modelled from the spec: the protobuf message `ShapeProto`, a list of dimensions. -/
structure ShapeProto where
  dim : List Int := []
  deriving DecidableEq

/-- Modelled from the spec: the class `Shape`, built from a `ShapeProto` by copying the
dimensions. -/
structure Shape where
  dim_vec : List Int := []
  deriving DecidableEq

/-- The conversion `Shape(const ShapeProto&)`. -/
def Shape.ofProto (proto : ShapeProto) : Shape := { dim_vec := proto.dim }

/-- Modelled from the spec: the protobuf message `DataRegstDesc`: the repeated field
`lbi2blob_desc` and the optional field `time_shape`, kept with its presence. -/
structure DataRegstDesc where
  lbi2blob_desc : List LbiBlobDescPair := []
  time_shape_ : Option ShapeProto := none
  deriving DecidableEq

namespace DataRegstDesc

def has_time_shape (d : DataRegstDesc) : Bool := d.time_shape_.isSome

/-- Getter of a message field: the default message when the field is absent. -/
def time_shape (d : DataRegstDesc) : ShapeProto := d.time_shape_.getD {}

end DataRegstDesc

/-- Modelled from the spec: the protobuf message `RegstDescTypeProto`, a `oneof` of a data
register description and a control register description (whose content the register descriptor
never reads), which may also be unset. -/
inductive RegstDescTypeProto where
  | TYPE_NOT_SET : RegstDescTypeProto
  | data_regst_desc_case (d : DataRegstDesc) : RegstDescTypeProto
  | ctrl_regst_desc_case : RegstDescTypeProto
  deriving DecidableEq

namespace RegstDescTypeProto

def has_data_regst_desc : RegstDescTypeProto → Bool
  | data_regst_desc_case _ => true
  | _ => false

/-- Getter of the `oneof` member: the default message when another member is set. -/
def data_regst_desc : RegstDescTypeProto → DataRegstDesc
  | data_regst_desc_case d => d
  | _ => {}

end RegstDescTypeProto

/-- Modelled from the spec: the protobuf message `RegstDescProto` (the serialized register
specification), with the fields the constructor of `RtRegstDesc` reads. -/
structure RegstDescProto where
  regst_desc_id : Int := 0
  producer_task_id : Int := 0
  consumer_task_id : List Int := []
  register_num : Int := 0
  mem_case : MemoryCase := MemoryCase.CASE_NOT_SET
  regst_desc_type : RegstDescTypeProto := RegstDescTypeProto.TYPE_NOT_SET
  deriving DecidableEq

/-- The data members of `RtRegstDesc` that the constructor fills from the specification and the
ordinal tables. The hash map `lbi2blob_desc_ordinal_` is kept as an association list. -/
structure RtRegstDesc where
  regst_desc_id_ : Int := 0
  producer_actor_id_ : Int := 0
  consumers_actor_id_ : List Int := []
  register_num_ : Int := 0
  mem_case_ : MemoryCase := MemoryCase.CASE_NOT_SET
  regst_desc_type_ : RegstDescTypeProto := RegstDescTypeProto.TYPE_NOT_SET
  data_regst_time_shape_ : Option Shape := none
  lbi2blob_desc_ordinal_ : List (LogicalBlobId × Int) := []
  sorted_blob_desc_vec_ : List RtBlobDesc := []
  sorted_lbi_vec_ : List LogicalBlobId := []
  deriving DecidableEq

/-- The type of the callback of `ForEachBlobDescOffsetInOnRegst`, acting on a state `σ`:
`Handler ordinal lbi desc body_offset header_offset`. -/
abbrev BlobDescOffsetHandler (σ : Type) : Type :=
  Int → LogicalBlobId → RtBlobDesc → Int → Int → σ → σ

/-- One call of the callback of `ForEachBlobDescOffsetInOnRegst`, with its five arguments. -/
structure BlobDescOffsetCall where
  ordinal : Int
  lbi : LogicalBlobId
  desc : RtBlobDesc
  body_offset : Int
  header_offset : Int
  deriving DecidableEq

/-- The callback that records its arguments, in call order. -/
def recordCall : BlobDescOffsetHandler (List BlobDescOffsetCall) :=
  fun ordinal lbi desc body_offset header_offset calls =>
    calls ++ [{ ordinal := ordinal, lbi := lbi, desc := desc,
                body_offset := body_offset, header_offset := header_offset }]

namespace RtRegstDesc

/-- The loop of `ForEachBlobDescOffsetInOnRegst` from index `i` on: the first argument is the
part of `sorted_blob_desc_vec_` from `i` to the end. `sorted_lbi_vec_.at(i)` throws when `i` is
not an index of `sorted_lbi_vec_`. -/
def ForEachBlobDescOffsetInOnRegst.loop {σ : Type} (sorted_lbi_vec_ : List LogicalBlobId)
    (Handler : BlobDescOffsetHandler σ) :
    List RtBlobDesc → Nat → Int → Int → σ → Option σ
  | [], _, _, _, s => some s
  | blob_desc :: rest, i, cur_body_offset, cur_header_offset, s =>
    match sorted_lbi_vec_[i]? with
    | none => none
    | some lbi =>
      ForEachBlobDescOffsetInOnRegst.loop sorted_lbi_vec_ Handler rest (i + 1)
        (addSize64 cur_body_offset blob_desc.AlignedByteSizeOfBlobBody)
        (addSize64 cur_header_offset blob_desc.ByteSizeOfBlobHeader)
        (Handler (i : Int) lbi blob_desc cur_body_offset cur_header_offset s)

/-- `RtRegstDesc::ForEachBlobDescOffsetInOnRegst(Handler)`, run from the state `s` of the
callback; `none` is an exception thrown by `at`. -/
def ForEachBlobDescOffsetInOnRegst {σ : Type} (self : RtRegstDesc)
    (Handler : BlobDescOffsetHandler σ) (s : σ) : Option σ :=
  ForEachBlobDescOffsetInOnRegst.loop self.sorted_lbi_vec_ Handler
    self.sorted_blob_desc_vec_ 0 0 0 s

/-- A descriptor state with three tensors `a`, `b`, `c` whose aligned body sizes are 4, 16, 8
and whose header sizes are 2 each. -/
def threeTensors : RtRegstDesc :=
  { sorted_blob_desc_vec_ :=
      [{ ByteSizeOfBlobHeader := 2, AlignedByteSizeOfBlobBody := 4, AlignedTotalByteSize := 6 },
       { ByteSizeOfBlobHeader := 2, AlignedByteSizeOfBlobBody := 16, AlignedTotalByteSize := 18 },
       { ByteSizeOfBlobHeader := 2, AlignedByteSizeOfBlobBody := 8, AlignedTotalByteSize := 10 }],
    sorted_lbi_vec_ := [{ blob_name := "a" }, { blob_name := "b" }, { blob_name := "c" }] }

/-- The call `map.find(key)` on the hash map kept as an association list: the mapped value, or
`none` for `end()`. -/
def HashMapFind {κ ν : Type} [DecidableEq κ] (map : List (κ × ν)) (key : κ) : Option ν :=
  map.lookup key

/-- The call `map.emplace(key, value)`: nothing changes when the key is present already. -/
def HashMapEmplace {κ ν : Type} [DecidableEq κ] (map : List (κ × ν)) (key : κ) (value : ν) :
    List (κ × ν) :=
  match HashMapFind map key with
  | some _ => map
  | none => map ++ [(key, value)]

/-- The call `v.at(n)` on a vector with an `int64_t` argument, which is converted to `size_t`;
`none` is the exception for an index out of range. -/
def vectorAt {α : Type} (v : List α) (n : Int) : Option α := v[toBits64 n]?

/-- The product `a * n` of a `size_t` and an `int64_t`, formed on 64-bit unsigned integers. -/
def mulSize64 (a : Nat) (n : Int) : Nat := (a * toBits64 n) % 2 ^ 64

/-- The loop of the constructor over the sorted pairs, from index `i` on: the first argument is
the part of `lbi_pairs` from `i` to the end. -/
def ctor.loop : List LbiBlobDescPair → Nat → RtRegstDesc → RtRegstDesc
  | [], _, self => self
  | pair :: rest, i, self =>
    ctor.loop rest (i + 1)
      { self with
        sorted_blob_desc_vec_ := self.sorted_blob_desc_vec_ ++ [RtBlobDesc.ofProto pair.blob_desc],
        sorted_lbi_vec_ := self.sorted_lbi_vec_ ++ [pair.lbi],
        lbi2blob_desc_ordinal_ := HashMapEmplace self.lbi2blob_desc_ordinal_ pair.lbi (i : Int) }

/-- The constructor `RtRegstDesc::RtRegstDesc(proto)`; `none` is a failed `CHECK`. The blob
descriptor `RtBlobDesc(BlobDesc(DataType::kChar))` of a control register is built by code that is
not among the sources and is the parameter `kCharBlobDesc`. -/
def ctor (kCharBlobDesc : RtBlobDesc) (proto : RegstDescProto) : Option RtRegstDesc :=
  let self : RtRegstDesc :=
    { regst_desc_id_ := proto.regst_desc_id,
      producer_actor_id_ := proto.producer_task_id,
      consumers_actor_id_ := proto.consumer_task_id,
      register_num_ := proto.register_num,
      mem_case_ := proto.mem_case,
      regst_desc_type_ := proto.regst_desc_type }
  if proto.regst_desc_type.has_data_regst_desc then
    let data_regst_desc := proto.regst_desc_type.data_regst_desc
    let lbi_pairs := stdSort CompareLbiBlobDescPair data_regst_desc.lbi2blob_desc
    if lbi_pairs.length = 1 then
      let self := ctor.loop lbi_pairs 0 self
      if data_regst_desc.has_time_shape then
        some { self with
               data_regst_time_shape_ := some (Shape.ofProto data_regst_desc.time_shape) }
      else
        none
    else
      none
  else
    some { self with sorted_blob_desc_vec_ := self.sorted_blob_desc_vec_ ++ [kCharBlobDesc] }

/-- `RtRegstDesc::GetOrdinalForLbi(lbi)`. -/
def GetOrdinalForLbi (self : RtRegstDesc) (lbi : LogicalBlobId) : Int :=
  match HashMapFind self.lbi2blob_desc_ordinal_ lbi with
  | some ordinal => ordinal
  | none => -1

/-- `RtRegstDesc::GetRtBlobDescByOrdinal(ordinal)`; `none` is the exception thrown by `at`. -/
def GetRtBlobDescByOrdinal (self : RtRegstDesc) (ordinal : Int) : Option RtBlobDesc :=
  vectorAt self.sorted_blob_desc_vec_ ordinal

/-- `RtRegstDesc::GetRtBlobDescFromLbi(lbi)`; the outer `none` is the exception thrown by `at`,
the inner `none` is the null pointer. -/
def GetRtBlobDescFromLbi (self : RtRegstDesc) (lbi : LogicalBlobId) :
    Option (Option RtBlobDesc) :=
  match HashMapFind self.lbi2blob_desc_ordinal_ lbi with
  | none => some none
  | some ordinal => (self.GetRtBlobDescByOrdinal ordinal).map some

/-- `RtRegstDesc::GetLbiByOrdinal(ordinal)`; `none` is the exception thrown by `at`. -/
def GetLbiByOrdinal (self : RtRegstDesc) (ordinal : Int) : Option LogicalBlobId :=
  vectorAt self.sorted_lbi_vec_ ordinal

/-- `RtRegstDesc::GetSoleRtBlobDesc()`; `none` is the failed `CHECK_EQ`. -/
def GetSoleRtBlobDesc (self : RtRegstDesc) : Option RtBlobDesc :=
  if self.sorted_blob_desc_vec_.length = 1 then
    vectorAt self.sorted_blob_desc_vec_ 0
  else
    none

/-- `RtRegstDesc::TotalByteSize4AllRegst()`. -/
def TotalByteSize4AllRegst (self : RtRegstDesc) : Option Nat :=
  self.GetSoleRtBlobDesc.map fun sole => mulSize64 sole.AlignedTotalByteSize self.register_num_

/-- `RtRegstDesc::MainByteSize4OneRegst()`. -/
def MainByteSize4OneRegst (self : RtRegstDesc) : Option Nat :=
  if self.mem_case_.has_device_cuda_mem then
    self.GetSoleRtBlobDesc.map fun sole => sole.AlignedByteSizeOfBlobBody
  else
    self.GetSoleRtBlobDesc.map fun sole => sole.AlignedTotalByteSize

/-- `RtRegstDesc::TotalMainByteSize4AllRegst()`. -/
def TotalMainByteSize4AllRegst (self : RtRegstDesc) : Option Nat :=
  self.MainByteSize4OneRegst.map fun size => mulSize64 size self.register_num_

/-- `RtRegstDesc::SeparatedHeaderByteSize4OneRegst()`. -/
def SeparatedHeaderByteSize4OneRegst (self : RtRegstDesc) : Option Nat :=
  if self.mem_case_.has_device_cuda_mem then
    self.GetSoleRtBlobDesc.map fun sole => sole.ByteSizeOfBlobHeader
  else
    some 0

/-- `RtRegstDesc::TotalSeparatedHeaderByteSize4AllRegst()`. -/
def TotalSeparatedHeaderByteSize4AllRegst (self : RtRegstDesc) : Option Nat :=
  self.SeparatedHeaderByteSize4OneRegst.map fun size => mulSize64 size self.register_num_

/-- A data register specification with the single tensor `op/out`, whose blob descriptor has a
header of 2 bytes, an aligned body of 4 bytes and 6 bytes in all, with two registers and a time
shape, placed on the given memory case. -/
def oneTensorSpec (mem_case : MemoryCase) : RegstDescProto :=
  { regst_desc_id := 7,
    producer_task_id := 3,
    consumer_task_id := [5, 4],
    register_num := 2,
    mem_case := mem_case,
    regst_desc_type :=
      RegstDescTypeProto.data_regst_desc_case
        { lbi2blob_desc :=
            [{ lbi := { op_name := "op", blob_name := "out" },
               blob_desc :=
                 { rt_blob_desc :=
                     { ByteSizeOfBlobHeader := 2, AlignedByteSizeOfBlobBody := 4,
                       AlignedTotalByteSize := 6 } } }],
          time_shape_ := some { dim := [1, 1] } } }

/-- A control register specification on device 0. -/
def ctrlSpec : RegstDescProto :=
  { regst_desc_id := 8,
    register_num := 1,
    mem_case := MemoryCase.device_cuda_mem_case { device_id := 0 },
    regst_desc_type := RegstDescTypeProto.ctrl_regst_desc_case }

end RtRegstDesc

/-! ## Register instance (register.h) -/

/-- The struct `RegstStatus`. -/
structure RegstStatus where
  regst_desc_id : Int := 0
  piece_id : Int := 0
  act_id : Int := 0
  deriving DecidableEq

/-- Modelled from the spec: the class `Blob` (blob.h is not among the sources), a handle on the
memory of one tensor. -/
structure Blob where
  dptr : Nat := 0
  deriving DecidableEq

/-- The data members of `Regst`. The network token is a `void*`, `none` being the null pointer;
`regst_desc_` points to a descriptor that the instance never modifies. -/
structure Regst where
  comm_net_token_ : Option Nat := none
  status_ : RegstStatus := {}
  regst_desc_ : Option RtRegstDesc := none
  sorted_blob_vec_ : List Blob := []
  deriving DecidableEq

namespace Regst

def status (self : Regst) : RegstStatus := self.status_

def piece_id (self : Regst) : Int := self.status_.piece_id

def act_id (self : Regst) : Int := self.status_.act_id

/-- `Regst::regst_desc_id()`; `none` is the failed `CHECK_NE`. -/
def regst_desc_id (self : Regst) : Option Int :=
  if self.status_.regst_desc_id ≠ -1 then some self.status_.regst_desc_id else none

def regst_desc (self : Regst) : Option RtRegstDesc := self.regst_desc_

def GetBlobSize (self : Regst) : Int := (self.sorted_blob_vec_.length : Int)

def comm_net_token (self : Regst) : Option Nat := self.comm_net_token_

def set_piece_id (self : Regst) (val : Int) : Regst :=
  { self with status_ := { self.status_ with piece_id := val } }

def set_act_id (self : Regst) (val : Int) : Regst :=
  { self with status_ := { self.status_ with act_id := val } }

end Regst

/-! ## Loops -/

/-- The first `n` runs of a loop `for (i = 0; ...; ++i) body(i)`, each from the state the
previous one left; `none` once a run has failed. -/
def forCountUp.loop {σ : Type} (body : Int → σ → Option σ) : Nat → σ → Option σ
  | 0, s => some s
  | i + 1, s => (forCountUp.loop body i s).bind (body (i : Int))

/-- The loop `for (i = 0; i < n; ++i) body(i)`: no run at all when `n ≤ 0`. -/
def forCountUp {σ : Type} (n : Int) (body : Int → σ → Option σ) (s : σ) : Option σ :=
  forCountUp.loop body n.toNat s

/-- The first `n` runs of a loop that counts down, `for (k = n; k; --k) body`, each from the
state the previous one left; `none` once a run has failed. -/
def forCountDown.loop {σ : Type} (body : σ → Option σ) : Nat → σ → Option σ
  | 0, s => some s
  | n + 1, s => (forCountDown.loop body n s).bind body

/-- The loops `for (k = n; k; --k) body` and `for (k = n; k--; step) body` (with `step` as the
last action of `body`): `n` runs when `0 ≤ n`. For a negative `n` the counter moves away from 0
and the loop does not end before the counter overflows: `none`. -/
def forCountDown {σ : Type} (n : Int) (body : σ → Option σ) (s : σ) : Option σ :=
  if 0 ≤ n then forCountDown.loop body n.toNat s else none

/-! ## Convolution kernel on the CPU (convolution_kernel.cpp) -/

/-- The predicate "fits in `int`" (32 bits). -/
def IsInt32 (x : Int) : Prop := -(2 : Int) ^ 31 ≤ x ∧ x < (2 : Int) ^ 31

instance (x : Int) : Decidable (IsInt32 x) := by
  unfold IsInt32; exact inferInstance

/-- `IsAGreaterThanZeroAndLessThanB(a, b)`: the comparison of the two `int` arguments after
their conversion to `unsigned` (32 bits). -/
def IsAGreaterThanZeroAndLessThanB (a b : Int) : Bool :=
  decide ((a % (2 : Int) ^ 32).toNat < (b % (2 : Int) ^ 32).toNat)

/-- The eleven `int` arguments that `Col2Im` and `Im2Col` share, under their names in the
source. Arithmetic on `int` is exact here: an overflow of signed arithmetic has no defined
result, and the properties below are about runs without one. -/
structure ConvArgs where
  channels : Int
  height : Int
  width : Int
  kernel_h : Int
  kernel_w : Int
  pad_h : Int
  pad_w : Int
  stride_h : Int
  stride_w : Int
  dilation_h : Int
  dilation_w : Int
  deriving DecidableEq

namespace ConvArgs

/-- The local `output_h`; the division of `int` rounds towards zero. -/
def output_h (g : ConvArgs) : Int :=
  (g.height + 2 * g.pad_h - (g.dilation_h * (g.kernel_h - 1) + 1)).tdiv g.stride_h + 1

/-- The local `output_w`. -/
def output_w (g : ConvArgs) : Int :=
  (g.width + 2 * g.pad_w - (g.dilation_w * (g.kernel_w - 1) + 1)).tdiv g.stride_w + 1

/-- The local `channel_size`. -/
def channel_size (g : ConvArgs) : Int := g.height * g.width

/-- The image row that kernel row `kernel_row` meets at output row `output_row`. -/
def input_row (g : ConvArgs) (kernel_row output_row : Int) : Int :=
  output_row * g.stride_h - g.pad_h + kernel_row * g.dilation_h

/-- The image column that kernel column `kernel_col` meets at output column `output_col`. -/
def input_col (g : ConvArgs) (kernel_col output_col : Int) : Int :=
  output_col * g.stride_w - g.pad_w + kernel_col * g.dilation_w

end ConvArgs

namespace Im2Col

variable {α : Type} [Zero α]

/-- The body of the loop over `output_col` of `Im2Col`, on the state `(input_col, data_col)`;
`data_col` is the list of the elements written so far through `*(data_col++)`, `mem` the memory
read through `dptr`. -/
def colBody (mem : Int → α) (g : ConvArgs) (dptr input_row : Int) (s : Int × List α) :
    Option (Int × List α) :=
  let input_col := s.1
  let data_col := s.2
  let data_col :=
    if IsAGreaterThanZeroAndLessThanB input_col g.width then
      data_col ++ [mem (dptr + (input_row * g.width + input_col))]
    else
      data_col ++ [0]
  some (input_col + g.stride_w, data_col)

/-- The body of the loop over `output_rows` of `Im2Col`, on the state `(input_row, data_col)`. -/
def rowBody (mem : Int → α) (g : ConvArgs) (dptr kernel_col : Int) (s : Int × List α) :
    Option (Int × List α) :=
  let input_row := s.1
  let data_col := s.2
  let data_col :=
    if !IsAGreaterThanZeroAndLessThanB input_row g.height then
      forCountDown g.output_w (fun data_col => some (data_col ++ [0])) data_col
    else
      let input_col := -g.pad_w + kernel_col * g.dilation_w
      (forCountDown g.output_w (colBody mem g dptr input_row) (input_col, data_col)).map
        Prod.snd
  data_col.map fun data_col => (input_row + g.stride_h, data_col)

/-- The body of the loop over `kernel_col` of `Im2Col`, on the state `data_col`. -/
def kernelColBody (mem : Int → α) (g : ConvArgs) (dptr kernel_row kernel_col : Int)
    (data_col : List α) : Option (List α) :=
  let input_row := -g.pad_h + kernel_row * g.dilation_h
  (forCountDown g.output_h (rowBody mem g dptr kernel_col) (input_row, data_col)).map Prod.snd

/-- The body of the loop over `kernel_row` of `Im2Col`, on the state `data_col`. -/
def kernelRowBody (mem : Int → α) (g : ConvArgs) (dptr kernel_row : Int) (data_col : List α) :
    Option (List α) :=
  forCountUp g.kernel_w (kernelColBody mem g dptr kernel_row) data_col

/-- The body of the loop over `channel` of `Im2Col`, with its step `dptr += channel_size`, on
the state `(dptr, data_col)`. -/
def channelBody (mem : Int → α) (g : ConvArgs) (s : Int × List α) : Option (Int × List α) :=
  let dptr := s.1
  let data_col := s.2
  (forCountUp g.kernel_h (kernelRowBody mem g dptr) data_col).map fun data_col =>
    (dptr + g.channel_size, data_col)

/-- The element that `Im2Col` writes when it is at image row `input_row` and image column
`input_col` of the channel at `dptr`. -/
def written (mem : Int → α) (g : ConvArgs) (dptr input_row input_col : Int) : α :=
  if IsAGreaterThanZeroAndLessThanB input_row g.height then
    if IsAGreaterThanZeroAndLessThanB input_col g.width then
      mem (dptr + (input_row * g.width + input_col))
    else 0
  else 0

/-- The elements that `Im2Col` writes for one kernel position of the channel at `dptr`: one per
output row and output column. -/
def kernelBlock (mem : Int → α) (g : ConvArgs) (dptr : Int) (kernel_row kernel_col : Nat) :
    List α :=
  (List.range g.output_h.toNat).flatMap fun output_row : Nat =>
    (List.range g.output_w.toNat).map fun output_col : Nat =>
      written mem g dptr (g.input_row kernel_row output_row) (g.input_col kernel_col output_col)

/-- The elements that `Im2Col` writes for the channel at `dptr`: one block per kernel
position. -/
def channelBlock (mem : Int → α) (g : ConvArgs) (dptr : Int) : List α :=
  (List.range g.kernel_h.toNat).flatMap fun kernel_row : Nat =>
    (List.range g.kernel_w.toNat).flatMap fun kernel_col : Nat =>
      kernelBlock mem g dptr kernel_row kernel_col

end Im2Col

/-- `ConvolutionKernelUtil<DeviceType::kCPU, FloatingPointType>::Im2Col`, the work it sends to
the CPU stream: `mem` is the memory of the elements, `dptr` the position of the image in it, and
the result is the list of the elements written from `data_col` on, in order. `none` is a
division by zero or a loop that does not end. -/
def Im2Col {α : Type} [Zero α] (mem : Int → α) (dptr : Int) (g : ConvArgs) : Option (List α) :=
  if g.stride_h = 0 ∨ g.stride_w = 0 then
    none
  else
    (forCountDown g.channels (Im2Col.channelBody mem g) (dptr, [])).map Prod.snd

namespace Col2Im

variable {α : Type} [Zero α] [Add α]

/-- The body of the loop over `output_col` of `Col2Im`, on the state
`(input_col, data_col, mem)`: `col` is the memory read through `data_col`, a position in it, and
`mem` the memory written through `mut_dptr`. -/
def colBody (col : Int → α) (g : ConvArgs) (mut_dptr input_row : Int)
    (s : Int × Int × (Int → α)) : Option (Int × Int × (Int → α)) :=
  let input_col := s.1
  let data_col := s.2.1
  let mem := s.2.2
  let mem :=
    if IsAGreaterThanZeroAndLessThanB input_col g.width then
      Function.update mem (mut_dptr + (input_row * g.width + input_col))
        (mem (mut_dptr + (input_row * g.width + input_col)) + col data_col)
    else
      mem
  some (input_col + g.stride_w, data_col + 1, mem)

/-- The body of the loop over `output_rows` of `Col2Im`, on the state
`(input_row, data_col, mem)`. -/
def rowBody (col : Int → α) (g : ConvArgs) (mut_dptr kernel_col : Int)
    (s : Int × Int × (Int → α)) : Option (Int × Int × (Int → α)) :=
  let input_row := s.1
  let data_col := s.2.1
  let mem := s.2.2
  if !IsAGreaterThanZeroAndLessThanB input_row g.height then
    some (input_row + g.stride_h, data_col + g.output_w, mem)
  else
    let input_col := -g.pad_w + kernel_col * g.dilation_w
    (forCountDown g.output_w (colBody col g mut_dptr input_row) (input_col, data_col, mem)).map
      fun s => (input_row + g.stride_h, s.2.1, s.2.2)

/-- The body of the loop over `kernel_col` of `Col2Im`, on the state `(data_col, mem)`. -/
def kernelColBody (col : Int → α) (g : ConvArgs) (mut_dptr kernel_row kernel_col : Int)
    (s : Int × (Int → α)) : Option (Int × (Int → α)) :=
  let input_row := -g.pad_h + kernel_row * g.dilation_h
  (forCountDown g.output_h (rowBody col g mut_dptr kernel_col) (input_row, s.1, s.2)).map
    fun s => (s.2.1, s.2.2)

/-- The body of the loop over `kernel_row` of `Col2Im`, on the state `(data_col, mem)`. -/
def kernelRowBody (col : Int → α) (g : ConvArgs) (mut_dptr kernel_row : Int)
    (s : Int × (Int → α)) : Option (Int × (Int → α)) :=
  forCountUp g.kernel_w (kernelColBody col g mut_dptr kernel_row) s

/-- The body of the loop over `channel` of `Col2Im`, with its step `mut_dptr += channel_size`,
on the state `(mut_dptr, data_col, mem)`. -/
def channelBody (col : Int → α) (g : ConvArgs) (s : Int × Int × (Int → α)) :
    Option (Int × Int × (Int → α)) :=
  let mut_dptr := s.1
  (forCountUp g.kernel_h (kernelRowBody col g mut_dptr) (s.2.1, s.2.2)).map fun t =>
    (mut_dptr + g.channel_size, t.1, t.2)

end Col2Im

/-- `ConvolutionKernelUtil<DeviceType::kCPU, FloatingPointType>::Col2Im`, the work it sends to
the CPU stream: `col` is the memory read from position `data_col` on, `mem` the memory of the
image before the call and `mut_dptr` the position of the image in it; the result is the memory
of the image afterwards. `none` is a `memset` of negative size, a division by zero or a loop
that does not end. -/
def Col2Im {α : Type} [Zero α] [Add α] (col : Int → α) (data_col : Int) (g : ConvArgs)
    (mem : Int → α) (mut_dptr : Int) : Option (Int → α) :=
  if g.height * g.width * g.channels < 0 then
    none
  else
    let mem : Int → α := fun p =>
      if mut_dptr ≤ p ∧ p < mut_dptr + g.height * g.width * g.channels then 0 else mem p
    if g.stride_h = 0 ∨ g.stride_w = 0 then
      none
    else
      (forCountDown g.channels (Col2Im.channelBody col g) (mut_dptr, data_col, mem)).map
        fun s => s.2.2

namespace Col2Im

/-- What `Col2Im` adds to the element at position `p` of the memory when it is at image row
`input_row` and image column `input_col` of the channel at `mut_dptr` and reads position
`data_col`. -/
def added {α : Type} [AddCommMonoid α] (col : Int → α) (g : ConvArgs)
    (mut_dptr p input_row input_col data_col : Int) : α :=
  if IsAGreaterThanZeroAndLessThanB input_row g.height = true ∧
      IsAGreaterThanZeroAndLessThanB input_col g.width = true ∧
      mut_dptr + (input_row * g.width + input_col) = p then
    col data_col
  else 0

/-- What `Col2Im` adds to the element at position `p` for one kernel position of the channel at
`mut_dptr`, reading from position `data_col` on. -/
def kernelAdded {α : Type} [AddCommMonoid α] (col : Int → α) (g : ConvArgs)
    (mut_dptr p : Int) (kernel_row kernel_col : Nat) (data_col : Int) : α :=
  ∑ output_row ∈ Finset.range g.output_h.toNat, ∑ output_col ∈ Finset.range g.output_w.toNat,
    added col g mut_dptr p (g.input_row kernel_row output_row)
      (g.input_col kernel_col output_col)
      (data_col + (output_row : Int) * g.output_w + (output_col : Int))

end Col2Im

/-- The arguments of a convolution of a `3 × 3` image of one channel with a `2 × 2` kernel, pad 1
in both directions, stride 2 and no dilation: `output_h = output_w = 2`. -/
def convExample : ConvArgs :=
  { channels := 1, height := 3, width := 3, kernel_h := 2, kernel_w := 2, pad_h := 1, pad_w := 1,
    stride_h := 2, stride_w := 2, dilation_h := 1, dilation_w := 1 }

/-- The arguments of a convolution with a `1 × 1` kernel, stride 1 and no dilation over an image
of one channel whose height is given as `-1` and whose width is 1, with 2 rows of padding:
`output_h = (-1 + 2 * 2 - 1) / 1 + 1 = 3` and `output_w = 1`, and the three output rows stand for
the image rows `-2`, `-1` and `0`. -/
def convNegativeHeight : ConvArgs :=
  { channels := 1, height := -1, width := 1, kernel_h := 1, kernel_w := 1, pad_h := 2, pad_w := 0,
    stride_h := 1, stride_w := 1, dilation_h := 1, dilation_w := 1 }

/-! ## Seed of a model io kernel (model_io_v2_op.cpp) -/

namespace Shape

/-- Modelled from the spec: `Shape::NumAxes()`, the number of dimensions. -/
def NumAxes (shape : Shape) : Int := (shape.dim_vec.length : Int)

/-- Modelled from the spec: `Shape::At(index)`, the dimension of an axis; `none` for an index
that is not an axis. -/
def At (shape : Shape) (index : Int) : Option Int := RtRegstDesc.vectorAt shape.dim_vec index

/-- Modelled from the spec: `Shape::Count(begin_axis)`, the product of the dimensions from
`begin_axis` to the last axis (1 when there is none left). -/
def Count (shape : Shape) (begin_axis : Int) : Int := (shape.dim_vec.drop begin_axis.toNat).prod

end Shape

/-- Modelled from the spec: the protobuf message `SbpParallel`, a `oneof` of split (along an
axis), broadcast and partial sum, which may also be unset. -/
inductive SbpParallel where
  | PARALLEL_TYPE_NOT_SET : SbpParallel
  | split_parallel_case (axis : Int) : SbpParallel
  | broadcast_parallel_case : SbpParallel
  | partial_sum_parallel_case : SbpParallel
  deriving DecidableEq

namespace SbpParallel

def has_split_parallel : SbpParallel → Bool
  | split_parallel_case _ => true
  | _ => false

def has_broadcast_parallel : SbpParallel → Bool
  | broadcast_parallel_case => true
  | _ => false

end SbpParallel

namespace GenModelIoV2KernelConf

/-- The body of the first loop of `GenModelIoV2KernelConf` (axis `i`), acting on `seed_dim_vec`;
`none` is a failed `CHECK`, an axis without a distribution string, or a throwing `at`. The
parser `ParseSbpParallelFromString` is not among the sources and is a parameter: `none` is its
result `false`. -/
def seedDimBody (ParseSbpParallelFromString : String → Option SbpParallel)
    (parallel_distribution : List String) (i : Int) (seed_dim_vec : List Int) :
    Option (List Int) :=
  match RtRegstDesc.vectorAt parallel_distribution i with
  | none => none
  | some distribution =>
    match ParseSbpParallelFromString distribution with
    | none => none
    | some sbp_parallel =>
      if sbp_parallel.has_split_parallel || sbp_parallel.has_broadcast_parallel then
        if sbp_parallel.has_broadcast_parallel then
          match RtRegstDesc.vectorAt seed_dim_vec i with
          | none => none
          | some _ => some (seed_dim_vec.set (toBits64 i) 1)
        else
          some seed_dim_vec
      else
        none

/-- The body of the second loop of `GenModelIoV2KernelConf` (axis `j`), acting on `seed_id`;
`none` is a division by zero or a failed axis check of `Shape::At`. The operators `%` and `/`
of `int64_t` round towards zero. -/
def seedIdBody (parallel_id : Int) (hierarchy seed_shape : Shape) (j : Int) (seed_id : Int) :
    Option Int :=
  if hierarchy.Count j = 0 ∨ hierarchy.Count (j + 1) = 0 then
    none
  else
    let parallel_id_j := (parallel_id.tmod (hierarchy.Count j)).tdiv (hierarchy.Count (j + 1))
    match seed_shape.At j with
    | none => none
    | some dim =>
      if dim ≠ 1 then
        some (add64 seed_id (mul64 parallel_id_j (seed_shape.Count (j + 1))))
      else
        some seed_id

/-- The distribution of hierarchy axis `i`: the parsed `i`-th distribution string, if there is
one and it parses. -/
def sbpOfAxis (ParseSbpParallelFromString : String → Option SbpParallel)
    (parallel_distribution : List String) (i : Nat) : Option SbpParallel :=
  parallel_distribution[i]?.bind ParseSbpParallelFromString

/-- The coordinate of a parallel id on hierarchy axis `j`, as the second loop computes it:
`(parallel_id % Count(j)) / Count(j + 1)`. -/
def axisCoordinate (parallel_id : Int) (hierarchy : Shape) (j : Nat) : Int :=
  (parallel_id.tmod (hierarchy.Count (j : Int))).tdiv (hierarchy.Count ((j : Int) + 1))

/-- The value of `seed_id` after the first `k` axes, in exact integer arithmetic and for a
non-negative parallel id: axis `j` adds its coordinate times the count of the seed dimensions
after it, unless the seed dimension of the axis is 1. -/
def seedIdAfter (parallel_id : Int) (dims seed : List Int) : Nat → Int
  | 0 => 0
  | j + 1 =>
    seedIdAfter parallel_id dims seed j +
      (if seed.getD j 0 ≠ 1 then
        parallel_id % (dims.drop j).prod / (dims.drop (j + 1)).prod * (seed.drop (j + 1)).prod
      else 0)

end GenModelIoV2KernelConf

/-- The part of `GenModelIoV2KernelConf` that computes `seed_shape` and `seed_id` from the
distribution strings of the variable, the parallel id and the hierarchy of the placement; the
result is the pair of `seed_shape` and `seed_id`, `none` a fatal error. -/
def GenModelIoV2KernelConf (ParseSbpParallelFromString : String → Option SbpParallel)
    (parallel_distribution : List String) (parallel_id : Int) (hierarchy : Shape) :
    Option (Shape × Int) :=
  let seed_dim_vec := hierarchy.dim_vec
  match forCountUp hierarchy.NumAxes
      (GenModelIoV2KernelConf.seedDimBody ParseSbpParallelFromString parallel_distribution)
      seed_dim_vec with
  | none => none
  | some seed_dim_vec =>
    let seed_shape : Shape := { dim_vec := seed_dim_vec }
    let seed_id : Int := 0
    match forCountUp hierarchy.NumAxes
        (GenModelIoV2KernelConf.seedIdBody parallel_id hierarchy seed_shape) seed_id with
    | none => none
    | some seed_id => some (seed_shape, seed_id)

/-- A parser of distribution strings that knows `"B"` (broadcast) and `"S(0)"`, `"S(1)"` (split
along axis 0 or 1), used in examples. -/
def parseSbpExample (distribution : String) : Option SbpParallel :=
  if distribution = "B" then some SbpParallel.broadcast_parallel_case
  else if distribution = "S(0)" then some (SbpParallel.split_parallel_case 0)
  else if distribution = "S(1)" then some (SbpParallel.split_parallel_case 1)
  else none

end oneflow

namespace oneflow

/-! ## Facts about 64-bit arithmetic -/

theorem toBits64_cast (x : Int) : ((toBits64 x : Nat) : Int) = x % (2 : Int) ^ 64 := by
  unfold toBits64
  omega

theorem toBits64_lt (x : Int) : toBits64 x < 2 ^ 64 := by
  have h := toBits64_cast x
  omega

theorem ofBits64_cast_mod (n : Nat) : ofBits64 n % (2 : Int) ^ 64 = (n : Int) % (2 : Int) ^ 64 := by
  unfold ofBits64
  split <;> omega

theorem isInt64_ofBits64 (n : Nat) : IsInt64 (ofBits64 n) := by
  unfold ofBits64 IsInt64
  split <;> omega

theorem ofBits64_eq_of_mod (n : Nat) (x : Int) (hx : IsInt64 x)
    (h : (n : Int) % (2 : Int) ^ 64 = x % (2 : Int) ^ 64) : ofBits64 n = x := by
  have h1 := ofBits64_cast_mod n
  have h2 := isInt64_ofBits64 n
  unfold IsInt64 at hx h2
  omega

theorem ofBits64_toBits64 (x : Int) (hx : IsInt64 x) : ofBits64 (toBits64 x) = x :=
  ofBits64_eq_of_mod _ x hx (by rw [toBits64_cast]; omega)

theorem toBits64_ofBits64 (n : Nat) : toBits64 (ofBits64 n) = n % 2 ^ 64 := by
  have h1 := toBits64_cast (ofBits64 n)
  have h2 := ofBits64_cast_mod n
  omega

theorem toBits64_natCast (n : Nat) (h : n < 2 ^ 64) : toBits64 (n : Int) = n := by
  have h1 := toBits64_cast (n : Int)
  omega

theorem ofBits64_of_lt (n : Nat) (h : n < 2 ^ 63) : ofBits64 n = (n : Int) :=
  ofBits64_eq_of_mod n n (by unfold IsInt64; omega) rfl

theorem add64_eq (x y : Int) (h : IsInt64 (x + y)) : add64 x y = x + y := by
  unfold add64
  apply ofBits64_eq_of_mod _ _ h
  have hx := toBits64_cast x
  have hy := toBits64_cast y
  push_cast
  omega

theorem add64_left_cancel (c x y : Int) (hx : IsInt64 x) (hy : IsInt64 y)
    (h : add64 c x = add64 c y) : x = y := by
  have h1 := ofBits64_cast_mod (toBits64 c + toBits64 x)
  have h2 := ofBits64_cast_mod (toBits64 c + toBits64 y)
  have hc := toBits64_cast c
  have hx1 := toBits64_cast x
  have hy1 := toBits64_cast y
  unfold add64 at h
  rw [h] at h1
  unfold IsInt64 at hx hy
  push_cast at h1 h2
  omega

end oneflow

namespace oneflow

namespace MemoryCaseUtil

open MemoryCase

/-! ## Common memory case -/

/-- C1. For two device memory cases `a` and `b`, `GetCommonMemoryCase` returns `true` if and only
if the two device ids are equal, and when it returns `true` the common memory case it stores
is `a`. -/
theorem GetCommonMemoryCase_device (a b : DeviceCudaMemory) (common : MemoryCase) :
    ((GetCommonMemoryCase (device_cuda_mem_case a) (device_cuda_mem_case b) common).1 = true
        ↔ a.device_id = b.device_id) ∧
      ((GetCommonMemoryCase (device_cuda_mem_case a) (device_cuda_mem_case b) common).1 = true →
        (GetCommonMemoryCase (device_cuda_mem_case a) (device_cuda_mem_case b) common).2
          = device_cuda_mem_case a) := by
  by_cases h : a.device_id = b.device_id <;>
    simp [GetCommonMemoryCase, has_device_cuda_mem, device_cuda_mem, h]

/-- C1, at devices 2 and 2: the call succeeds and stores the first argument. -/
theorem GetCommonMemoryCase_device_witness :
    (GetCommonMemoryCase (device_cuda_mem_case { device_id := 2 })
        (device_cuda_mem_case { device_id := 2 }) CASE_NOT_SET).1 = true ∧
      (GetCommonMemoryCase (device_cuda_mem_case { device_id := 2 })
        (device_cuda_mem_case { device_id := 2 }) CASE_NOT_SET).2
          = device_cuda_mem_case { device_id := 2 } :=
  ⟨by decide,
   (GetCommonMemoryCase_device { device_id := 2 } { device_id := 2 } CASE_NOT_SET).2
     (by decide)⟩

/-- C2. At two unpinned host memory cases, the first without `used_by_network` and the second
with `used_by_network` set to `false`, both flags read `false`, yet the common memory case
stored by `GetCommonMemoryCase` reads `used_by_network = true`. -/
theorem GetCommonMemoryCase_host_used_by_network_explicit_false :
    (HostMemory.used_by_network {} || HostMemory.used_by_network { used_by_network_ := some false })
        = false ∧
      GetCommonMemoryCase (host_mem_case {}) (host_mem_case { used_by_network_ := some false })
          CASE_NOT_SET
        = (true, host_mem_case { used_by_network_ := some true }) ∧
      (GetCommonMemoryCase (host_mem_case {}) (host_mem_case { used_by_network_ := some false })
          CASE_NOT_SET).2.host_mem.used_by_network = true := by
  decide

/-- C3. For two host memory cases `a` and `b`, `GetCommonMemoryCase` returns `true`, stores a
host memory case, and the pinning of the stored case is that of `b` when `b` has one and that
of `a` (possibly none) otherwise. -/
theorem GetCommonMemoryCase_host_pinning (a b : HostMemory) (common : MemoryCase) :
    (GetCommonMemoryCase (host_mem_case a) (host_mem_case b) common).1 = true ∧
      (GetCommonMemoryCase (host_mem_case a) (host_mem_case b) common).2.has_host_mem = true ∧
      (GetCommonMemoryCase (host_mem_case a) (host_mem_case b) common).2.host_mem.cuda_pinned_mem_
        = (match b.cuda_pinned_mem_ with
           | some pinned => some pinned
           | none => a.cuda_pinned_mem_) := by
  obtain ⟨ap, au⟩ := a
  obtain ⟨bp, bu⟩ := b
  cases bp <;> cases bu <;>
    simp [GetCommonMemoryCase, has_device_cuda_mem, has_host_mem, host_mem, mutable_host_mem,
      HostMemory.has_cuda_pinned_mem, HostMemory.has_used_by_network, HostMemory.cuda_pinned_mem]

/-- C4. For a device memory case and a host memory case, in either order, `GetCommonMemoryCase`
returns `false` (a total function: nothing aborts) and leaves `*common` as it was. -/
theorem GetCommonMemoryCase_mixed (d : DeviceCudaMemory) (h : HostMemory) (common : MemoryCase) :
    GetCommonMemoryCase (device_cuda_mem_case d) (host_mem_case h) common = (false, common) ∧
      GetCommonMemoryCase (host_mem_case h) (device_cuda_mem_case d) common = (false, common) := by
  simp [GetCommonMemoryCase, has_device_cuda_mem, has_host_mem]

/-! ## Zone ids -/

/-- C5. `GenMemZoneId` returns the device id for a device memory case, 128 for every host memory
case without pinning and `129 + d` for every host memory case pinned for device `d` (with
`129 + d` an `int64_t`, as the source computes it), whatever `used_by_network` is. -/
theorem GenMemZoneId_values (id d : Int) (used_by_network : Option Bool)
    (hd : IsInt64 (129 + d)) :
    GenMemZoneId (device_cuda_mem_case { device_id := id }) = some id ∧
      GenMemZoneId (host_mem_case { cuda_pinned_mem_ := none,
                                    used_by_network_ := used_by_network }) = some 128 ∧
      GenMemZoneId (host_mem_case { cuda_pinned_mem_ := some { device_id := d },
                                    used_by_network_ := used_by_network }) = some (129 + d) := by
  refine ⟨by simp [GenMemZoneId, has_device_cuda_mem, device_cuda_mem],
    by simp [GenMemZoneId, has_device_cuda_mem, has_host_mem, host_mem,
      HostMemory.has_cuda_pinned_mem], ?_⟩
  simp [GenMemZoneId, has_device_cuda_mem, has_host_mem, host_mem,
    HostMemory.has_cuda_pinned_mem, HostMemory.cuda_pinned_mem, add64_eq 129 d hd]

/-- C5, at device 5: the zone ids of `Device{5}`, `Host{None, false}` and `Host{Some 5, false}`
are 5, 128 and 134. -/
theorem GenMemZoneId_values_witness :
    IsInt64 (129 + 5) ∧
      GenMemZoneId (device_cuda_mem_case { device_id := 5 }) = some 5 ∧
      GenMemZoneId (host_mem_case { cuda_pinned_mem_ := none,
                                    used_by_network_ := some false }) = some 128 ∧
      GenMemZoneId (host_mem_case { cuda_pinned_mem_ := some { device_id := 5 },
                                    used_by_network_ := some false }) = some 134 :=
  ⟨by decide, GenMemZoneId_values 5 5 (some false) (by decide)⟩

/-- C6, as stated, fails: a device with id 128 and an unpinned host share zone id 128, a device
with id 134 and a host pinned for device 5 share zone id 134, and an unpinned host and a host
pinned for device id -1 share zone id 128. -/
theorem GenMemZoneId_collision :
    GenMemZoneId (device_cuda_mem_case { device_id := 128 })
        = GenMemZoneId (host_mem_case {}) ∧
      GenMemZoneId (device_cuda_mem_case { device_id := 134 })
        = GenMemZoneId (host_mem_case { cuda_pinned_mem_ := some { device_id := 5 } }) ∧
      GenMemZoneId (host_mem_case {})
        = GenMemZoneId (host_mem_case { cuda_pinned_mem_ := some { device_id := -1 } }) := by
  decide

/-- C6, amended. Two devices with distinct ids have distinct zone ids, and so have two hosts
pinned for distinct device ids; when the device ids involved lie in the reserved range
`0..127`, the zone id of a device differs from that of every host, and the zone id of an
unpinned host differs from that of every pinned host. -/
theorem GenMemZoneId_distinct :
    (∀ id₁ id₂ : Int, id₁ ≠ id₂ →
        GenMemZoneId (device_cuda_mem_case { device_id := id₁ })
          ≠ GenMemZoneId (device_cuda_mem_case { device_id := id₂ })) ∧
      (∀ (d₁ d₂ : Int) (u₁ u₂ : Option Bool), IsInt64 d₁ → IsInt64 d₂ → d₁ ≠ d₂ →
        GenMemZoneId (host_mem_case { cuda_pinned_mem_ := some { device_id := d₁ },
                                      used_by_network_ := u₁ })
          ≠ GenMemZoneId (host_mem_case { cuda_pinned_mem_ := some { device_id := d₂ },
                                          used_by_network_ := u₂ })) ∧
      (∀ (id : Int) (u : Option Bool), 0 ≤ id → id ≤ 127 →
        GenMemZoneId (device_cuda_mem_case { device_id := id })
          ≠ GenMemZoneId (host_mem_case { cuda_pinned_mem_ := none, used_by_network_ := u })) ∧
      (∀ (id d : Int) (u : Option Bool), 0 ≤ id → id ≤ 127 → 0 ≤ d → d ≤ 127 →
        GenMemZoneId (device_cuda_mem_case { device_id := id })
          ≠ GenMemZoneId (host_mem_case { cuda_pinned_mem_ := some { device_id := d },
                                          used_by_network_ := u })) ∧
      (∀ (d : Int) (u₁ u₂ : Option Bool), 0 ≤ d → d ≤ 127 →
        GenMemZoneId (host_mem_case { cuda_pinned_mem_ := none, used_by_network_ := u₁ })
          ≠ GenMemZoneId (host_mem_case { cuda_pinned_mem_ := some { device_id := d },
                                          used_by_network_ := u₂ })) := by
  refine ⟨?_, ?_, ?_, ?_, ?_⟩
  · intro id₁ id₂ hne
    simpa [GenMemZoneId, has_device_cuda_mem, device_cuda_mem] using hne
  · intro d₁ d₂ u₁ u₂ h₁ h₂ hne heq
    apply hne
    apply add64_left_cancel 129 d₁ d₂ h₁ h₂
    simpa [GenMemZoneId, has_device_cuda_mem, has_host_mem, host_mem,
      HostMemory.has_cuda_pinned_mem, HostMemory.cuda_pinned_mem] using heq
  · intro id u h0 h127
    simp only [GenMemZoneId, has_device_cuda_mem, has_host_mem, host_mem, device_cuda_mem,
      HostMemory.has_cuda_pinned_mem, Option.isSome, if_true, Bool.false_eq_true, if_false,
      ne_eq, Option.some.injEq]
    omega
  · intro id d u h0 h127 hd0 hd127
    have hadd : add64 129 d = 129 + d := add64_eq 129 d (by unfold IsInt64; omega)
    simp only [GenMemZoneId, has_device_cuda_mem, has_host_mem, host_mem, device_cuda_mem,
      HostMemory.has_cuda_pinned_mem, HostMemory.cuda_pinned_mem, Option.isSome, Option.getD,
      if_true, Bool.false_eq_true, if_false, ne_eq, Option.some.injEq, hadd]
    omega
  · intro d u₁ u₂ hd0 hd127
    have hadd : add64 129 d = 129 + d := add64_eq 129 d (by unfold IsInt64; omega)
    simp only [GenMemZoneId, has_device_cuda_mem, has_host_mem, host_mem,
      HostMemory.has_cuda_pinned_mem, HostMemory.cuda_pinned_mem, Option.isSome, Option.getD,
      if_true, Bool.false_eq_true, if_false, ne_eq, Option.some.injEq, hadd]
    omega

/-- C6, amended, at devices 5 and 7: all five kinds of pairs get distinct zone ids. -/
theorem GenMemZoneId_distinct_witness :
    GenMemZoneId (device_cuda_mem_case { device_id := 5 })
        ≠ GenMemZoneId (device_cuda_mem_case { device_id := 7 }) ∧
      GenMemZoneId (host_mem_case { cuda_pinned_mem_ := some { device_id := 5 },
                                    used_by_network_ := none })
        ≠ GenMemZoneId (host_mem_case { cuda_pinned_mem_ := some { device_id := 7 },
                                        used_by_network_ := some true }) ∧
      GenMemZoneId (device_cuda_mem_case { device_id := 5 })
        ≠ GenMemZoneId (host_mem_case { cuda_pinned_mem_ := none, used_by_network_ := none }) ∧
      GenMemZoneId (device_cuda_mem_case { device_id := 5 })
        ≠ GenMemZoneId (host_mem_case { cuda_pinned_mem_ := some { device_id := 7 },
                                        used_by_network_ := none }) ∧
      GenMemZoneId (host_mem_case { cuda_pinned_mem_ := none, used_by_network_ := none })
        ≠ GenMemZoneId (host_mem_case { cuda_pinned_mem_ := some { device_id := 7 },
                                        used_by_network_ := some false }) :=
  ⟨GenMemZoneId_distinct.1 5 7 (by decide),
   GenMemZoneId_distinct.2.1 5 7 none (some true) (by decide) (by decide) (by decide),
   GenMemZoneId_distinct.2.2.1 5 none (by decide) (by decide),
   GenMemZoneId_distinct.2.2.2.1 5 7 none (by decide) (by decide) (by decide) (by decide),
   GenMemZoneId_distinct.2.2.2.2 7 none (some false) (by decide) (by decide)⟩

/-- C7, as stated, fails: on machine 3, a device with id -1 has zone id -1 and unique zone id -1,
whose high 32 bits are not 3 (neither as an unsigned field nor by an arithmetic shift); and a
device with id `2^32` has unique zone id `3 * 2^32`, whose low 32 bits are 0, not the zone id. -/
theorem GenMemZoneUniqueId_not_decomposed :
    (GenMemZoneId (device_cuda_mem_case { device_id := -1 }) = some (-1) ∧
      GenMemZoneUniqueId 3 (device_cuda_mem_case { device_id := -1 }) = some (-1) ∧
      (high32 (-1) : Int) ≠ 3 ∧ (-1 : Int) / 2 ^ 32 ≠ 3) ∧
    (GenMemZoneId (device_cuda_mem_case { device_id := 4294967296 }) = some 4294967296 ∧
      GenMemZoneUniqueId 3 (device_cuda_mem_case { device_id := 4294967296 })
        = some 12884901888 ∧
      (low32 12884901888 : Int) ≠ 4294967296) := by
  decide

/-- C7, amended. For a machine id in `[0, 2^31)` and a memory case whose zone id is defined and
lies in `[0, 2^32)`, `GenMemZoneUniqueId` returns `machine_id * 2^32 + zone_id`, whose high 32 bits
are the machine id and whose low 32 bits are the zone id. -/
theorem GenMemZoneUniqueId_decomposes (machine_id zone_id : Int) (mem_case : MemoryCase)
    (hm : 0 ≤ machine_id ∧ machine_id < 2 ^ 31)
    (hz : GenMemZoneId mem_case = some zone_id)
    (hr : 0 ≤ zone_id ∧ zone_id < 2 ^ 32) :
    ∃ unique_id : Int,
      GenMemZoneUniqueId machine_id mem_case = some unique_id ∧
      unique_id = machine_id * 2 ^ 32 + zone_id ∧
      (high32 unique_id : Int) = machine_id ∧
      (low32 unique_id : Int) = zone_id := by
  obtain ⟨m, rfl⟩ := Int.eq_ofNat_of_zero_le hm.1
  obtain ⟨z, rfl⟩ := Int.eq_ofNat_of_zero_le hr.1
  have hm' : m < 2 ^ 31 := by omega
  have hz' : z < 2 ^ 32 := by omega
  have hshl : shl64 (m : Int) 32 = ((2 ^ 32 * m : Nat) : Int) := by
    unfold shl64
    rw [toBits64_natCast m (by omega), Nat.shiftLeft_eq, Nat.mul_comm]
    exact ofBits64_of_lt _ (by omega)
  have hor : or64 (shl64 (m : Int) 32) (z : Int) = ((2 ^ 32 * m + z : Nat) : Int) := by
    unfold or64
    rw [hshl, toBits64_natCast _ (by omega), toBits64_natCast z (by omega),
      ← Nat.mul_add_lt_is_or hz' m]
    exact ofBits64_of_lt _ (by omega)
  refine ⟨((2 ^ 32 * m + z : Nat) : Int), by simp [GenMemZoneUniqueId, hz, hor], ?_, ?_, ?_⟩
  · push_cast
    ring
  · unfold high32
    rw [toBits64_natCast _ (by omega)]
    have : (2 ^ 32 * m + z) / 2 ^ 32 = m := by omega
    rw [this]
  · unfold low32
    rw [toBits64_natCast _ (by omega)]
    have : (2 ^ 32 * m + z) % 2 ^ 32 = z := by omega
    rw [this]

/-- C7, amended, on machine 3 with an unpinned host: the unique zone id is `(3 << 32) | 128`,
that is `3 * 2^32 + 128`. -/
theorem GenMemZoneUniqueId_decomposes_witness :
    ∃ unique_id : Int,
      GenMemZoneUniqueId 3 (host_mem_case { cuda_pinned_mem_ := none,
                                            used_by_network_ := some false }) = some unique_id ∧
      unique_id = 3 * 2 ^ 32 + 128 ∧
      (high32 unique_id : Int) = 3 ∧
      (low32 unique_id : Int) = 128 :=
  GenMemZoneUniqueId_decomposes 3 128
    (host_mem_case { cuda_pinned_mem_ := none, used_by_network_ := some false })
    (by decide) (by decide) (by decide)

/-! ## Classification and the pinned host of a device -/

/-- C8. `IsHostUnPinnedMemoryCase` is true exactly for a host memory case with no pinning whose
`used_by_network` reads `false`; it is false for every device memory case, every pinned host and
every host used by the network. -/
theorem IsHostUnPinnedMemoryCase_iff :
    (∀ mem_case : MemoryCase,
        IsHostUnPinnedMemoryCase mem_case = true ↔
          ∃ h : HostMemory, mem_case = host_mem_case h ∧ h.cuda_pinned_mem_ = none ∧
            h.used_by_network = false) ∧
      (∀ d : DeviceCudaMemory, IsHostUnPinnedMemoryCase (device_cuda_mem_case d) = false) ∧
      (∀ (p : CudaPinnedMemory) (u : Option Bool),
        IsHostUnPinnedMemoryCase
          (host_mem_case { cuda_pinned_mem_ := some p, used_by_network_ := u }) = false) ∧
      (∀ p : Option CudaPinnedMemory,
        IsHostUnPinnedMemoryCase
          (host_mem_case { cuda_pinned_mem_ := p, used_by_network_ := some true }) = false) := by
  refine ⟨?_, ?_, ?_, ?_⟩
  · intro mem_case
    cases mem_case with
    | CASE_NOT_SET => simp [IsHostUnPinnedMemoryCase, has_host_mem]
    | device_cuda_mem_case d => simp [IsHostUnPinnedMemoryCase, has_host_mem]
    | host_mem_case h =>
      obtain ⟨p, u⟩ := h
      cases p <;>
        simp [IsHostUnPinnedMemoryCase, has_host_mem, host_mem, HostMemory.has_cuda_pinned_mem]
  · intro d
    simp [IsHostUnPinnedMemoryCase, has_host_mem]
  · intro p u
    simp [IsHostUnPinnedMemoryCase, has_host_mem, host_mem, HostMemory.has_cuda_pinned_mem]
  · intro p
    simp [IsHostUnPinnedMemoryCase, has_host_mem, host_mem, HostMemory.used_by_network]

/-- C9. `GetHostPinnedMemoryCaseForRegstSeparatedHeader` fails its `CHECK` exactly when the
memory case is not a device memory case; for a device memory case it returns the host memory
case pinned for that device id, whose `used_by_network` reads `false`, and which
`IsHostUnPinnedMemoryCase` does not classify as unpinned host. -/
theorem GetHostPinnedMemoryCaseForRegstSeparatedHeader_spec :
    (∀ mem_case : MemoryCase,
        GetHostPinnedMemoryCaseForRegstSeparatedHeader mem_case = none ↔
          ¬ ∃ d : DeviceCudaMemory, mem_case = device_cuda_mem_case d) ∧
      (∀ d : DeviceCudaMemory,
        GetHostPinnedMemoryCaseForRegstSeparatedHeader (device_cuda_mem_case d)
            = some (host_mem_case { cuda_pinned_mem_ := some { device_id := d.device_id },
                                    used_by_network_ := none }) ∧
          HostMemory.used_by_network { cuda_pinned_mem_ := some { device_id := d.device_id },
                                       used_by_network_ := none } = false ∧
          IsHostUnPinnedMemoryCase
            (host_mem_case { cuda_pinned_mem_ := some { device_id := d.device_id },
                             used_by_network_ := none }) = false) := by
  refine ⟨?_, ?_⟩
  · intro mem_case
    cases mem_case <;>
      simp [GetHostPinnedMemoryCaseForRegstSeparatedHeader, has_device_cuda_mem]
  · intro d
    simp [GetHostPinnedMemoryCaseForRegstSeparatedHeader, has_device_cuda_mem, device_cuda_mem,
      mutable_host_mem, host_mem, HostMemory.cuda_pinned_mem, HostMemory.used_by_network,
      IsHostUnPinnedMemoryCase, has_host_mem, HostMemory.has_cuda_pinned_mem]

end MemoryCaseUtil

end oneflow

namespace oneflow

namespace RtRegstDesc

/-! ## Layout offsets -/

theorem addSize64_step (cur : Int) (n k : Nat) :
    ofBits64 (toBits64 (addSize64 cur n) + k) = ofBits64 (toBits64 cur + (n + k)) := by
  unfold addSize64
  rw [toBits64_ofBits64]
  unfold ofBits64
  have h : ((toBits64 cur + n) % 2 ^ 64 + k) % 2 ^ 64 = (toBits64 cur + (n + k)) % 2 ^ 64 := by
    omega
  rw [h]

/-- The loop of `ForEachBlobDescOffsetInOnRegst`, started at index `i` with in-range offsets and
enough tensor ids for the remaining blob descriptors, runs to the end and appends one call per
remaining blob descriptor; the `j`-th of them carries the offsets advanced by the sizes of the
`j` blob descriptors before it. -/
theorem ForEachBlobDescOffsetInOnRegst.loop_recordCall (lbis : List LogicalBlobId) :
    ∀ (rest : List RtBlobDesc) (i : Nat) (cur_body cur_header : Int)
      (calls : List BlobDescOffsetCall),
      i + rest.length ≤ lbis.length → IsInt64 cur_body → IsInt64 cur_header →
      ∃ new : List BlobDescOffsetCall,
        ForEachBlobDescOffsetInOnRegst.loop lbis recordCall rest i cur_body cur_header calls
          = some (calls ++ new) ∧
        new.length = rest.length ∧
        ∀ j : Nat, j < rest.length →
          ∃ c : BlobDescOffsetCall, new[j]? = some c ∧
            c.ordinal = ((i + j : Nat) : Int) ∧
            some c.lbi = lbis[i + j]? ∧
            some c.desc = rest[j]? ∧
            c.body_offset = ofBits64 (toBits64 cur_body
              + ((rest.take j).map RtBlobDesc.AlignedByteSizeOfBlobBody).sum) ∧
            c.header_offset = ofBits64 (toBits64 cur_header
              + ((rest.take j).map RtBlobDesc.ByteSizeOfBlobHeader).sum) := by
  intro rest
  induction rest with
  | nil =>
    intro i cur_body cur_header calls _ _ _
    exact ⟨[], by simp [ForEachBlobDescOffsetInOnRegst.loop], rfl, by simp⟩
  | cons blob_desc rest ih =>
    intro i cur_body cur_header calls hlen hb hh
    have hi : i < lbis.length := by simp at hlen; omega
    obtain ⟨new, hrun, hnew, hcalls⟩ :=
      ih (i + 1) (addSize64 cur_body blob_desc.AlignedByteSizeOfBlobBody)
        (addSize64 cur_header blob_desc.ByteSizeOfBlobHeader)
        (recordCall (i : Int) lbis[i] blob_desc cur_body cur_header calls)
        (by simp at hlen; omega) (isInt64_ofBits64 _) (isInt64_ofBits64 _)
    refine ⟨{ ordinal := (i : Int), lbi := lbis[i], desc := blob_desc,
              body_offset := cur_body, header_offset := cur_header } :: new, ?_, ?_, ?_⟩
    · simp only [ForEachBlobDescOffsetInOnRegst.loop, List.getElem?_eq_getElem hi, hrun]
      simp [recordCall]
    · simp [hnew]
    · intro j hj
      cases j with
      | zero =>
        refine ⟨{ ordinal := (i : Int), lbi := lbis[i], desc := blob_desc,
                  body_offset := cur_body, header_offset := cur_header },
          by simp, by simp, ?_, by simp, ?_, ?_⟩
        · simp [List.getElem?_eq_getElem hi]
        · simp [ofBits64_toBits64 cur_body hb]
        · simp [ofBits64_toBits64 cur_header hh]
      | succ j =>
        obtain ⟨c, hc, hord, hlbi, hdesc, hbody, hheader⟩ :=
          hcalls j (by simp at hj; omega)
        refine ⟨c, by simpa using hc, ?_, ?_, by simpa using hdesc, ?_, ?_⟩
        · rw [hord]; congr 1; omega
        · rw [hlbi]; congr 1; omega
        · rw [hbody, addSize64_step]; simp
        · rw [hheader, addSize64_step]; simp

/-- C10. For a descriptor with `k` blob descriptors and `k` tensor ids,
`ForEachBlobDescOffsetInOnRegst` completes and calls the handler once per ordinal, in ascending
order; the call of ordinal `i` receives the tensor id and blob descriptor of ordinal `i`, a body
offset equal to the sum of the aligned body sizes of the ordinals below `i` and a header offset
equal to the sum of the header sizes of the ordinals below `i`, each sum being the exact one as
long as it fits in `int64_t`. -/
theorem ForEachBlobDescOffsetInOnRegst_offsets (self : RtRegstDesc)
    (hk : self.sorted_lbi_vec_.length = self.sorted_blob_desc_vec_.length) :
    ∃ calls : List BlobDescOffsetCall,
      self.ForEachBlobDescOffsetInOnRegst recordCall [] = some calls ∧
      calls.length = self.sorted_blob_desc_vec_.length ∧
      ∀ i : Nat, i < self.sorted_blob_desc_vec_.length →
        ∃ c : BlobDescOffsetCall, calls[i]? = some c ∧
          c.ordinal = (i : Int) ∧
          some c.lbi = self.sorted_lbi_vec_[i]? ∧
          some c.desc = self.sorted_blob_desc_vec_[i]? ∧
          ((((self.sorted_blob_desc_vec_.take i).map
                RtBlobDesc.AlignedByteSizeOfBlobBody).sum < 2 ^ 63) →
            c.body_offset = (((self.sorted_blob_desc_vec_.take i).map
                RtBlobDesc.AlignedByteSizeOfBlobBody).sum : Nat)) ∧
          ((((self.sorted_blob_desc_vec_.take i).map
                RtBlobDesc.ByteSizeOfBlobHeader).sum < 2 ^ 63) →
            c.header_offset = (((self.sorted_blob_desc_vec_.take i).map
                RtBlobDesc.ByteSizeOfBlobHeader).sum : Nat)) := by
  obtain ⟨new, hrun, hnew, hcalls⟩ :=
    ForEachBlobDescOffsetInOnRegst.loop_recordCall self.sorted_lbi_vec_
      self.sorted_blob_desc_vec_ 0 0 0 [] (by omega) (by decide) (by decide)
  refine ⟨new, by simpa [ForEachBlobDescOffsetInOnRegst] using hrun, hnew, ?_⟩
  intro i hi
  obtain ⟨c, hc, hord, hlbi, hdesc, hbody, hheader⟩ := hcalls i hi
  have h0 : toBits64 0 = 0 := by decide
  refine ⟨c, hc, by simpa using hord, by simpa using hlbi, hdesc, ?_, ?_⟩
  · intro hfit
    rw [hbody, h0, Nat.zero_add]
    exact ofBits64_of_lt _ hfit
  · intro hfit
    rw [hheader, h0, Nat.zero_add]
    exact ofBits64_of_lt _ hfit

/-- C10, at three tensors with aligned body sizes 4, 16, 8 and header sizes 2, 2, 2: the body
offsets passed are 0, 4, 20 and the header offsets 0, 2, 4. -/
theorem ForEachBlobDescOffsetInOnRegst_offsets_witness :
    threeTensors.sorted_lbi_vec_.length = threeTensors.sorted_blob_desc_vec_.length ∧
    (threeTensors.ForEachBlobDescOffsetInOnRegst recordCall []).map
        (fun calls => calls.map fun c => (c.ordinal, c.body_offset, c.header_offset))
      = some [(0, 0, 0), (1, 4, 2), (2, 20, 4)] ∧
    ∃ calls : List BlobDescOffsetCall,
      threeTensors.ForEachBlobDescOffsetInOnRegst recordCall [] = some calls ∧
      calls.length = threeTensors.sorted_blob_desc_vec_.length ∧
      ∀ i : Nat, i < threeTensors.sorted_blob_desc_vec_.length →
        ∃ c : BlobDescOffsetCall, calls[i]? = some c ∧
          c.ordinal = (i : Int) ∧
          some c.lbi = threeTensors.sorted_lbi_vec_[i]? ∧
          some c.desc = threeTensors.sorted_blob_desc_vec_[i]? ∧
          ((((threeTensors.sorted_blob_desc_vec_.take i).map
                RtBlobDesc.AlignedByteSizeOfBlobBody).sum < 2 ^ 63) →
            c.body_offset = (((threeTensors.sorted_blob_desc_vec_.take i).map
                RtBlobDesc.AlignedByteSizeOfBlobBody).sum : Nat)) ∧
          ((((threeTensors.sorted_blob_desc_vec_.take i).map
                RtBlobDesc.ByteSizeOfBlobHeader).sum < 2 ^ 63) →
            c.header_offset = (((threeTensors.sorted_blob_desc_vec_.take i).map
                RtBlobDesc.ByteSizeOfBlobHeader).sum : Nat)) :=
  ⟨by decide, by decide, ForEachBlobDescOffsetInOnRegst_offsets threeTensors (by decide)⟩

end RtRegstDesc

end oneflow

namespace oneflow

namespace RtRegstDesc

/-! ## The tables of a constructed descriptor -/

theorem stdSort_length_one {α : Type} (comp : α → α → Bool) (v : List α)
    (h : (stdSort comp v).length = 1) : ∃ x : α, v = [x] ∧ stdSort comp v = [x] := by
  unfold stdSort at h ⊢
  rw [List.length_insertionSort] at h
  obtain ⟨x, rfl⟩ := List.length_eq_one.mp h
  exact ⟨x, rfl, by simp⟩

theorem stdSort_singleton {α : Type} (comp : α → α → Bool) (x : α) : stdSort comp [x] = [x] := by
  simp [stdSort]

/-- A descriptor constructed from a data register description: the description lists one pair and
has a time shape, and every member of the descriptor is known. -/
theorem ctor_data (kCharBlobDesc : RtBlobDesc) (proto : RegstDescProto) (data : DataRegstDesc)
    (self : RtRegstDesc)
    (hdata : proto.regst_desc_type = RegstDescTypeProto.data_regst_desc_case data)
    (hctor : ctor kCharBlobDesc proto = some self) :
    ∃ (pair : LbiBlobDescPair) (time_shape : ShapeProto),
      data.lbi2blob_desc = [pair] ∧ data.time_shape_ = some time_shape ∧
      self = { regst_desc_id_ := proto.regst_desc_id,
               producer_actor_id_ := proto.producer_task_id,
               consumers_actor_id_ := proto.consumer_task_id,
               register_num_ := proto.register_num,
               mem_case_ := proto.mem_case,
               regst_desc_type_ := proto.regst_desc_type,
               data_regst_time_shape_ := some (Shape.ofProto time_shape),
               lbi2blob_desc_ordinal_ := [(pair.lbi, 0)],
               sorted_blob_desc_vec_ := [RtBlobDesc.ofProto pair.blob_desc],
               sorted_lbi_vec_ := [pair.lbi] } := by
  unfold ctor at hctor
  simp only [hdata, RegstDescTypeProto.has_data_regst_desc, RegstDescTypeProto.data_regst_desc,
    if_true] at hctor
  split at hctor
  · next hlen =>
    obtain ⟨pair, hpair, hsort⟩ := stdSort_length_one _ _ hlen
    split at hctor
    · next hts =>
      obtain ⟨time_shape, hshape⟩ := Option.isSome_iff_exists.mp hts
      refine ⟨pair, time_shape, hpair, hshape, ?_⟩
      rw [hsort] at hctor
      simp only [Option.some.injEq] at hctor
      rw [← hctor]
      simp [ctor.loop, HashMapEmplace, HashMapFind, DataRegstDesc.time_shape, hshape, hdata]
    · exact absurd hctor (by simp)
  · exact absurd hctor (by simp)

/-- A descriptor constructed from anything but a data register description holds the single
placeholder blob descriptor and no tensor id. -/
theorem ctor_ctrl (kCharBlobDesc : RtBlobDesc) (proto : RegstDescProto) (self : RtRegstDesc)
    (hctrl : proto.regst_desc_type.has_data_regst_desc = false)
    (hctor : ctor kCharBlobDesc proto = some self) :
    self = { regst_desc_id_ := proto.regst_desc_id,
             producer_actor_id_ := proto.producer_task_id,
             consumers_actor_id_ := proto.consumer_task_id,
             register_num_ := proto.register_num,
             mem_case_ := proto.mem_case,
             regst_desc_type_ := proto.regst_desc_type,
             data_regst_time_shape_ := none,
             lbi2blob_desc_ordinal_ := [],
             sorted_blob_desc_vec_ := [kCharBlobDesc],
             sorted_lbi_vec_ := [] } := by
  unfold ctor at hctor
  simp only [hctrl, Bool.false_eq_true, if_false, Option.some.injEq] at hctor
  rw [← hctor]
  simp

/-- Every constructed descriptor holds exactly one blob descriptor; its tensor ids are those of
the ordinal map, each mapped to ordinal 0, and there is at most one. -/
theorem ctor_tables (kCharBlobDesc : RtBlobDesc) (proto : RegstDescProto) (self : RtRegstDesc)
    (hctor : ctor kCharBlobDesc proto = some self) :
    ∃ sole : RtBlobDesc, self.sorted_blob_desc_vec_ = [sole] ∧ self.mem_case_ = proto.mem_case ∧
      ((self.sorted_lbi_vec_ = [] ∧ self.lbi2blob_desc_ordinal_ = []) ∨
        ∃ lbi : LogicalBlobId,
          self.sorted_lbi_vec_ = [lbi] ∧ self.lbi2blob_desc_ordinal_ = [(lbi, 0)]) := by
  cases htype : proto.regst_desc_type with
  | data_regst_desc_case data =>
    obtain ⟨pair, _, _, _, hself⟩ := ctor_data kCharBlobDesc proto data self htype hctor
    subst hself
    exact ⟨_, rfl, rfl, Or.inr ⟨pair.lbi, rfl, rfl⟩⟩
  | TYPE_NOT_SET =>
    have hself := ctor_ctrl kCharBlobDesc proto self (by simp [htype,
      RegstDescTypeProto.has_data_regst_desc]) hctor
    subst hself
    exact ⟨_, rfl, rfl, Or.inl ⟨rfl, rfl⟩⟩
  | ctrl_regst_desc_case =>
    have hself := ctor_ctrl kCharBlobDesc proto self (by simp [htype,
      RegstDescTypeProto.has_data_regst_desc]) hctor
    subst hself
    exact ⟨_, rfl, rfl, Or.inl ⟨rfl, rfl⟩⟩

/-! ## Layout of a constructed descriptor -/

/-- C11, as stated, fails. For the one-tensor data specification on host memory the descriptor is
constructed, the walk over the layout ends at body offset `0 + 4 = 4`, and
`MainByteSize4OneRegst` is 6, the full size of the tensor with its header. For the control
specification the descriptor is constructed and the walk over the layout does not complete, so
there is no final offset. -/
theorem ForEachBlobDescOffsetInOnRegst_final_offset_host :
    (∃ self : RtRegstDesc,
      ctor {} (oneTensorSpec (MemoryCase.host_mem_case {})) = some self ∧
      (self.ForEachBlobDescOffsetInOnRegst recordCall []).map
          (fun calls => calls.getLast?.map fun last =>
            addSize64 last.body_offset last.desc.AlignedByteSizeOfBlobBody)
        = some (some 4) ∧
      self.MainByteSize4OneRegst = some 6) ∧
    (∃ self : RtRegstDesc,
      ctor {} ctrlSpec = some self ∧
      self.ForEachBlobDescOffsetInOnRegst recordCall [] = none) := by
  exact ⟨⟨_, rfl, by decide, by decide⟩, ⟨_, rfl, by decide⟩⟩

/-- C11, amended. For a descriptor constructed from a data register specification on a device
memory case, `ForEachBlobDescOffsetInOnRegst` completes, and the body offset of its last call plus
the aligned body size of the last blob descriptor is `MainByteSize4OneRegst()` (as long as that
size fits in `int64_t`, the type of the offset). -/
theorem ForEachBlobDescOffsetInOnRegst_final_offset_device (kCharBlobDesc : RtBlobDesc)
    (proto : RegstDescProto) (data : DataRegstDesc) (self : RtRegstDesc)
    (hdata : proto.regst_desc_type = RegstDescTypeProto.data_regst_desc_case data)
    (hdevice : proto.mem_case.has_device_cuda_mem = true)
    (hctor : ctor kCharBlobDesc proto = some self) :
    ∃ (calls : List BlobDescOffsetCall) (last : BlobDescOffsetCall) (main_size : Nat),
      self.ForEachBlobDescOffsetInOnRegst recordCall [] = some calls ∧
      calls.getLast? = some last ∧
      self.MainByteSize4OneRegst = some main_size ∧
      (main_size < 2 ^ 63 →
        addSize64 last.body_offset last.desc.AlignedByteSizeOfBlobBody = (main_size : Int)) := by
  obtain ⟨pair, time_shape, _, _, hself⟩ := ctor_data kCharBlobDesc proto data self hdata hctor
  subst hself
  refine ⟨[{ ordinal := 0, lbi := pair.lbi, desc := RtBlobDesc.ofProto pair.blob_desc,
             body_offset := 0, header_offset := 0 }],
    { ordinal := 0, lbi := pair.lbi, desc := RtBlobDesc.ofProto pair.blob_desc,
      body_offset := 0, header_offset := 0 },
    (RtBlobDesc.ofProto pair.blob_desc).AlignedByteSizeOfBlobBody, ?_, rfl, ?_, ?_⟩
  · simp [ForEachBlobDescOffsetInOnRegst, ForEachBlobDescOffsetInOnRegst.loop, recordCall]
  · simp [MainByteSize4OneRegst, GetSoleRtBlobDesc, vectorAt, hdevice,
      show toBits64 0 = 0 by decide]
  · intro hfit
    have h0 : toBits64 0 = 0 := by decide
    simp only [addSize64, h0, Nat.zero_add]
    exact ofBits64_of_lt _ hfit

/-- C11, amended, at the one-tensor data specification on device 0: the walk ends at body
offset 4, which is `MainByteSize4OneRegst()`. -/
theorem ForEachBlobDescOffsetInOnRegst_final_offset_device_witness :
    ∃ self : RtRegstDesc,
      ctor {} (oneTensorSpec (MemoryCase.device_cuda_mem_case { device_id := 0 })) = some self ∧
      self.MainByteSize4OneRegst = some 4 ∧
      ∃ (calls : List BlobDescOffsetCall) (last : BlobDescOffsetCall) (main_size : Nat),
        self.ForEachBlobDescOffsetInOnRegst recordCall [] = some calls ∧
        calls.getLast? = some last ∧
        self.MainByteSize4OneRegst = some main_size ∧
        (main_size < 2 ^ 63 →
          addSize64 last.body_offset last.desc.AlignedByteSizeOfBlobBody = (main_size : Int)) :=
  ⟨_, rfl, by decide,
    ForEachBlobDescOffsetInOnRegst_final_offset_device {}
      (oneTensorSpec (MemoryCase.device_cuda_mem_case { device_id := 0 })) _ _ rfl rfl rfl⟩

/-- C12, as stated, fails. The descriptor constructed from the control specification holds one
blob descriptor and no tensor id, and `ForEachBlobDescOffsetInOnRegst` stops at
`sorted_lbi_vec_.at(0)` before the handler is called. -/
theorem ForEachBlobDescOffsetInOnRegst_ctrl_throws :
    ∃ self : RtRegstDesc,
      ctor {} ctrlSpec = some self ∧
      self.sorted_blob_desc_vec_.length = 1 ∧
      self.sorted_lbi_vec_.length = 0 ∧
      self.ForEachBlobDescOffsetInOnRegst recordCall [] = none := by
  exact ⟨_, rfl, by decide, by decide, by decide⟩

/-- C12, amended. For a descriptor constructed from a data register specification,
`ForEachBlobDescOffsetInOnRegst` completes and calls the handler exactly once for each ordinal
`0..n-1`, in ascending order, `n` being the number of blob descriptors of the descriptor. -/
theorem ForEachBlobDescOffsetInOnRegst_data_visits (kCharBlobDesc : RtBlobDesc)
    (proto : RegstDescProto) (data : DataRegstDesc) (self : RtRegstDesc)
    (hdata : proto.regst_desc_type = RegstDescTypeProto.data_regst_desc_case data)
    (hctor : ctor kCharBlobDesc proto = some self) :
    ∃ calls : List BlobDescOffsetCall,
      self.ForEachBlobDescOffsetInOnRegst recordCall [] = some calls ∧
      calls.map (fun c => c.ordinal)
        = (List.range self.sorted_blob_desc_vec_.length).map fun i => (i : Int) := by
  obtain ⟨pair, time_shape, _, _, hself⟩ := ctor_data kCharBlobDesc proto data self hdata hctor
  subst hself
  refine ⟨[{ ordinal := 0, lbi := pair.lbi, desc := RtBlobDesc.ofProto pair.blob_desc,
             body_offset := 0, header_offset := 0 }], ?_, ?_⟩
  · simp [ForEachBlobDescOffsetInOnRegst, ForEachBlobDescOffsetInOnRegst.loop, recordCall]
  · simp [List.range_succ]

/-- C12, amended, at the one-tensor data specification on host memory: one call, of ordinal 0. -/
theorem ForEachBlobDescOffsetInOnRegst_data_visits_witness :
    ∃ self : RtRegstDesc,
      ctor {} (oneTensorSpec (MemoryCase.host_mem_case {})) = some self ∧
      ∃ calls : List BlobDescOffsetCall,
        self.ForEachBlobDescOffsetInOnRegst recordCall [] = some calls ∧
        calls.map (fun c => c.ordinal)
          = (List.range self.sorted_blob_desc_vec_.length).map fun i => (i : Int) :=
  ⟨_, rfl,
    ForEachBlobDescOffsetInOnRegst_data_visits {}
      (oneTensorSpec (MemoryCase.host_mem_case {})) _ _ rfl rfl⟩

/-! ## Lookups by tensor id and by ordinal -/

/-- C13. For a descriptor constructed from a data register specification and every ordinal `o`
with `0 ≤ o < number of tensor ids`, `GetLbiByOrdinal(o)` returns a tensor id and
`GetOrdinalForLbi` of that tensor id is `o`. -/
theorem GetOrdinalForLbi_GetLbiByOrdinal (kCharBlobDesc : RtBlobDesc) (proto : RegstDescProto)
    (data : DataRegstDesc) (self : RtRegstDesc) (o : Int)
    (hdata : proto.regst_desc_type = RegstDescTypeProto.data_regst_desc_case data)
    (hctor : ctor kCharBlobDesc proto = some self)
    (ho : 0 ≤ o ∧ o < (self.sorted_lbi_vec_.length : Int)) :
    ∃ lbi : LogicalBlobId, self.GetLbiByOrdinal o = some lbi ∧ self.GetOrdinalForLbi lbi = o := by
  obtain ⟨pair, time_shape, _, _, hself⟩ := ctor_data kCharBlobDesc proto data self hdata hctor
  subst hself
  have ho0 : o = 0 := by
    have := ho.2
    simp at this
    omega
  subst ho0
  refine ⟨pair.lbi, ?_, ?_⟩
  · simp [GetLbiByOrdinal, vectorAt, show toBits64 0 = 0 by decide]
  · simp [GetOrdinalForLbi, HashMapFind, List.lookup]

/-- C13, at the one-tensor data specification on host memory and ordinal 0. -/
theorem GetOrdinalForLbi_GetLbiByOrdinal_witness :
    ∃ self : RtRegstDesc,
      ctor {} (oneTensorSpec (MemoryCase.host_mem_case {})) = some self ∧
      ((0 : Int) ≤ 0 ∧ (0 : Int) < (self.sorted_lbi_vec_.length : Int)) ∧
      ∃ lbi : LogicalBlobId,
        self.GetLbiByOrdinal 0 = some lbi ∧ self.GetOrdinalForLbi lbi = 0 :=
  ⟨_, rfl, by decide,
    GetOrdinalForLbi_GetLbiByOrdinal {} (oneTensorSpec (MemoryCase.host_mem_case {})) _ _ 0
      rfl rfl (by decide)⟩

/-- C14. For a constructed descriptor and every tensor id, `GetOrdinalForLbi` (a total function)
returns -1 if and only if the tensor id is not one of the tensor ids of the descriptor; for a
tensor id of the descriptor it returns an ordinal `i` with `0 ≤ i < number of tensor ids` and
`GetLbiByOrdinal(i)` is that tensor id. -/
theorem GetOrdinalForLbi_spec (kCharBlobDesc : RtBlobDesc) (proto : RegstDescProto)
    (self : RtRegstDesc) (lbi : LogicalBlobId)
    (hctor : ctor kCharBlobDesc proto = some self) :
    (self.GetOrdinalForLbi lbi = -1 ↔ lbi ∉ self.sorted_lbi_vec_) ∧
      (lbi ∈ self.sorted_lbi_vec_ →
        0 ≤ self.GetOrdinalForLbi lbi ∧
        self.GetOrdinalForLbi lbi < (self.sorted_lbi_vec_.length : Int) ∧
        self.GetLbiByOrdinal (self.GetOrdinalForLbi lbi) = some lbi) := by
  obtain ⟨sole, _, _, htables⟩ := ctor_tables kCharBlobDesc proto self hctor
  rcases htables with ⟨hvec, hmap⟩ | ⟨lbi₀, hvec, hmap⟩
  · simp [GetOrdinalForLbi, HashMapFind, hvec, hmap]
  · by_cases h : lbi = lbi₀
    · subst h
      simp [GetOrdinalForLbi, GetLbiByOrdinal, HashMapFind, List.lookup, vectorAt, hvec, hmap,
        show toBits64 0 = 0 by decide]
    · have hne : (lbi == lbi₀) = false := by simpa using h
      simp [GetOrdinalForLbi, HashMapFind, List.lookup, hvec, hmap, h, hne]

/-- C14, at the one-tensor data specification on host memory: the tensor `op/out` has ordinal 0,
the tensor `op/in` has ordinal -1. -/
theorem GetOrdinalForLbi_spec_witness :
    ∃ self : RtRegstDesc,
      ctor {} (oneTensorSpec (MemoryCase.host_mem_case {})) = some self ∧
      self.GetOrdinalForLbi { op_name := "op", blob_name := "out" } = 0 ∧
      self.GetOrdinalForLbi { op_name := "op", blob_name := "in" } = -1 ∧
      ((self.GetOrdinalForLbi { op_name := "op", blob_name := "out" } = -1
          ↔ ({ op_name := "op", blob_name := "out" } : LogicalBlobId) ∉ self.sorted_lbi_vec_) ∧
        (({ op_name := "op", blob_name := "out" } : LogicalBlobId) ∈ self.sorted_lbi_vec_ →
          0 ≤ self.GetOrdinalForLbi { op_name := "op", blob_name := "out" } ∧
          self.GetOrdinalForLbi { op_name := "op", blob_name := "out" }
            < (self.sorted_lbi_vec_.length : Int) ∧
          self.GetLbiByOrdinal (self.GetOrdinalForLbi { op_name := "op", blob_name := "out" })
            = some { op_name := "op", blob_name := "out" })) :=
  ⟨_, rfl, by decide, by decide,
    GetOrdinalForLbi_spec {} (oneTensorSpec (MemoryCase.host_mem_case {})) _
      { op_name := "op", blob_name := "out" } rfl⟩

/-- C15. For a constructed descriptor and every tensor id, `GetRtBlobDescFromLbi` returns the null
pointer exactly when `GetOrdinalForLbi` returns -1; otherwise it returns, without throwing, the
blob descriptor that `GetRtBlobDescByOrdinal` returns at `GetOrdinalForLbi` of the tensor id. -/
theorem GetRtBlobDescFromLbi_spec (kCharBlobDesc : RtBlobDesc) (proto : RegstDescProto)
    (self : RtRegstDesc) (lbi : LogicalBlobId)
    (hctor : ctor kCharBlobDesc proto = some self) :
    (self.GetRtBlobDescFromLbi lbi = some none ↔ self.GetOrdinalForLbi lbi = -1) ∧
      (self.GetOrdinalForLbi lbi ≠ -1 →
        ∃ desc : RtBlobDesc,
          self.GetRtBlobDescFromLbi lbi = some (some desc) ∧
          self.GetRtBlobDescByOrdinal (self.GetOrdinalForLbi lbi) = some desc) := by
  obtain ⟨sole, hblobs, _, htables⟩ := ctor_tables kCharBlobDesc proto self hctor
  rcases htables with ⟨hvec, hmap⟩ | ⟨lbi₀, hvec, hmap⟩
  · simp [GetRtBlobDescFromLbi, GetOrdinalForLbi, HashMapFind, hmap]
  · by_cases h : lbi = lbi₀
    · subst h
      simp [GetRtBlobDescFromLbi, GetOrdinalForLbi, GetRtBlobDescByOrdinal, HashMapFind,
        List.lookup, vectorAt, hblobs, hmap, show toBits64 0 = 0 by decide]
    · have hne : (lbi == lbi₀) = false := by simpa using h
      simp [GetRtBlobDescFromLbi, GetOrdinalForLbi, HashMapFind, List.lookup, hmap, hne]

/-- C15, at the one-tensor data specification on host memory: the tensor `op/out` has a blob
descriptor, the one of ordinal 0, and the tensor `op/in` has none. -/
theorem GetRtBlobDescFromLbi_spec_witness :
    ∃ self : RtRegstDesc,
      ctor {} (oneTensorSpec (MemoryCase.host_mem_case {})) = some self ∧
      self.GetRtBlobDescFromLbi { op_name := "op", blob_name := "in" } = some none ∧
      self.GetOrdinalForLbi { op_name := "op", blob_name := "out" } ≠ -1 ∧
      ((self.GetRtBlobDescFromLbi { op_name := "op", blob_name := "out" } = some none
          ↔ self.GetOrdinalForLbi { op_name := "op", blob_name := "out" } = -1) ∧
        (self.GetOrdinalForLbi { op_name := "op", blob_name := "out" } ≠ -1 →
          ∃ desc : RtBlobDesc,
            self.GetRtBlobDescFromLbi { op_name := "op", blob_name := "out" }
              = some (some desc) ∧
            self.GetRtBlobDescByOrdinal
                (self.GetOrdinalForLbi { op_name := "op", blob_name := "out" }) = some desc)) :=
  ⟨_, rfl, by decide, by decide,
    GetRtBlobDescFromLbi_spec {} (oneTensorSpec (MemoryCase.host_mem_case {})) _
      { op_name := "op", blob_name := "out" } rfl⟩

theorem vectorAt_eq_none_iff {α : Type} (v : List α) (o : Int) (ho : IsInt64 o)
    (hv : v.length ≤ 2 ^ 63) :
    vectorAt v o = none ↔ ¬ (0 ≤ o ∧ o < (v.length : Int)) := by
  have hcast := toBits64_cast o
  unfold IsInt64 at ho
  unfold vectorAt
  rw [List.getElem?_eq_none_iff]
  omega

theorem vectorAt_of_nonneg {α : Type} (v : List α) (o : Int) (ho : IsInt64 o) (h0 : 0 ≤ o) :
    vectorAt v o = v[o.toNat]? := by
  have hcast := toBits64_cast o
  unfold IsInt64 at ho
  unfold vectorAt
  congr 1
  omega

/-- C16. For every descriptor (its vectors within the size a vector can have) and every
`int64_t` ordinal `o`, negative ones included, `GetRtBlobDescByOrdinal(o)` throws if and only if
`o` is outside `[0, number of blob descriptors)` and `GetLbiByOrdinal(o)` throws if and only if `o`
is outside `[0, number of tensor ids)`; inside the range each returns the element stored at
position `o`. -/
theorem GetByOrdinal_range (self : RtRegstDesc) (o : Int) (ho : IsInt64 o)
    (hblobs : self.sorted_blob_desc_vec_.length ≤ 2 ^ 63)
    (hlbis : self.sorted_lbi_vec_.length ≤ 2 ^ 63) :
    (self.GetRtBlobDescByOrdinal o = none
        ↔ ¬ (0 ≤ o ∧ o < (self.sorted_blob_desc_vec_.length : Int))) ∧
      (self.GetLbiByOrdinal o = none
        ↔ ¬ (0 ≤ o ∧ o < (self.sorted_lbi_vec_.length : Int))) ∧
      (0 ≤ o → self.GetRtBlobDescByOrdinal o = self.sorted_blob_desc_vec_[o.toNat]?) ∧
      (0 ≤ o → self.GetLbiByOrdinal o = self.sorted_lbi_vec_[o.toNat]?) :=
  ⟨vectorAt_eq_none_iff _ o ho hblobs, vectorAt_eq_none_iff _ o ho hlbis,
    vectorAt_of_nonneg _ o ho, vectorAt_of_nonneg _ o ho⟩

/-- C16, at the descriptor state with three tensors: ordinal 1 returns the second blob
descriptor and the second tensor id, ordinals -1 and 3 throw. -/
theorem GetByOrdinal_range_witness :
    (threeTensors.GetRtBlobDescByOrdinal 1
        = some { ByteSizeOfBlobHeader := 2, AlignedByteSizeOfBlobBody := 16,
                 AlignedTotalByteSize := 18 } ∧
      threeTensors.GetLbiByOrdinal 1 = some { blob_name := "b" } ∧
      threeTensors.GetRtBlobDescByOrdinal (-1) = none ∧
      threeTensors.GetLbiByOrdinal 3 = none) ∧
    ((threeTensors.GetRtBlobDescByOrdinal (-1) = none
        ↔ ¬ ((0 : Int) ≤ -1 ∧ (-1 : Int) < (threeTensors.sorted_blob_desc_vec_.length : Int))) ∧
      (threeTensors.GetLbiByOrdinal (-1) = none
        ↔ ¬ ((0 : Int) ≤ -1 ∧ (-1 : Int) < (threeTensors.sorted_lbi_vec_.length : Int))) ∧
      ((0 : Int) ≤ -1 → threeTensors.GetRtBlobDescByOrdinal (-1)
        = threeTensors.sorted_blob_desc_vec_[(-1 : Int).toNat]?) ∧
      ((0 : Int) ≤ -1 → threeTensors.GetLbiByOrdinal (-1)
        = threeTensors.sorted_lbi_vec_[(-1 : Int).toNat]?)) :=
  ⟨by decide, GetByOrdinal_range threeTensors (-1) (by decide) (by decide) (by decide)⟩

/-! ## Construction -/

/-- C17. The constructor, given a data register specification, succeeds if and only if the
specification lists exactly one pair of tensor id and blob description and has a time shape; on
success the descriptor id, the producer id, the consumer ids (in the same order), the register
number and the memory case of the descriptor are those of the specification. -/
theorem ctor_data_iff (kCharBlobDesc : RtBlobDesc) (proto : RegstDescProto)
    (data : DataRegstDesc)
    (hdata : proto.regst_desc_type = RegstDescTypeProto.data_regst_desc_case data) :
    ((ctor kCharBlobDesc proto).isSome = true
        ↔ data.lbi2blob_desc.length = 1 ∧ data.has_time_shape = true) ∧
      ∀ self : RtRegstDesc, ctor kCharBlobDesc proto = some self →
        self.regst_desc_id_ = proto.regst_desc_id ∧
        self.producer_actor_id_ = proto.producer_task_id ∧
        self.consumers_actor_id_ = proto.consumer_task_id ∧
        self.register_num_ = proto.register_num ∧
        self.mem_case_ = proto.mem_case := by
  refine ⟨?_, ?_⟩
  · have hlen : (stdSort CompareLbiBlobDescPair data.lbi2blob_desc).length
        = data.lbi2blob_desc.length := by
      unfold stdSort
      exact List.length_insertionSort _ _
    unfold ctor
    simp only [hdata, RegstDescTypeProto.has_data_regst_desc,
      RegstDescTypeProto.data_regst_desc, if_true, hlen]
    by_cases h1 : data.lbi2blob_desc.length = 1 <;>
      by_cases h2 : data.has_time_shape = true <;> simp [h1, h2]
  · intro self hctor
    obtain ⟨_, _, _, _, hself⟩ := ctor_data kCharBlobDesc proto data self hdata hctor
    subst hself
    exact ⟨rfl, rfl, rfl, rfl, rfl⟩

/-- C17, at the one-tensor data specification on host memory: the construction succeeds and copies
the identifiers; without the pair, with the pair twice, or without the time shape it fails. -/
theorem ctor_data_iff_witness :
    (((ctor {} (oneTensorSpec (MemoryCase.host_mem_case {}))).isSome = true
        ↔ ([({ lbi := { op_name := "op", blob_name := "out" },
               blob_desc :=
                 { rt_blob_desc :=
                     { ByteSizeOfBlobHeader := 2, AlignedByteSizeOfBlobBody := 4,
                       AlignedTotalByteSize := 6 } } } : LbiBlobDescPair)].length = 1
            ∧ DataRegstDesc.has_time_shape
                { lbi2blob_desc :=
                    [{ lbi := { op_name := "op", blob_name := "out" },
                       blob_desc :=
                         { rt_blob_desc :=
                             { ByteSizeOfBlobHeader := 2, AlignedByteSizeOfBlobBody := 4,
                               AlignedTotalByteSize := 6 } } }],
                  time_shape_ := some { dim := [1, 1] } } = true)) ∧
      ∀ self : RtRegstDesc, ctor {} (oneTensorSpec (MemoryCase.host_mem_case {})) = some self →
        self.regst_desc_id_ = (oneTensorSpec (MemoryCase.host_mem_case {})).regst_desc_id ∧
        self.producer_actor_id_
          = (oneTensorSpec (MemoryCase.host_mem_case {})).producer_task_id ∧
        self.consumers_actor_id_
          = (oneTensorSpec (MemoryCase.host_mem_case {})).consumer_task_id ∧
        self.register_num_ = (oneTensorSpec (MemoryCase.host_mem_case {})).register_num ∧
        self.mem_case_ = (oneTensorSpec (MemoryCase.host_mem_case {})).mem_case) ∧
    (ctor {} (oneTensorSpec (MemoryCase.host_mem_case {}))).isSome = true ∧
    ctor {} { regst_desc_type :=
                RegstDescTypeProto.data_regst_desc_case
                  { lbi2blob_desc := [], time_shape_ := some {} } } = none ∧
    ctor {} { regst_desc_type :=
                RegstDescTypeProto.data_regst_desc_case
                  { lbi2blob_desc := [{}, {}], time_shape_ := some {} } } = none ∧
    ctor {} { regst_desc_type :=
                RegstDescTypeProto.data_regst_desc_case
                  { lbi2blob_desc := [{}], time_shape_ := none } } = none :=
  ⟨ctor_data_iff {} (oneTensorSpec (MemoryCase.host_mem_case {})) _ rfl,
    by decide, by decide,
    by simp [ctor, RegstDescTypeProto.has_data_regst_desc, RegstDescTypeProto.data_regst_desc,
      stdSort, List.length_insertionSort],
    by decide⟩

/-! ## Sizes of one register -/

/-- C18. For a constructed descriptor, `MainByteSize4OneRegst()` returns (its `CHECK` holds) the
sum of the aligned body sizes of the blob descriptors when the memory case is a device memory
case, and the sum of their aligned total sizes for every other memory case. -/
theorem MainByteSize4OneRegst_spec (kCharBlobDesc : RtBlobDesc) (proto : RegstDescProto)
    (self : RtRegstDesc) (hctor : ctor kCharBlobDesc proto = some self) :
    (self.mem_case_.has_device_cuda_mem = true →
        self.MainByteSize4OneRegst
          = some ((self.sorted_blob_desc_vec_.map RtBlobDesc.AlignedByteSizeOfBlobBody).sum)) ∧
      (self.mem_case_.has_device_cuda_mem = false →
        self.MainByteSize4OneRegst
          = some ((self.sorted_blob_desc_vec_.map RtBlobDesc.AlignedTotalByteSize).sum)) := by
  obtain ⟨sole, hblobs, _, _⟩ := ctor_tables kCharBlobDesc proto self hctor
  constructor <;> intro hcase <;>
    simp [MainByteSize4OneRegst, GetSoleRtBlobDesc, vectorAt, hblobs, hcase,
      show toBits64 0 = 0 by decide]

/-- C18, at the one-tensor data specification: 4 bytes on device 0, 6 bytes on host memory. -/
theorem MainByteSize4OneRegst_spec_witness :
    (∃ self : RtRegstDesc,
      ctor {} (oneTensorSpec (MemoryCase.device_cuda_mem_case { device_id := 0 })) = some self ∧
      self.mem_case_.has_device_cuda_mem = true ∧
      self.MainByteSize4OneRegst = some 4 ∧
      self.MainByteSize4OneRegst
        = some ((self.sorted_blob_desc_vec_.map RtBlobDesc.AlignedByteSizeOfBlobBody).sum)) ∧
    (∃ self : RtRegstDesc,
      ctor {} (oneTensorSpec (MemoryCase.host_mem_case {})) = some self ∧
      self.mem_case_.has_device_cuda_mem = false ∧
      self.MainByteSize4OneRegst = some 6) :=
  ⟨⟨_, rfl, by decide, by decide,
      (MainByteSize4OneRegst_spec {}
        (oneTensorSpec (MemoryCase.device_cuda_mem_case { device_id := 0 })) _ rfl).1
        (by decide)⟩,
    ⟨_, rfl, by decide, by decide⟩⟩

/-- C19. For a constructed descriptor, `SeparatedHeaderByteSize4OneRegst()` returns (its `CHECK`
holds) the sum of the header sizes of the blob descriptors when the memory case is a device
memory case, and 0 for every other memory case, host memory cases among them; so a nonzero result
occurs only with a device memory case. -/
theorem SeparatedHeaderByteSize4OneRegst_spec (kCharBlobDesc : RtBlobDesc)
    (proto : RegstDescProto) (self : RtRegstDesc)
    (hctor : ctor kCharBlobDesc proto = some self) :
    (self.mem_case_.has_device_cuda_mem = true →
        self.SeparatedHeaderByteSize4OneRegst
          = some ((self.sorted_blob_desc_vec_.map RtBlobDesc.ByteSizeOfBlobHeader).sum)) ∧
      (self.mem_case_.has_device_cuda_mem = false →
        self.SeparatedHeaderByteSize4OneRegst = some 0) ∧
      (self.mem_case_.has_host_mem = true → self.SeparatedHeaderByteSize4OneRegst = some 0) ∧
      (∀ size : Nat, self.SeparatedHeaderByteSize4OneRegst = some size → size ≠ 0 →
        self.mem_case_.has_device_cuda_mem = true) := by
  obtain ⟨sole, hblobs, _, _⟩ := ctor_tables kCharBlobDesc proto self hctor
  refine ⟨?_, ?_, ?_, ?_⟩
  · intro hcase
    simp [SeparatedHeaderByteSize4OneRegst, GetSoleRtBlobDesc, vectorAt, hblobs, hcase,
      show toBits64 0 = 0 by decide]
  · intro hcase
    simp [SeparatedHeaderByteSize4OneRegst, hcase]
  · intro hhost
    have hcase : self.mem_case_.has_device_cuda_mem = false := by
      revert hhost
      generalize self.mem_case_ = mem_case
      cases mem_case <;> simp [MemoryCase.has_host_mem, MemoryCase.has_device_cuda_mem]
    simp [SeparatedHeaderByteSize4OneRegst, hcase]
  · intro size hsize hne
    by_contra hcase
    simp only [Bool.not_eq_true] at hcase
    simp [SeparatedHeaderByteSize4OneRegst, hcase] at hsize
    exact hne hsize.symm

/-- C19, at the one-tensor data specification: 2 bytes on device 0, 0 bytes on host memory. -/
theorem SeparatedHeaderByteSize4OneRegst_spec_witness :
    (∃ self : RtRegstDesc,
      ctor {} (oneTensorSpec (MemoryCase.device_cuda_mem_case { device_id := 0 })) = some self ∧
      self.mem_case_.has_device_cuda_mem = true ∧
      self.SeparatedHeaderByteSize4OneRegst = some 2 ∧
      self.SeparatedHeaderByteSize4OneRegst
        = some ((self.sorted_blob_desc_vec_.map RtBlobDesc.ByteSizeOfBlobHeader).sum)) ∧
    (∃ self : RtRegstDesc,
      ctor {} (oneTensorSpec (MemoryCase.host_mem_case {})) = some self ∧
      self.mem_case_.has_host_mem = true ∧
      self.SeparatedHeaderByteSize4OneRegst = some 0) :=
  ⟨⟨_, rfl, by decide, by decide,
      (SeparatedHeaderByteSize4OneRegst_spec {}
        (oneTensorSpec (MemoryCase.device_cuda_mem_case { device_id := 0 })) _ rfl).1
        (by decide)⟩,
    ⟨_, rfl, by decide, by decide⟩⟩

end RtRegstDesc

namespace Regst

/-! ## Status of a register instance -/

/-- C20. `set_piece_id(v)` makes `piece_id()` return `v` and `set_act_id(v)` makes `act_id()`
return `v`, for every instance and every value, without any check; each leaves the other two
status fields, the descriptor pointer, the blobs and the network token as they were. -/
theorem set_status_frame (self : Regst) (v : Int) :
    ((self.set_piece_id v).piece_id = v ∧
      (self.set_piece_id v).act_id = self.act_id ∧
      (self.set_piece_id v).status.regst_desc_id = self.status.regst_desc_id ∧
      (self.set_piece_id v).regst_desc = self.regst_desc ∧
      (self.set_piece_id v).sorted_blob_vec_ = self.sorted_blob_vec_ ∧
      (self.set_piece_id v).comm_net_token = self.comm_net_token) ∧
    ((self.set_act_id v).act_id = v ∧
      (self.set_act_id v).piece_id = self.piece_id ∧
      (self.set_act_id v).status.regst_desc_id = self.status.regst_desc_id ∧
      (self.set_act_id v).regst_desc = self.regst_desc ∧
      (self.set_act_id v).sorted_blob_vec_ = self.sorted_blob_vec_ ∧
      (self.set_act_id v).comm_net_token = self.comm_net_token) :=
  ⟨⟨rfl, rfl, rfl, rfl, rfl, rfl⟩, ⟨rfl, rfl, rfl, rfl, rfl, rfl⟩⟩

end Regst

end oneflow

namespace oneflow

namespace MemoryCaseUtil

open MemoryCase

/-! ## Zone ids under the reserved range of device ids -/

theorem or64_shl64_eq (m z : Nat) (hm : m < 2 ^ 31) (hz : z < 2 ^ 32) :
    or64 (shl64 (m : Int) 32) (z : Int) = ((2 ^ 32 * m + z : Nat) : Int) := by
  have hshl : shl64 (m : Int) 32 = ((2 ^ 32 * m : Nat) : Int) := by
    unfold shl64
    rw [toBits64_natCast m (by omega), Nat.shiftLeft_eq, Nat.mul_comm]
    exact ofBits64_of_lt _ (by omega)
  unfold or64
  rw [hshl, toBits64_natCast _ (by omega), toBits64_natCast z (by omega),
    ← Nat.mul_add_lt_is_or hz m]
  exact ofBits64_of_lt _ (by omega)

theorem GenMemZoneId_of_reserved (mem_case : MemoryCase) (zone_id : Int)
    (hr : DeviceIdReserved mem_case) (hz : GenMemZoneId mem_case = some zone_id) :
    (∃ d : DeviceCudaMemory, mem_case = device_cuda_mem_case d ∧ zone_id = d.device_id ∧
        0 ≤ zone_id ∧ zone_id ≤ 127) ∨
      (∃ u : Option Bool, mem_case = host_mem_case { cuda_pinned_mem_ := none,
                                                     used_by_network_ := u } ∧ zone_id = 128) ∨
      (∃ (p : CudaPinnedMemory) (u : Option Bool),
        mem_case = host_mem_case { cuda_pinned_mem_ := some p, used_by_network_ := u } ∧
        zone_id = 129 + p.device_id ∧ 129 ≤ zone_id ∧ zone_id ≤ 256) := by
  cases mem_case with
  | CASE_NOT_SET => simp [GenMemZoneId, has_device_cuda_mem, has_host_mem] at hz
  | device_cuda_mem_case d =>
    simp only [GenMemZoneId, has_device_cuda_mem, device_cuda_mem, if_true,
      Option.some.injEq] at hz
    simp only [DeviceIdReserved] at hr
    exact Or.inl ⟨d, rfl, hz.symm, by omega, by omega⟩
  | host_mem_case h =>
    obtain ⟨p, u⟩ := h
    cases p with
    | none =>
      simp [GenMemZoneId, has_device_cuda_mem, has_host_mem, host_mem,
        HostMemory.has_cuda_pinned_mem] at hz
      exact Or.inr (Or.inl ⟨u, rfl, hz.symm⟩)
    | some p =>
      simp only [DeviceIdReserved] at hr
      have hadd : add64 129 p.device_id = 129 + p.device_id :=
        add64_eq 129 p.device_id (by unfold IsInt64; omega)
      simp [GenMemZoneId, has_device_cuda_mem, has_host_mem, host_mem,
        HostMemory.has_cuda_pinned_mem, HostMemory.cuda_pinned_mem, hadd] at hz
      exact Or.inr (Or.inr ⟨p, u, rfl, hz.symm, by omega, by omega⟩)

/-- C22. With device ids in the reserved range `0..127`, the zone id of a device memory case lies
in `[0, 127]`, that of an unpinned host is 128 and that of a host pinned for a device lies in
`[129, 256]`; so two memory cases with device ids in that range have the same zone id only if
they are of the same placement class with the same device id. -/
theorem GenMemZoneId_reserved_partition :
    (∀ id : Int, 0 ≤ id → id ≤ 127 →
        GenMemZoneId (device_cuda_mem_case { device_id := id }) = some id) ∧
      (∀ u : Option Bool,
        GenMemZoneId (host_mem_case { cuda_pinned_mem_ := none, used_by_network_ := u })
          = some 128) ∧
      (∀ (d : Int) (u : Option Bool), 0 ≤ d → d ≤ 127 →
        GenMemZoneId (host_mem_case { cuda_pinned_mem_ := some { device_id := d },
                                      used_by_network_ := u }) = some (129 + d) ∧
          (129 : Int) ≤ 129 + d ∧ 129 + d ≤ 256) ∧
      (∀ (a b : MemoryCase) (zone_id : Int), DeviceIdReserved a → DeviceIdReserved b →
        GenMemZoneId a = some zone_id → GenMemZoneId b = some zone_id → SamePlacement a b) := by
  refine ⟨?_, ?_, ?_, ?_⟩
  · intro id _ _
    simp [GenMemZoneId, has_device_cuda_mem, device_cuda_mem]
  · intro u
    simp [GenMemZoneId, has_device_cuda_mem, has_host_mem, host_mem,
      HostMemory.has_cuda_pinned_mem]
  · intro d u h0 h127
    have hadd : add64 129 d = 129 + d := add64_eq 129 d (by unfold IsInt64; omega)
    refine ⟨?_, by omega, by omega⟩
    simp [GenMemZoneId, has_device_cuda_mem, has_host_mem, host_mem,
      HostMemory.has_cuda_pinned_mem, HostMemory.cuda_pinned_mem, hadd]
  · intro a b zone_id ha hb hza hzb
    rcases GenMemZoneId_of_reserved a zone_id ha hza with
      ⟨da, rfl, hida, _, _⟩ | ⟨ua, rfl, hida⟩ | ⟨pa, ua, rfl, hida, _, _⟩ <;>
    rcases GenMemZoneId_of_reserved b zone_id hb hzb with
      ⟨db, rfl, hidb, _, _⟩ | ⟨ub, rfl, hidb⟩ | ⟨pb, ub, rfl, hidb, _, _⟩ <;>
    simp only [SamePlacement] <;> try omega
    · obtain ⟨ida⟩ := pa
      obtain ⟨idb⟩ := pb
      simp only at hida hidb
      have : ida = idb := by omega
      rw [this]

/-- C22, at devices 5 and 7: zone ids 5, 128 and 136, each in its range, and two hosts pinned
for one device are of the same placement. -/
theorem GenMemZoneId_reserved_partition_witness :
    GenMemZoneId (device_cuda_mem_case { device_id := 5 }) = some 5 ∧
      (GenMemZoneId (host_mem_case { cuda_pinned_mem_ := some { device_id := 7 },
                                     used_by_network_ := none }) = some (129 + 7) ∧
        (129 : Int) ≤ 129 + 7 ∧ (129 : Int) + 7 ≤ 256) ∧
      SamePlacement
        (host_mem_case { cuda_pinned_mem_ := some { device_id := 7 }, used_by_network_ := none })
        (host_mem_case { cuda_pinned_mem_ := some { device_id := 7 },
                         used_by_network_ := some true }) :=
  ⟨GenMemZoneId_reserved_partition.1 5 (by decide) (by decide),
    GenMemZoneId_reserved_partition.2.2.1 7 none (by decide) (by decide),
    GenMemZoneId_reserved_partition.2.2.2 _ _ 136 (by simp [DeviceIdReserved])
      (by simp [DeviceIdReserved]) (by decide) (by decide)⟩

/-- C23. For machine ids in `[0, 2^31)` and memory cases whose device ids lie in `0..127`, two
calls of `GenMemZoneUniqueId` that return the same value have the same machine id and the same
zone id. -/
theorem GenMemZoneUniqueId_injective (machine_id₁ machine_id₂ unique_id : Int)
    (mem_case₁ mem_case₂ : MemoryCase)
    (hm₁ : 0 ≤ machine_id₁ ∧ machine_id₁ < 2 ^ 31)
    (hm₂ : 0 ≤ machine_id₂ ∧ machine_id₂ < 2 ^ 31)
    (hr₁ : DeviceIdReserved mem_case₁) (hr₂ : DeviceIdReserved mem_case₂)
    (h₁ : GenMemZoneUniqueId machine_id₁ mem_case₁ = some unique_id)
    (h₂ : GenMemZoneUniqueId machine_id₂ mem_case₂ = some unique_id) :
    machine_id₁ = machine_id₂ ∧ GenMemZoneId mem_case₁ = GenMemZoneId mem_case₂ := by
  obtain ⟨z₁, hz₁, hu₁⟩ : ∃ z, GenMemZoneId mem_case₁ = some z ∧
      or64 (shl64 machine_id₁ 32) z = unique_id := by
    simpa [GenMemZoneUniqueId] using h₁
  obtain ⟨z₂, hz₂, hu₂⟩ : ∃ z, GenMemZoneId mem_case₂ = some z ∧
      or64 (shl64 machine_id₂ 32) z = unique_id := by
    simpa [GenMemZoneUniqueId] using h₂
  have hb₁ : 0 ≤ z₁ ∧ z₁ ≤ 256 := by
    rcases GenMemZoneId_of_reserved mem_case₁ z₁ hr₁ hz₁ with
      ⟨_, _, _, _, _⟩ | ⟨_, _, _⟩ | ⟨_, _, _, _, _, _⟩ <;> omega
  have hb₂ : 0 ≤ z₂ ∧ z₂ ≤ 256 := by
    rcases GenMemZoneId_of_reserved mem_case₂ z₂ hr₂ hz₂ with
      ⟨_, _, _, _, _⟩ | ⟨_, _, _⟩ | ⟨_, _, _, _, _, _⟩ <;> omega
  obtain ⟨m₁, rfl⟩ := Int.eq_ofNat_of_zero_le hm₁.1
  obtain ⟨m₂, rfl⟩ := Int.eq_ofNat_of_zero_le hm₂.1
  obtain ⟨n₁, rfl⟩ := Int.eq_ofNat_of_zero_le hb₁.1
  obtain ⟨n₂, rfl⟩ := Int.eq_ofNat_of_zero_le hb₂.1
  rw [or64_shl64_eq m₁ n₁ (by omega) (by omega)] at hu₁
  rw [or64_shl64_eq m₂ n₂ (by omega) (by omega), ← hu₁] at hu₂
  have hnat : 2 ^ 32 * m₂ + n₂ = 2 ^ 32 * m₁ + n₁ := by exact_mod_cast hu₂
  have hm : m₁ = m₂ := by omega
  have hn : n₁ = n₂ := by omega
  subst hm hn
  exact ⟨rfl, by rw [hz₁, hz₂]⟩

/-- C23, on machine 3 with a host pinned for device 5, used by the network or not. -/
theorem GenMemZoneUniqueId_injective_witness :
    GenMemZoneUniqueId 3 (host_mem_case { cuda_pinned_mem_ := some { device_id := 5 },
                                          used_by_network_ := none }) = some 12884902022 ∧
      GenMemZoneUniqueId 3 (host_mem_case { cuda_pinned_mem_ := some { device_id := 5 },
                                            used_by_network_ := some true })
        = some 12884902022 ∧
      ((3 : Int) = 3 ∧
        GenMemZoneId (host_mem_case { cuda_pinned_mem_ := some { device_id := 5 },
                                      used_by_network_ := none })
          = GenMemZoneId (host_mem_case { cuda_pinned_mem_ := some { device_id := 5 },
                                          used_by_network_ := some true })) :=
  ⟨by decide, by decide,
    GenMemZoneUniqueId_injective 3 3 12884902022 _ _ (by decide) (by decide)
      (by simp [DeviceIdReserved]) (by simp [DeviceIdReserved]) (by decide) (by decide)⟩

end MemoryCaseUtil

end oneflow

namespace oneflow

namespace RtRegstDesc

/-! ## Tables and sole blob descriptor of a constructed descriptor -/

/-- C21, as stated, fails. The descriptor constructed from the control specification has one
blob descriptor, no tensor id and an empty ordinal map. -/
theorem ctor_ctrl_table_sizes :
    ∃ self : RtRegstDesc,
      ctor {} ctrlSpec = some self ∧
      self.sorted_blob_desc_vec_.length = 1 ∧
      self.sorted_lbi_vec_.length = 0 ∧
      self.lbi2blob_desc_ordinal_.length = 0 ∧
      self.sorted_blob_desc_vec_.length ≠ self.sorted_lbi_vec_.length := by
  exact ⟨_, rfl, by decide, by decide, by decide, by decide⟩

/-- C21, amended. For every constructed descriptor the vector of tensor ids and the ordinal map
have the same number of entries and the map sends the tensor id stored at ordinal `i` to `i`;
for a descriptor constructed from a data register specification the vector of blob descriptors
has that number of entries too. -/
theorem ctor_table_consistency (kCharBlobDesc : RtBlobDesc) (proto : RegstDescProto)
    (self : RtRegstDesc) (hctor : ctor kCharBlobDesc proto = some self) :
    self.lbi2blob_desc_ordinal_.length = self.sorted_lbi_vec_.length ∧
      (∀ (i : Nat) (lbi : LogicalBlobId), self.sorted_lbi_vec_[i]? = some lbi →
        HashMapFind self.lbi2blob_desc_ordinal_ lbi = some (i : Int)) ∧
      (proto.regst_desc_type.has_data_regst_desc = true →
        self.sorted_blob_desc_vec_.length = self.sorted_lbi_vec_.length) := by
  cases htype : proto.regst_desc_type with
  | data_regst_desc_case data =>
    obtain ⟨pair, _, _, _, hself⟩ := ctor_data kCharBlobDesc proto data self htype hctor
    subst hself
    refine ⟨rfl, ?_, fun _ => rfl⟩
    intro i lbi hi
    cases i with
    | zero =>
      simp only [List.getElem?_cons_zero, Option.some.injEq] at hi
      subst hi
      simp [HashMapFind, List.lookup]
    | succ i => simp at hi
  | TYPE_NOT_SET =>
    have hself := ctor_ctrl kCharBlobDesc proto self (by simp [htype,
      RegstDescTypeProto.has_data_regst_desc]) hctor
    subst hself
    exact ⟨rfl, by simp, by simp [RegstDescTypeProto.has_data_regst_desc]⟩
  | ctrl_regst_desc_case =>
    have hself := ctor_ctrl kCharBlobDesc proto self (by simp [htype,
      RegstDescTypeProto.has_data_regst_desc]) hctor
    subst hself
    exact ⟨rfl, by simp, by simp [RegstDescTypeProto.has_data_regst_desc]⟩

/-- C21, amended, at the one-tensor data specification on host memory: one entry in each of the
three tables, and the tensor `op/out` of ordinal 0 is mapped to 0. -/
theorem ctor_table_consistency_witness :
    ∃ self : RtRegstDesc,
      ctor {} (oneTensorSpec (MemoryCase.host_mem_case {})) = some self ∧
      self.sorted_blob_desc_vec_.length = 1 ∧
      (self.lbi2blob_desc_ordinal_.length = self.sorted_lbi_vec_.length ∧
        (∀ (i : Nat) (lbi : LogicalBlobId), self.sorted_lbi_vec_[i]? = some lbi →
          HashMapFind self.lbi2blob_desc_ordinal_ lbi = some (i : Int)) ∧
        ((oneTensorSpec (MemoryCase.host_mem_case {})).regst_desc_type.has_data_regst_desc
            = true →
          self.sorted_blob_desc_vec_.length = self.sorted_lbi_vec_.length)) :=
  ⟨_, rfl, by decide,
    ctor_table_consistency {} (oneTensorSpec (MemoryCase.host_mem_case {})) _ rfl⟩

/-- C24. Every constructed descriptor, of data kind or of control kind, holds exactly one blob
descriptor: `GetSoleRtBlobDesc()` passes its `CHECK_EQ` and returns the blob descriptor of
ordinal 0, and the five size queries built on it return a value. -/
theorem ctor_sole_blob_desc (kCharBlobDesc : RtBlobDesc) (proto : RegstDescProto)
    (self : RtRegstDesc) (hctor : ctor kCharBlobDesc proto = some self) :
    self.sorted_blob_desc_vec_.length = 1 ∧
      (∃ sole : RtBlobDesc,
        self.GetSoleRtBlobDesc = some sole ∧ self.GetRtBlobDescByOrdinal 0 = some sole) ∧
      self.MainByteSize4OneRegst.isSome = true ∧
      self.SeparatedHeaderByteSize4OneRegst.isSome = true ∧
      self.TotalByteSize4AllRegst.isSome = true ∧
      self.TotalMainByteSize4AllRegst.isSome = true ∧
      self.TotalSeparatedHeaderByteSize4AllRegst.isSome = true := by
  obtain ⟨sole, hblobs, _, _⟩ := ctor_tables kCharBlobDesc proto self hctor
  have h0 : toBits64 0 = 0 := by decide
  have hsole : self.GetSoleRtBlobDesc = some sole := by
    simp [GetSoleRtBlobDesc, vectorAt, hblobs, h0]
  refine ⟨by simp [hblobs], ⟨sole, hsole, by simp [GetRtBlobDescByOrdinal, vectorAt, hblobs, h0]⟩,
    ?_, ?_, ?_, ?_, ?_⟩
  · cases hcase : self.mem_case_.has_device_cuda_mem <;>
      simp [MainByteSize4OneRegst, hsole, hcase]
  · cases hcase : self.mem_case_.has_device_cuda_mem <;>
      simp [SeparatedHeaderByteSize4OneRegst, hsole, hcase]
  · simp [TotalByteSize4AllRegst, hsole]
  · cases hcase : self.mem_case_.has_device_cuda_mem <;>
      simp [TotalMainByteSize4AllRegst, MainByteSize4OneRegst, hsole, hcase]
  · cases hcase : self.mem_case_.has_device_cuda_mem <;>
      simp [TotalSeparatedHeaderByteSize4AllRegst, SeparatedHeaderByteSize4OneRegst, hsole, hcase]

/-- C24, at the control specification and at the one-tensor data specification on device 0: one
blob descriptor each; the data descriptor with its two registers takes 12 bytes in all, 8 on the
device and 4 of headers. -/
theorem ctor_sole_blob_desc_witness :
    (∃ self : RtRegstDesc,
      ctor {} ctrlSpec = some self ∧
      (self.sorted_blob_desc_vec_.length = 1 ∧
        (∃ sole : RtBlobDesc,
          self.GetSoleRtBlobDesc = some sole ∧ self.GetRtBlobDescByOrdinal 0 = some sole) ∧
        self.MainByteSize4OneRegst.isSome = true ∧
        self.SeparatedHeaderByteSize4OneRegst.isSome = true ∧
        self.TotalByteSize4AllRegst.isSome = true ∧
        self.TotalMainByteSize4AllRegst.isSome = true ∧
        self.TotalSeparatedHeaderByteSize4AllRegst.isSome = true)) ∧
    (∃ self : RtRegstDesc,
      ctor {} (oneTensorSpec (MemoryCase.device_cuda_mem_case { device_id := 0 })) = some self ∧
      self.TotalByteSize4AllRegst = some 12 ∧
      self.TotalMainByteSize4AllRegst = some 8 ∧
      self.TotalSeparatedHeaderByteSize4AllRegst = some 4) :=
  ⟨⟨_, rfl, ctor_sole_blob_desc {} ctrlSpec _ rfl⟩, ⟨_, rfl, by decide, by decide, by decide⟩⟩

end RtRegstDesc

end oneflow

namespace oneflow

/-! ## Facts about loops and products of dimensions -/

theorem mul64_eq (x y : Int) (h : IsInt64 (x * y)) : mul64 x y = x * y := by
  unfold mul64
  apply ofBits64_eq_of_mod _ _ h
  have hx := toBits64_cast x
  have hy := toBits64_cast y
  push_cast
  rw [hx, hy]
  exact (Int.mul_emod _ _ _).symm

/-- The invariant rule of the loop `for (i = 0; i < n; ++i)`: a property that holds at the start
and is carried by every run, which does not fail, holds at the end, which is reached. -/
theorem forCountUp.loop_invariant {σ : Type} (body : Int → σ → Option σ)
    (Inv : Nat → σ → Prop) (n : Nat) (s₀ : σ) (h₀ : Inv 0 s₀)
    (hstep : ∀ (i : Nat) (s : σ), i < n → Inv i s →
      ∃ s' : σ, body (i : Int) s = some s' ∧ Inv (i + 1) s') :
    ∃ s : σ, forCountUp.loop body n s₀ = some s ∧ Inv n s := by
  induction n with
  | zero => exact ⟨s₀, rfl, h₀⟩
  | succ n ih =>
    obtain ⟨s, hs, hinv⟩ := ih fun i s hi => hstep i s (by omega)
    obtain ⟨s', hs', hinv'⟩ := hstep n s (by omega) hinv
    exact ⟨s', by simp [forCountUp.loop, hs, hs'], hinv'⟩

theorem vectorAt_natCast {α : Type} (v : List α) (i : Nat) (hi : i < 2 ^ 64) :
    RtRegstDesc.vectorAt v (i : Int) = v[i]? := by
  unfold RtRegstDesc.vectorAt
  rw [toBits64_natCast i hi]

theorem prod_drop_eq (l : List Int) (k : Nat) (hk : k < l.length) :
    (l.drop k).prod = l[k] * (l.drop (k + 1)).prod := by
  rw [List.drop_eq_getElem_cons hk, List.prod_cons]

theorem prod_drop_pos (l : List Int) (hpos : ∀ x ∈ l, 0 < x) (k : Nat) : 0 < (l.drop k).prod :=
  List.prod_pos fun x hx => hpos x (List.mem_of_mem_drop hx)

theorem prod_le_prod_of_le : ∀ (a b : List Int), a.length = b.length →
    (∀ (i : Nat) (x y : Int), a[i]? = some x → b[i]? = some y → 0 < x ∧ x ≤ y) →
    0 < a.prod ∧ a.prod ≤ b.prod
  | [], [], _, _ => by simp
  | [], _ :: _, h, _ => by simp at h
  | _ :: _, [], h, _ => by simp at h
  | x :: a, y :: b, h, hle => by
    have hxy := hle 0 x y (by simp) (by simp)
    have ih := prod_le_prod_of_le a b (by simpa using h) fun i u v hu hv =>
      hle (i + 1) u v (by simpa using hu) (by simpa using hv)
    rw [List.prod_cons, List.prod_cons]
    exact ⟨Int.mul_pos hxy.1 ih.1,
      Int.mul_le_mul hxy.2 ih.2 (Int.le_of_lt ih.1) (by omega)⟩

end oneflow

namespace oneflow

namespace GenModelIoV2KernelConf

/-! ## The seed shape -/

/-- The first loop of `GenModelIoV2KernelConf` completes when every axis has a distribution that
is split or broadcast; `seed_dim_vec` is then the dimension vector of the hierarchy with 1 at
the broadcast axes. -/
theorem seedDim_loop (parse : String → Option SbpParallel) (pd : List String)
    (dims : List Int) (hlen : dims.length < 2 ^ 63)
    (hdist : ∀ i : Nat, i < dims.length → ∃ sbp : SbpParallel,
      sbpOfAxis parse pd i = some sbp ∧
      (sbp.has_split_parallel || sbp.has_broadcast_parallel) = true) :
    ∃ seed : List Int,
      forCountUp (dims.length : Int) (seedDimBody parse pd) dims = some seed ∧
      seed.length = dims.length ∧
      ∀ i : Nat, seed[i]? =
        if sbpOfAxis parse pd i = some SbpParallel.broadcast_parallel_case then
          dims[i]?.map fun _ => 1
        else dims[i]? := by
  have hloop := forCountUp.loop_invariant (seedDimBody parse pd)
    (fun k v => v.length = dims.length ∧ ∀ i : Nat, v[i]? =
      if i < k ∧ sbpOfAxis parse pd i = some SbpParallel.broadcast_parallel_case then
        dims[i]?.map fun _ => 1
      else dims[i]?)
    dims.length dims ⟨rfl, fun i => by simp⟩
    (by
      intro i v hi ⟨hvlen, hv⟩
      obtain ⟨sbp, hsbp, hkind⟩ := hdist i hi
      have hsbp' := hsbp
      unfold sbpOfAxis at hsbp'
      obtain ⟨str, hstr, hparse⟩ := Option.bind_eq_some.mp hsbp'
      have hpd : RtRegstDesc.vectorAt pd (i : Int) = some str := by
        rw [vectorAt_natCast pd i (by omega), hstr]
      have hvi : ∃ x, RtRegstDesc.vectorAt v (i : Int) = some x := by
        rw [vectorAt_natCast v i (by omega)]
        exact ⟨v[i], List.getElem?_eq_getElem (by omega)⟩
      obtain ⟨x, hx⟩ := hvi
      by_cases hb : sbp.has_broadcast_parallel = true
      · have hsbpb : sbp = SbpParallel.broadcast_parallel_case := by
          cases sbp <;> simp_all [SbpParallel.has_broadcast_parallel]
        refine ⟨v.set i 1, ?_, by simpa using hvlen, ?_⟩
        · simp [seedDimBody, hpd, hparse, hkind, hb, hx, toBits64_natCast i (by omega)]
        · intro j
          rw [List.getElem?_set]
          by_cases hij : i = j
          · subst hij
            have : i < v.length := by omega
            simp [this, hsbp, hsbpb, List.getElem?_eq_getElem hi]
          · have hlt : (j < i + 1 ∧ sbpOfAxis parse pd j
                  = some SbpParallel.broadcast_parallel_case)
                ↔ (j < i ∧ sbpOfAxis parse pd j
                  = some SbpParallel.broadcast_parallel_case) := by
              constructor
              · rintro ⟨h1, h2⟩; exact ⟨by omega, h2⟩
              · rintro ⟨h1, h2⟩; exact ⟨by omega, h2⟩
            simp only [hij, if_false, hv j, hlt]
      · refine ⟨v, ?_, hvlen, ?_⟩
        · have hsplit : sbp.has_split_parallel = true := by
            simpa [hb] using hkind
          simp [seedDimBody, hpd, hparse, hsplit, hb]
        · intro j
          have hnb : sbp ≠ SbpParallel.broadcast_parallel_case := by
            intro h; apply hb; rw [h]; rfl
          have hlt : (j < i + 1 ∧ sbpOfAxis parse pd j
                = some SbpParallel.broadcast_parallel_case)
              ↔ (j < i ∧ sbpOfAxis parse pd j
                = some SbpParallel.broadcast_parallel_case) := by
            constructor
            · rintro ⟨h1, h2⟩
              refine ⟨?_, h2⟩
              rcases Nat.lt_or_ge j i with h | h
              · exact h
              · have : j = i := by omega
                subst this
                rw [hsbp] at h2
                exact absurd (Option.some.inj h2) hnb
            · rintro ⟨h1, h2⟩; exact ⟨by omega, h2⟩
          simp only [hv j, hlt])
  obtain ⟨seed, hseed, hseedlen, hseedv⟩ := hloop
  refine ⟨seed, by simpa [forCountUp] using hseed, hseedlen, ?_⟩
  intro i
  rw [hseedv i]
  by_cases hi : i < dims.length
  · simp [hi]
  · have : dims[i]? = none := List.getElem?_eq_none (by omega)
    simp [this]

/-! ## The seed id in exact arithmetic -/

/-- One axis of the seed id: the amount axis `j` adds is non-negative and, with the count of the
seed dimensions after the axis, stays within the count of the seed dimensions from the axis. -/
theorem seedIdAfter_step_bound (p : Int) (dims seed : List Int) (hpos : ∀ x ∈ dims, 0 < x)
    (hslen : seed.length = dims.length)
    (hsd : ∀ (i : Nat) (x y : Int), seed[i]? = some x → dims[i]? = some y → x = 1 ∨ x = y)
    (j : Nat) (hj : j < dims.length) :
    0 ≤ seedIdAfter p dims seed (j + 1) - seedIdAfter p dims seed j ∧
      seedIdAfter p dims seed (j + 1) - seedIdAfter p dims seed j + (seed.drop (j + 1)).prod
        ≤ (seed.drop j).prod := by
  have hjs : j < seed.length := by omega
  have hspos : ∀ x ∈ seed, 0 < x := by
    intro x hx
    obtain ⟨i, hi, rfl⟩ := List.getElem_of_mem hx
    rcases hsd i seed[i] dims[i] (List.getElem?_eq_getElem hi)
      (List.getElem?_eq_getElem (by omega)) with h | h
    · omega
    · rw [h]; exact hpos _ (List.getElem_mem _)
  have hS := prod_drop_eq seed j hjs
  have hH := prod_drop_eq dims j hj
  have hSpos := prod_drop_pos seed hspos (j + 1)
  have hHpos := prod_drop_pos dims hpos (j + 1)
  have hHjpos := prod_drop_pos dims hpos j
  have hdj : 0 < dims[j] := hpos _ (List.getElem_mem _)
  have hgetD : seed.getD j 0 = seed[j] := by
    rw [List.getD_eq_getElem?_getD, List.getElem?_eq_getElem hjs]; rfl
  have hstep : seedIdAfter p dims seed (j + 1) - seedIdAfter p dims seed j
      = if seed[j] ≠ 1 then
          p % (dims.drop j).prod / (dims.drop (j + 1)).prod * (seed.drop (j + 1)).prod
        else 0 := by
    simp only [seedIdAfter, hgetD]
    omega
  rw [hstep]
  by_cases h1 : seed[j] = 1
  · simp only [h1, ne_eq, not_true_eq_false, if_false]
    rw [hS, h1]
    omega
  · simp only [ne_eq, h1, not_false_eq_true, if_true]
    have hsj : seed[j] = dims[j] := by
      rcases hsd j seed[j] dims[j] (List.getElem?_eq_getElem hjs)
        (List.getElem?_eq_getElem hj) with h | h
      · exact absurd h h1
      · exact h
    have hmod0 : 0 ≤ p % (dims.drop j).prod := Int.emod_nonneg _ (by omega)
    have hmodlt : p % (dims.drop j).prod < (dims.drop j).prod := Int.emod_lt_of_pos _ hHjpos
    have hc0 : 0 ≤ p % (dims.drop j).prod / (dims.drop (j + 1)).prod :=
      Int.ediv_nonneg hmod0 (by omega)
    have hclt : p % (dims.drop j).prod / (dims.drop (j + 1)).prod < dims[j] :=
      Int.ediv_lt_of_lt_mul hHpos (by rw [← hH]; exact hmodlt)
    constructor
    · exact Int.mul_nonneg hc0 (by omega)
    · rw [hS, hsj]
      have : (p % (dims.drop j).prod / (dims.drop (j + 1)).prod + 1)
          * (seed.drop (j + 1)).prod ≤ dims[j] * (seed.drop (j + 1)).prod :=
        Int.mul_le_mul_of_nonneg_right (by omega) (by omega)
      rw [Int.add_mul, Int.one_mul] at this
      exact this

/-- Between two axes `k ≤ m`, the seed id grows by a non-negative amount that, with the count of
the seed dimensions from `m`, stays within the count of the seed dimensions from `k`. -/
theorem seedIdAfter_bound (p : Int) (dims seed : List Int) (hpos : ∀ x ∈ dims, 0 < x)
    (hslen : seed.length = dims.length)
    (hsd : ∀ (i : Nat) (x y : Int), seed[i]? = some x → dims[i]? = some y → x = 1 ∨ x = y)
    (k m : Nat) (hkm : k ≤ m) (hm : m ≤ dims.length) :
    0 ≤ seedIdAfter p dims seed m - seedIdAfter p dims seed k ∧
      seedIdAfter p dims seed m - seedIdAfter p dims seed k + (seed.drop m).prod
        ≤ (seed.drop k).prod := by
  induction m with
  | zero =>
    have : k = 0 := by omega
    subst this
    simp
  | succ m ih =>
    rcases Nat.eq_or_lt_of_le hkm with h | h
    · subst h
      simp
    · have ih' := ih (by omega) (by omega)
      have hs := seedIdAfter_step_bound p dims seed hpos hslen hsd m (by omega)
      omega

/-- The seed id after `k` axes is a multiple of the count of the seed dimensions from `k`. -/
theorem seedIdAfter_dvd (p : Int) (dims seed : List Int) (hslen : seed.length = dims.length)
    (k : Nat) (hk : k ≤ dims.length) : (seed.drop k).prod ∣ seedIdAfter p dims seed k := by
  induction k with
  | zero => simp [seedIdAfter]
  | succ k ih =>
    have hks : k < seed.length := by omega
    have hdvd : (seed.drop (k + 1)).prod ∣ (seed.drop k).prod := by
      rw [prod_drop_eq seed k hks]
      exact Dvd.intro_left _ rfl
    have ih' := Dvd.dvd.trans hdvd (ih (by omega))
    simp only [seedIdAfter]
    apply Dvd.dvd.add ih'
    split
    · exact Dvd.intro_left _ rfl
    · exact dvd_zero _

/-- The final seed id determines the seed id after every axis. -/
theorem seedIdAfter_determined (p : Int) (dims seed : List Int) (hpos : ∀ x ∈ dims, 0 < x)
    (hslen : seed.length = dims.length)
    (hsd : ∀ (i : Nat) (x y : Int), seed[i]? = some x → dims[i]? = some y → x = 1 ∨ x = y)
    (k : Nat) (hk : k ≤ dims.length) :
    seedIdAfter p dims seed k
      = seedIdAfter p dims seed dims.length
        - seedIdAfter p dims seed dims.length % (seed.drop k).prod := by
  obtain ⟨h0, h1⟩ := seedIdAfter_bound p dims seed hpos hslen hsd k dims.length hk
    (Nat.le_refl _)
  have hend : (seed.drop dims.length).prod = 1 := by
    rw [List.drop_of_length_le (by omega)]; rfl
  rw [hend] at h1
  obtain ⟨t, ht⟩ := seedIdAfter_dvd p dims seed hslen k hk
  have hV : seedIdAfter p dims seed dims.length
      = (seedIdAfter p dims seed dims.length - seedIdAfter p dims seed k)
        + (seed.drop k).prod * t := by
    rw [← ht]; omega
  have hmod : seedIdAfter p dims seed dims.length % (seed.drop k).prod
      = seedIdAfter p dims seed dims.length - seedIdAfter p dims seed k := by
    conv_lhs => rw [hV]
    rw [Int.add_mul_emod_self_left]
    exact Int.emod_eq_of_lt h0 (by omega)
  omega

/-- Two parallel ids have the same seed id exactly when their coordinates agree on every axis
whose seed dimension is not 1. -/
theorem seedIdAfter_eq_iff (p q : Int) (dims seed : List Int) (hpos : ∀ x ∈ dims, 0 < x)
    (hslen : seed.length = dims.length)
    (hsd : ∀ (i : Nat) (x y : Int), seed[i]? = some x → dims[i]? = some y → x = 1 ∨ x = y) :
    seedIdAfter p dims seed dims.length = seedIdAfter q dims seed dims.length ↔
      ∀ j : Nat, j < dims.length → seed.getD j 0 ≠ 1 →
        p % (dims.drop j).prod / (dims.drop (j + 1)).prod
          = q % (dims.drop j).prod / (dims.drop (j + 1)).prod := by
  constructor
  · intro heq j hj hne
    have hp0 := seedIdAfter_determined p dims seed hpos hslen hsd j (by omega)
    have hp1 := seedIdAfter_determined p dims seed hpos hslen hsd (j + 1) (by omega)
    have hq0 := seedIdAfter_determined q dims seed hpos hslen hsd j (by omega)
    have hq1 := seedIdAfter_determined q dims seed hpos hslen hsd (j + 1) (by omega)
    rw [heq] at hp0 hp1
    have hstep : seedIdAfter p dims seed (j + 1) - seedIdAfter p dims seed j
        = seedIdAfter q dims seed (j + 1) - seedIdAfter q dims seed j := by
      rw [hp0, hp1, hq0, hq1]
    simp only [seedIdAfter, hne, ne_eq, not_false_eq_true, if_true] at hstep
    have hspos : ∀ x ∈ seed, 0 < x := by
      intro x hx
      obtain ⟨i, hi, rfl⟩ := List.getElem_of_mem hx
      rcases hsd i seed[i] dims[i] (List.getElem?_eq_getElem hi)
        (List.getElem?_eq_getElem (by omega)) with h | h
      · omega
      · rw [h]; exact hpos _ (List.getElem_mem _)
    have hSpos := prod_drop_pos seed hspos (j + 1)
    have hmul : p % (dims.drop j).prod / (dims.drop (j + 1)).prod * (seed.drop (j + 1)).prod
        = q % (dims.drop j).prod / (dims.drop (j + 1)).prod * (seed.drop (j + 1)).prod := by
      omega
    exact Int.eq_of_mul_eq_mul_right (by omega) hmul
  · intro hall
    have hk : ∀ k : Nat, k ≤ dims.length →
        seedIdAfter p dims seed k = seedIdAfter q dims seed k := by
      intro k
      induction k with
      | zero => intro _; rfl
      | succ k ih =>
        intro hk
        simp only [seedIdAfter, ih (by omega)]
        by_cases hne : seed.getD k 0 ≠ 1
        · simp only [hne, if_true, hall k (by omega) hne]
        · simp only [hne, if_false]
    exact hk dims.length (Nat.le_refl _)

/-- With the hierarchy itself as seed shape (every axis split), the seed id after `k` axes is
the parallel id reduced modulo the hierarchy, without its part below axis `k`. -/
theorem seedIdAfter_all_split (p : Int) (dims : List Int) (k : Nat) (hk : k ≤ dims.length) :
    seedIdAfter p dims dims k = p % dims.prod - p % (dims.drop k).prod := by
  induction k with
  | zero => simp [seedIdAfter]
  | succ k ih =>
    have hkl : k < dims.length := by omega
    have hH := prod_drop_eq dims k hkl
    have hgetD : dims.getD k 0 = dims[k] := by
      rw [List.getD_eq_getElem?_getD, List.getElem?_eq_getElem hkl]; rfl
    have hdvd : (dims.drop (k + 1)).prod ∣ (dims.drop k).prod := by
      rw [hH]; exact Dvd.intro_left _ rfl
    have hmm := Int.emod_emod_of_dvd p hdvd
    have hdm := Int.emod_add_ediv (p % (dims.drop k).prod) (dims.drop (k + 1)).prod
    rw [hmm, Int.mul_comm] at hdm
    simp only [seedIdAfter, ih (by omega), hgetD]
    by_cases h1 : dims[k] = 1
    · simp only [h1, ne_eq, not_true_eq_false, if_false]
      rw [hH, h1, Int.one_mul]
      omega
    · simp only [ne_eq, h1, not_false_eq_true, if_true]
      omega

/-- With a seed shape of ones (every axis broadcast), the seed id stays 0. -/
theorem seedIdAfter_all_broadcast (p : Int) (dims seed : List Int)
    (hone : ∀ j : Nat, j < dims.length → seed.getD j 0 = 1) (k : Nat) (hk : k ≤ dims.length) :
    seedIdAfter p dims seed k = 0 := by
  induction k with
  | zero => rfl
  | succ k ih =>
    have h1 := hone k (by omega)
    simp only [seedIdAfter, ih (by omega), h1, ne_eq, not_true_eq_false, if_false]
    rfl

/-! ## The seed id on 64-bit integers -/

theorem count_natCast (dims : List Int) (j : Nat) :
    Shape.Count { dim_vec := dims } (j : Int) = (dims.drop j).prod := by
  simp [Shape.Count]

theorem count_natCast_succ (dims : List Int) (j : Nat) :
    Shape.Count { dim_vec := dims } ((j : Int) + 1) = (dims.drop (j + 1)).prod := by
  have h : ((j : Int) + 1).toNat = j + 1 := by omega
  simp [Shape.Count, h]

theorem axisCoordinate_eq (p : Int) (dims : List Int) (hp : 0 ≤ p)
    (hpos : ∀ x ∈ dims, 0 < x) (j : Nat) :
    axisCoordinate p { dim_vec := dims } j
      = p % (dims.drop j).prod / (dims.drop (j + 1)).prod := by
  have hHj := prod_drop_pos dims hpos j
  have hHj1 := prod_drop_pos dims hpos (j + 1)
  unfold axisCoordinate
  rw [count_natCast, count_natCast_succ, Int.tmod_eq_emod hp (by omega),
    Int.tdiv_eq_ediv (Int.emod_nonneg _ (by omega)) (by omega)]

/-- The second loop of `GenModelIoV2KernelConf`, for a non-negative parallel id, a hierarchy of
positive dimensions whose count fits in `int64_t` and a seed shape that has 1 or the dimension
of the hierarchy on every axis, completes with the exact seed id: no division by zero, no
overflow. -/
theorem seedId_loop (p : Int) (dims seed : List Int) (hp : 0 ≤ p)
    (hpos : ∀ x ∈ dims, 0 < x) (hslen : seed.length = dims.length)
    (hsd : ∀ (i : Nat) (x y : Int), seed[i]? = some x → dims[i]? = some y → x = 1 ∨ x = y)
    (hlen : dims.length < 2 ^ 63) (hfit : dims.prod < 2 ^ 63) :
    forCountUp (dims.length : Int) (seedIdBody p { dim_vec := dims } { dim_vec := seed }) 0
      = some (seedIdAfter p dims seed dims.length) := by
  have hle : 0 < seed.prod ∧ seed.prod ≤ dims.prod := by
    apply prod_le_prod_of_le seed dims hslen
    intro i x y hx hy
    have hy0 : 0 < y := by
      obtain ⟨hi, rfl⟩ := List.getElem?_eq_some.mp hy
      exact hpos _ (List.getElem_mem _)
    rcases hsd i x y hx hy with h | h <;> omega
  have hloop := forCountUp.loop_invariant
    (seedIdBody p { dim_vec := dims } { dim_vec := seed })
    (fun k s => s = seedIdAfter p dims seed k) dims.length 0 rfl
    (by
      intro i s hi hs
      subst hs
      have hHj := prod_drop_pos dims hpos i
      have hHj1 := prod_drop_pos dims hpos (i + 1)
      have his : i < seed.length := by omega
      have hat : Shape.At { dim_vec := seed } (i : Int) = some seed[i] := by
        unfold Shape.At
        rw [vectorAt_natCast seed i (by omega), List.getElem?_eq_getElem his]
      have hgetD : seed.getD i 0 = seed[i] := by
        rw [List.getD_eq_getElem?_getD, List.getElem?_eq_getElem his]; rfl
      have hb0 := seedIdAfter_bound p dims seed hpos hslen hsd 0 i (by omega) (by omega)
      have hb1 := seedIdAfter_bound p dims seed hpos hslen hsd 0 (i + 1) (by omega) (by omega)
      have hspos : 0 < (seed.drop (i + 1)).prod := by
        apply prod_drop_pos seed _ (i + 1)
        intro x hx
        obtain ⟨k, hk, rfl⟩ := List.getElem_of_mem hx
        have hy0 : 0 < dims[k] := hpos _ (List.getElem_mem _)
        rcases hsd k seed[k] dims[k] (List.getElem?_eq_getElem hk)
          (List.getElem?_eq_getElem (by omega)) with h | h <;> omega
      simp only [seedIdAfter, List.drop_zero, Int.sub_zero] at hb0 hb1
      refine ⟨seedIdAfter p dims seed (i + 1), ?_, rfl⟩
      have hcoord := axisCoordinate_eq p dims hp hpos i
      unfold axisCoordinate at hcoord
      simp only [seedIdBody, hat, hcoord]
      rw [count_natCast, count_natCast_succ, count_natCast_succ]
      have hne : ¬ ((dims.drop i).prod = 0 ∨ (dims.drop (i + 1)).prod = 0) := by omega
      simp only [hne, if_false, seedIdAfter, hgetD]
      by_cases h1 : seed[i] = 1
      · simp [h1]
      · simp only [ne_eq, h1, not_false_eq_true, if_true, Option.some.injEq]
        simp only [hgetD, ne_eq, h1, not_false_eq_true, if_true] at hb1
        have hs := seedIdAfter_step_bound p dims seed hpos hslen hsd i hi
        simp only [seedIdAfter, hgetD, ne_eq, h1, not_false_eq_true, if_true] at hs
        have hterm : 0 ≤ p % (dims.drop i).prod / (dims.drop (i + 1)).prod
            * (seed.drop (i + 1)).prod := by omega
        rw [mul64_eq _ _ (by unfold IsInt64; omega), add64_eq _ _ (by unfold IsInt64; omega)])
  obtain ⟨s, hs, rfl⟩ := hloop
  simpa [forCountUp] using hs

/-- The whole seed computation: with every axis split or broadcast, a hierarchy of positive
dimensions whose count fits in `int64_t` and a non-negative parallel id, `GenModelIoV2KernelConf`
returns a seed shape with 1 at the broadcast axes and the exact seed id. -/
theorem seed_run_eq (parse : String → Option SbpParallel) (pd : List String) (dims : List Int)
    (p : Int) (hp : 0 ≤ p) (hpos : ∀ x ∈ dims, 0 < x)
    (hdist : ∀ i : Nat, i < dims.length → ∃ sbp : SbpParallel,
      sbpOfAxis parse pd i = some sbp ∧
      (sbp.has_split_parallel || sbp.has_broadcast_parallel) = true)
    (hlen : dims.length < 2 ^ 63) (hfit : dims.prod < 2 ^ 63) :
    ∃ seed : List Int,
      GenModelIoV2KernelConf parse pd p { dim_vec := dims }
        = some ({ dim_vec := seed }, seedIdAfter p dims seed dims.length) ∧
      seed.length = dims.length ∧
      (∀ i : Nat, seed[i]? =
        if sbpOfAxis parse pd i = some SbpParallel.broadcast_parallel_case then
          dims[i]?.map fun _ => 1
        else dims[i]?) ∧
      (∀ (i : Nat) (x y : Int), seed[i]? = some x → dims[i]? = some y → x = 1 ∨ x = y) := by
  obtain ⟨seed, hloop, hslen, hseed⟩ := seedDim_loop parse pd dims hlen hdist
  have hsd : ∀ (i : Nat) (x y : Int), seed[i]? = some x → dims[i]? = some y →
      x = 1 ∨ x = y := by
    intro i x y hx hy
    rw [hseed i, hy] at hx
    split at hx
    · left; simpa using hx.symm
    · right; simpa using hx.symm
  refine ⟨seed, ?_, hslen, hseed, hsd⟩
  have h2 := seedId_loop p dims seed hp hpos hslen hsd hlen hfit
  simp only [GenModelIoV2KernelConf, Shape.NumAxes, hloop, h2]

/-- C27. For a hierarchy of positive dimensions and a parallel id in `[0, product of the
dimensions)`: when every axis is split, `seed_shape` is the hierarchy and `seed_id` is the
parallel id; when every axis is broadcast, `seed_shape` has 1 on every axis and `seed_id` is 0.
(The hierarchy has fewer than `2^63` axes and its count fits in `int64_t`.) -/
theorem seed_id_all_split_or_all_broadcast (parse : String → Option SbpParallel)
    (pd : List String) (hierarchy : Shape) (parallel_id : Int)
    (hpos : ∀ d ∈ hierarchy.dim_vec, 0 < d)
    (hid : 0 ≤ parallel_id ∧ parallel_id < hierarchy.Count 0)
    (hlen : hierarchy.dim_vec.length < 2 ^ 63) (hfit : hierarchy.Count 0 < 2 ^ 63) :
    ((∀ i : Nat, i < hierarchy.dim_vec.length →
        ∃ axis : Int, sbpOfAxis parse pd i = some (SbpParallel.split_parallel_case axis)) →
      GenModelIoV2KernelConf parse pd parallel_id hierarchy = some (hierarchy, parallel_id)) ∧
    ((∀ i : Nat, i < hierarchy.dim_vec.length →
        sbpOfAxis parse pd i = some SbpParallel.broadcast_parallel_case) →
      ∃ seed_shape : Shape,
        GenModelIoV2KernelConf parse pd parallel_id hierarchy = some (seed_shape, 0) ∧
        ∀ d ∈ seed_shape.dim_vec, d = 1) := by
  obtain ⟨dims⟩ := hierarchy
  simp only [Shape.Count, Int.toNat_zero, List.drop_zero] at hid hfit
  simp only at hpos hlen
  constructor
  · intro hsplit
    obtain ⟨seed, hrun, hslen, hseed, _⟩ := seed_run_eq parse pd dims parallel_id hid.1 hpos
      (fun i hi => by
        obtain ⟨axis, h⟩ := hsplit i hi
        exact ⟨_, h, rfl⟩) hlen hfit
    have hsd : seed = dims := by
      apply List.ext_getElem?
      intro i
      rw [hseed i]
      by_cases hi : i < dims.length
      · obtain ⟨axis, h⟩ := hsplit i hi
        simp [h]
      · simp [List.getElem?_eq_none (Nat.le_of_not_lt hi)]
    rw [hsd] at hrun
    rw [hrun, seedIdAfter_all_split parallel_id dims dims.length (Nat.le_refl _),
      List.drop_of_length_le (Nat.le_refl _), List.prod_nil, Int.emod_one,
      Int.emod_eq_of_lt hid.1 hid.2, Int.sub_zero]
  · intro hbc
    obtain ⟨seed, hrun, hslen, hseed, _⟩ := seed_run_eq parse pd dims parallel_id hid.1 hpos
      (fun i hi => ⟨_, hbc i hi, rfl⟩) hlen hfit
    have hone : ∀ j : Nat, j < dims.length → seed[j]? = some 1 := by
      intro j hj
      rw [hseed j, if_pos (hbc j hj), List.getElem?_eq_getElem hj]
      rfl
    refine ⟨{ dim_vec := seed }, ?_, ?_⟩
    · rw [hrun, seedIdAfter_all_broadcast parallel_id dims seed
        (fun j hj => by rw [List.getD_eq_getElem?_getD, hone j hj]; rfl) dims.length
        (Nat.le_refl _)]
    · intro d hd
      obtain ⟨j, hj, rfl⟩ := List.getElem_of_mem hd
      have hj' : j < seed.length := hj
      have := hone j (by omega)
      rw [List.getElem?_eq_getElem hj] at this
      exact Option.some.inj this

/-- C27, at the hierarchy `2 × 3` and parallel id 4: seed id 4 with both axes split, seed id 0
with both axes broadcast. -/
theorem seed_id_all_split_or_all_broadcast_witness :
    GenModelIoV2KernelConf parseSbpExample ["S(0)", "S(1)"] 4 { dim_vec := [2, 3] }
        = some ({ dim_vec := [2, 3] }, 4) ∧
      GenModelIoV2KernelConf parseSbpExample ["B", "B"] 4 { dim_vec := [2, 3] }
        = some ({ dim_vec := [1, 1] }, 0) ∧
      (((∀ i : Nat, i < [(2 : Int), 3].length → ∃ axis : Int,
            sbpOfAxis parseSbpExample ["S(0)", "S(1)"] i
              = some (SbpParallel.split_parallel_case axis)) →
          GenModelIoV2KernelConf parseSbpExample ["S(0)", "S(1)"] 4 { dim_vec := [2, 3] }
            = some ({ dim_vec := [2, 3] }, 4)) ∧
        ((∀ i : Nat, i < [(2 : Int), 3].length →
            sbpOfAxis parseSbpExample ["S(0)", "S(1)"] i
              = some SbpParallel.broadcast_parallel_case) →
          ∃ seed_shape : Shape,
            GenModelIoV2KernelConf parseSbpExample ["S(0)", "S(1)"] 4 { dim_vec := [2, 3] }
              = some (seed_shape, 0) ∧
            ∀ d ∈ seed_shape.dim_vec, d = 1)) :=
  ⟨by decide, by decide,
    seed_id_all_split_or_all_broadcast parseSbpExample ["S(0)", "S(1)"] { dim_vec := [2, 3] } 4
      (by decide) (by decide) (by decide) (by decide)⟩

/-- C28. For a hierarchy of positive dimensions, a distribution that is split or broadcast on
every axis and two parallel ids in `[0, product of the dimensions)`: both get the same seed
shape, each seed id lies in `[0, number of elements of the seed shape)`, and the two seed ids
are equal if and only if the coordinates `(parallel_id % Count(j)) / Count(j + 1)` of the two
parallel ids agree on every split axis `j`; the coordinates on broadcast axes play no part.
(The hierarchy has fewer than `2^63` axes and its count fits in `int64_t`.) -/
theorem seed_id_range_and_injective (parse : String → Option SbpParallel) (pd : List String)
    (hierarchy : Shape) (parallel_id₁ parallel_id₂ : Int)
    (hpos : ∀ d ∈ hierarchy.dim_vec, 0 < d)
    (hdist : ∀ i : Nat, i < hierarchy.dim_vec.length → ∃ sbp : SbpParallel,
      sbpOfAxis parse pd i = some sbp ∧
      (sbp.has_split_parallel || sbp.has_broadcast_parallel) = true)
    (hid₁ : 0 ≤ parallel_id₁ ∧ parallel_id₁ < hierarchy.Count 0)
    (hid₂ : 0 ≤ parallel_id₂ ∧ parallel_id₂ < hierarchy.Count 0)
    (hlen : hierarchy.dim_vec.length < 2 ^ 63) (hfit : hierarchy.Count 0 < 2 ^ 63) :
    ∃ (seed_shape : Shape) (seed_id₁ seed_id₂ : Int),
      GenModelIoV2KernelConf parse pd parallel_id₁ hierarchy = some (seed_shape, seed_id₁) ∧
      GenModelIoV2KernelConf parse pd parallel_id₂ hierarchy = some (seed_shape, seed_id₂) ∧
      (0 ≤ seed_id₁ ∧ seed_id₁ < seed_shape.Count 0) ∧
      (0 ≤ seed_id₂ ∧ seed_id₂ < seed_shape.Count 0) ∧
      (seed_id₁ = seed_id₂ ↔
        ∀ j : Nat, j < hierarchy.dim_vec.length →
          (∃ axis : Int, sbpOfAxis parse pd j = some (SbpParallel.split_parallel_case axis)) →
          axisCoordinate parallel_id₁ hierarchy j = axisCoordinate parallel_id₂ hierarchy j) := by
  obtain ⟨dims⟩ := hierarchy
  simp only [Shape.Count, Int.toNat_zero, List.drop_zero] at hid₁ hid₂ hfit
  simp only at hpos hlen hdist
  obtain ⟨seed, hrun₁, hslen, hseed, hsd⟩ :=
    seed_run_eq parse pd dims parallel_id₁ hid₁.1 hpos hdist hlen hfit
  obtain ⟨seed', hrun₂, hslen', hseed', _⟩ :=
    seed_run_eq parse pd dims parallel_id₂ hid₂.1 hpos hdist hlen hfit
  have hsame : seed' = seed := by
    apply List.ext_getElem?
    intro i
    rw [hseed i, hseed' i]
  subst hsame
  have hend : (seed'.drop dims.length).prod = 1 := by
    rw [List.drop_of_length_le (by omega)]; rfl
  have hb₁ := seedIdAfter_bound parallel_id₁ dims seed' hpos hslen hsd 0 dims.length
    (by omega) (Nat.le_refl _)
  have hb₂ := seedIdAfter_bound parallel_id₂ dims seed' hpos hslen hsd 0 dims.length
    (by omega) (Nat.le_refl _)
  simp only [seedIdAfter, List.drop_zero, Int.sub_zero, hend] at hb₁ hb₂
  refine ⟨{ dim_vec := seed' }, _, _, hrun₁, hrun₂, ?_, ?_, ?_⟩
  · simp only [Shape.Count, Int.toNat_zero, List.drop_zero]; omega
  · simp only [Shape.Count, Int.toNat_zero, List.drop_zero]; omega
  · rw [seedIdAfter_eq_iff parallel_id₁ parallel_id₂ dims seed' hpos hslen hsd]
    constructor
    · intro h j hj hsplit
      rw [axisCoordinate_eq _ dims hid₁.1 hpos, axisCoordinate_eq _ dims hid₂.1 hpos]
      obtain ⟨axis, haxis⟩ := hsplit
      have hsj : seed'[j]? = some dims[j] := by
        rw [hseed j, haxis, List.getElem?_eq_getElem hj]
        simp
      have hgetD : seed'.getD j 0 = dims[j] := by
        rw [List.getD_eq_getElem?_getD, hsj]; rfl
      by_cases h1 : dims[j] = 1
      · have hH := prod_drop_eq dims j hj
        rw [h1, Int.one_mul] at hH
        have hHpos := prod_drop_pos dims hpos (j + 1)
        rw [hH, Int.ediv_eq_zero_of_lt (Int.emod_nonneg _ (by omega))
            (Int.emod_lt_of_pos _ hHpos),
          Int.ediv_eq_zero_of_lt (Int.emod_nonneg _ (by omega))
            (Int.emod_lt_of_pos _ hHpos)]
      · exact h j hj (by rw [hgetD]; exact h1)
    · intro h j hj hne
      have hc := h j hj (by
        obtain ⟨sbp, hsbp, hkind⟩ := hdist j hj
        cases sbp with
        | split_parallel_case axis => exact ⟨axis, hsbp⟩
        | broadcast_parallel_case =>
          exfalso
          apply hne
          rw [List.getD_eq_getElem?_getD, hseed j, if_pos hsbp, List.getElem?_eq_getElem hj]
          rfl
        | PARALLEL_TYPE_NOT_SET =>
          simp [SbpParallel.has_split_parallel, SbpParallel.has_broadcast_parallel] at hkind
        | partial_sum_parallel_case =>
          simp [SbpParallel.has_split_parallel, SbpParallel.has_broadcast_parallel] at hkind)
      rw [axisCoordinate_eq _ dims hid₁.1 hpos, axisCoordinate_eq _ dims hid₂.1 hpos] at hc
      exact hc

/-- C28, at the hierarchy `2 × 3` with axis 0 split and axis 1 broadcast: the parallel ids 3
and 5 (coordinates (1, 0) and (1, 2)) both get seed id 1 of the seed shape `2 × 1`, and the
parallel id 1 (coordinates (0, 1)) gets seed id 0. -/
theorem seed_id_range_and_injective_witness :
    GenModelIoV2KernelConf parseSbpExample ["S(0)", "B"] 3 { dim_vec := [2, 3] }
        = some ({ dim_vec := [2, 1] }, 1) ∧
      GenModelIoV2KernelConf parseSbpExample ["S(0)", "B"] 5 { dim_vec := [2, 3] }
        = some ({ dim_vec := [2, 1] }, 1) ∧
      GenModelIoV2KernelConf parseSbpExample ["S(0)", "B"] 1 { dim_vec := [2, 3] }
        = some ({ dim_vec := [2, 1] }, 0) ∧
      ∃ (seed_shape : Shape) (seed_id₁ seed_id₂ : Int),
        GenModelIoV2KernelConf parseSbpExample ["S(0)", "B"] 3 { dim_vec := [2, 3] }
          = some (seed_shape, seed_id₁) ∧
        GenModelIoV2KernelConf parseSbpExample ["S(0)", "B"] 5 { dim_vec := [2, 3] }
          = some (seed_shape, seed_id₂) ∧
        (0 ≤ seed_id₁ ∧ seed_id₁ < seed_shape.Count 0) ∧
        (0 ≤ seed_id₂ ∧ seed_id₂ < seed_shape.Count 0) ∧
        (seed_id₁ = seed_id₂ ↔
          ∀ j : Nat, j < [(2 : Int), 3].length →
            (∃ axis : Int, sbpOfAxis parseSbpExample ["S(0)", "B"] j
              = some (SbpParallel.split_parallel_case axis)) →
            axisCoordinate 3 { dim_vec := [2, 3] } j
              = axisCoordinate 5 { dim_vec := [2, 3] } j) :=
  ⟨by decide, by decide, by decide,
    seed_id_range_and_injective parseSbpExample ["S(0)", "B"] { dim_vec := [2, 3] } 3 5
      (by decide)
      (by
        intro i hi
        have hi' : i = 0 ∨ i = 1 := by
          simp at hi
          omega
        rcases hi' with rfl | rfl
        · exact ⟨SbpParallel.split_parallel_case 0, by decide, by decide⟩
        · exact ⟨SbpParallel.broadcast_parallel_case, by decide, by decide⟩)
      (by decide) (by decide) (by decide) (by decide)⟩

end GenModelIoV2KernelConf

end oneflow

namespace oneflow

/-! ## Facts about loops that write a buffer in sequence -/

theorem isAGreaterThanZeroAndLessThanB_iff (a b : Int) (ha : IsInt32 a)
    (hb : 0 ≤ b ∧ b < 2 ^ 31) :
    IsAGreaterThanZeroAndLessThanB a b = true ↔ 0 ≤ a ∧ a < b := by
  unfold IsInt32 at ha
  simp only [IsAGreaterThanZeroAndLessThanB, decide_eq_true_eq]
  omega

/-- A loop `for (i = 0; i < n; ++i)` whose run `i` appends the block `B i` to the buffer appends
the blocks `B 0`, ..., `B (n - 1)`. -/
theorem forCountUp.loop_appends_blocks {α : Type} (body : Int → List α → Option (List α))
    (B : Nat → List α) (n : Nat)
    (hbody : ∀ (i : Nat) (d : List α), i < n → body (i : Int) d = some (d ++ B i))
    (d : List α) :
    forCountUp.loop body n d = some (d ++ (List.range n).flatMap B) := by
  induction n with
  | zero => simp [forCountUp.loop]
  | succ n ih =>
    rw [forCountUp.loop, ih fun i d hi => hbody i d (by omega)]
    simp [hbody n _ (Nat.lt_succ_self n), List.range_succ]

/-- A loop that counts down and whose run appends the block `B x` to the buffer and moves the
cursor `x` by `step` appends the blocks of `x₀`, `x₀ + step`, ... -/
theorem forCountDown.loop_appends_cursor_blocks {α : Type} (body : Int × List α → Option (Int × List α))
    (step : Int) (B : Int → List α)
    (hbody : ∀ (x : Int) (d : List α), body (x, d) = some (x + step, d ++ B x))
    (n : Nat) (x₀ : Int) (d : List α) :
    forCountDown.loop body n (x₀, d)
      = some (x₀ + (n : Int) * step,
          d ++ (List.range n).flatMap fun i => B (x₀ + (i : Int) * step)) := by
  induction n with
  | zero => simp [forCountDown.loop]
  | succ n ih =>
    rw [forCountDown.loop, ih]
    simp only [Option.some_bind, hbody, List.range_succ, List.flatMap_append,
      List.flatMap_singleton, List.append_assoc, Option.some.injEq, Prod.mk.injEq, and_true]
    push_cast
    ring

/-- A loop that counts down and whose run appends one fixed element. -/
theorem forCountDown.loop_appends_const {α : Type} (a : α) (n : Nat) (d : List α) :
    forCountDown.loop (fun data_col : List α => some (data_col ++ [a])) n d
      = some (d ++ (List.range n).map fun _ => a) := by
  induction n with
  | zero => simp [forCountDown.loop]
  | succ n ih =>
    rw [forCountDown.loop, ih]
    simp [List.range_succ]

theorem flatMap_singleton_eq_map {α β : Type} (f : α → β) (l : List α) :
    (l.flatMap fun x => [f x]) = l.map f := by
  induction l with
  | nil => rfl
  | cons x l ih => simp [ih]

/-- In a sequence of `n` blocks of one length `m`, the length is `n * m` and the element `j` of
block `i` is at position `i * m + j`. -/
theorem flatMap_range_uniform {α : Type} (B : Nat → List α) (m n : Nat)
    (hB : ∀ i : Nat, i < n → (B i).length = m) :
    ((List.range n).flatMap B).length = n * m ∧
      ∀ i j : Nat, i < n → j < m → ((List.range n).flatMap B)[i * m + j]? = (B i)[j]? := by
  induction n with
  | zero => simp
  | succ n ih =>
    obtain ⟨hlen, hget⟩ := ih fun i hi => hB i (by omega)
    have hBn := hB n (Nat.lt_succ_self n)
    rw [List.range_succ, List.flatMap_append, List.flatMap_singleton]
    refine ⟨by rw [List.length_append, hlen, hBn, Nat.succ_mul], ?_⟩
    intro i j hi hj
    rcases Nat.lt_or_ge i n with h | h
    · have hlt : i * m + j < n * m := by
        calc i * m + j < i * m + m := by omega
          _ = (i + 1) * m := by rw [Nat.succ_mul]
          _ ≤ n * m := Nat.mul_le_mul_right m h
      rw [List.getElem?_append_left (by rw [hlen]; exact hlt)]
      exact hget i j h hj
    · have hin : i = n := by omega
      subst hin
      rw [List.getElem?_append_right (by rw [hlen]; omega), hlen]
      congr 1
      omega

end oneflow

namespace oneflow

namespace Im2Col

/-! ## What Im2Col writes -/

theorem colBody_eq {α : Type} [Zero α] (mem : Int → α) (g : ConvArgs) (dptr input_row : Int)
    (hrow : IsAGreaterThanZeroAndLessThanB input_row g.height = true)
    (input_col : Int) (d : List α) :
    colBody mem g dptr input_row (input_col, d)
      = some (input_col + g.stride_w, d ++ [written mem g dptr input_row input_col]) := by
  unfold colBody written
  by_cases h : IsAGreaterThanZeroAndLessThanB input_col g.width = true <;> simp [h, hrow]

theorem rowBody_eq {α : Type} [Zero α] (mem : Int → α) (g : ConvArgs) (dptr : Int)
    (kernel_col : Nat) (how : 0 ≤ g.output_w) (input_row : Int) (d : List α) :
    rowBody mem g dptr (kernel_col : Int) (input_row, d)
      = some (input_row + g.stride_h,
          d ++ (List.range g.output_w.toNat).map fun output_col : Nat =>
            written mem g dptr input_row (g.input_col kernel_col output_col)) := by
  unfold rowBody
  by_cases hrow : IsAGreaterThanZeroAndLessThanB input_row g.height = true
  · have hloop := forCountDown.loop_appends_cursor_blocks (colBody mem g dptr input_row) g.stride_w
      (fun input_col => [written mem g dptr input_row input_col])
      (colBody_eq mem g dptr input_row hrow) g.output_w.toNat
      (-g.pad_w + (kernel_col : Int) * g.dilation_w) d
    have hfun : (fun i : Nat => [written mem g dptr input_row
          (-g.pad_w + (kernel_col : Int) * g.dilation_w + (i : Int) * g.stride_w)])
        = fun i : Nat => [written mem g dptr input_row (g.input_col kernel_col i)] := by
      funext i
      unfold ConvArgs.input_col
      congr 2
      ring
    rw [hfun, flatMap_singleton_eq_map] at hloop
    simp [hrow, forCountDown, how, hloop]
  · have hfun : (fun output_col : Nat =>
          written mem g dptr input_row (g.input_col kernel_col output_col))
        = fun _ : Nat => (0 : α) := by
      funext i
      simp [written, hrow]
    rw [hfun]
    simp [hrow, forCountDown, how, forCountDown.loop_appends_const]

theorem kernelColBody_eq {α : Type} [Zero α] (mem : Int → α) (g : ConvArgs) (dptr : Int)
    (kernel_row kernel_col : Nat) (hoh : 0 ≤ g.output_h) (how : 0 ≤ g.output_w)
    (d : List α) :
    kernelColBody mem g dptr (kernel_row : Int) (kernel_col : Int) d
      = some (d ++ kernelBlock mem g dptr kernel_row kernel_col) := by
  unfold kernelColBody kernelBlock
  have hloop := forCountDown.loop_appends_cursor_blocks (rowBody mem g dptr (kernel_col : Int)) g.stride_h
    (fun input_row => (List.range g.output_w.toNat).map fun output_col : Nat =>
      written mem g dptr input_row (g.input_col kernel_col output_col))
    (rowBody_eq mem g dptr kernel_col how) g.output_h.toNat
    (-g.pad_h + (kernel_row : Int) * g.dilation_h) d
  have hfun : (fun i : Nat => (List.range g.output_w.toNat).map fun output_col : Nat =>
        written mem g dptr (-g.pad_h + (kernel_row : Int) * g.dilation_h + (i : Int) * g.stride_h)
          (g.input_col kernel_col output_col))
      = fun i : Nat => (List.range g.output_w.toNat).map fun output_col : Nat =>
        written mem g dptr (g.input_row kernel_row i) (g.input_col kernel_col output_col) := by
    funext i
    unfold ConvArgs.input_row
    congr 2
    funext output_col
    congr 1
    ring
  rw [hfun] at hloop
  simp [forCountDown, hoh, hloop]

theorem channelBody_eq {α : Type} [Zero α] (mem : Int → α) (g : ConvArgs)
    (hoh : 0 ≤ g.output_h) (how : 0 ≤ g.output_w) (dptr : Int) (d : List α) :
    channelBody mem g (dptr, d)
      = some (dptr + g.channel_size, d ++ channelBlock mem g dptr) := by
  unfold channelBody channelBlock
  have hrow : ∀ (kernel_row : Nat) (d : List α), kernel_row < g.kernel_h.toNat →
      kernelRowBody mem g dptr (kernel_row : Int) d
        = some (d ++ (List.range g.kernel_w.toNat).flatMap fun kernel_col =>
            kernelBlock mem g dptr kernel_row kernel_col) := by
    intro kernel_row d _
    unfold kernelRowBody forCountUp
    exact forCountUp.loop_appends_blocks _ _ _
      (fun kernel_col d _ => kernelColBody_eq mem g dptr kernel_row kernel_col hoh how d) d
  have hloop := forCountUp.loop_appends_blocks (kernelRowBody mem g dptr)
    (fun kernel_row => (List.range g.kernel_w.toNat).flatMap fun kernel_col =>
      kernelBlock mem g dptr kernel_row kernel_col) g.kernel_h.toNat hrow d
  simp [forCountUp, hloop]

/-- The list that `Im2Col` returns: for a non-negative number of channels, non-negative output
sizes and strides other than 0, the blocks of the channels in order. -/
theorem im2col_run_eq {α : Type} [Zero α] (mem : Int → α) (dptr : Int) (g : ConvArgs)
    (hs : g.stride_h ≠ 0 ∧ g.stride_w ≠ 0) (hc : 0 ≤ g.channels)
    (hoh : 0 ≤ g.output_h) (how : 0 ≤ g.output_w) :
    Im2Col mem dptr g
      = some ((List.range g.channels.toNat).flatMap fun channel =>
          channelBlock mem g (dptr + (channel : Int) * g.channel_size)) := by
  have hloop := forCountDown.loop_appends_cursor_blocks (channelBody mem g) g.channel_size
    (channelBlock mem g) (channelBody_eq mem g hoh how) g.channels.toNat dptr []
  simp [Im2Col, hs.1, hs.2, forCountDown, hc, hloop]

end Im2Col

end oneflow

namespace oneflow

namespace Im2Col

theorem index_lt (i j n m : Nat) (hi : i < n) (hj : j < m) : i * m + j < n * m := by
  calc i * m + j < i * m + m := by omega
    _ = (i + 1) * m := by rw [Nat.succ_mul]
    _ ≤ n * m := Nat.mul_le_mul_right m hi

theorem written_eq {α : Type} [Zero α] (mem : Int → α) (g : ConvArgs) (dptr : Int)
    (channel : Int) (input_row input_col : Int)
    (hh : 0 ≤ g.height ∧ g.height < 2 ^ 31) (hw : 0 ≤ g.width ∧ g.width < 2 ^ 31)
    (hrow : IsInt32 input_row) (hcol : IsInt32 input_col) :
    written mem g (dptr + channel * g.channel_size) input_row input_col
      = if 0 ≤ input_row ∧ input_row < g.height ∧ 0 ≤ input_col ∧ input_col < g.width then
          mem (dptr + ((channel * g.height + input_row) * g.width + input_col))
        else 0 := by
  have haddr : dptr + channel * g.channel_size + (input_row * g.width + input_col)
      = dptr + ((channel * g.height + input_row) * g.width + input_col) := by
    unfold ConvArgs.channel_size
    ring
  have hr := isAGreaterThanZeroAndLessThanB_iff input_row g.height hrow hh
  have hc := isAGreaterThanZeroAndLessThanB_iff input_col g.width hcol hw
  unfold written
  by_cases h1 : IsAGreaterThanZeroAndLessThanB input_row g.height = true
  · by_cases h2 : IsAGreaterThanZeroAndLessThanB input_col g.width = true
    · have h1' := hr.mp h1
      have h2' := hc.mp h2
      rw [if_pos h1, if_pos h2, if_pos ⟨h1'.1, h1'.2, h2'.1, h2'.2⟩, haddr]
    · have h2' : ¬ (0 ≤ input_col ∧ input_col < g.width) := fun h => h2 (hc.mpr h)
      rw [if_pos h1, if_neg h2, if_neg (fun h => h2' ⟨h.2.2.1, h.2.2.2⟩)]
  · have h1' : ¬ (0 ≤ input_row ∧ input_row < g.height) := fun h => h1 (hr.mpr h)
    rw [if_neg h1, if_neg (fun h => h1' ⟨h.1, h.2.1⟩)]

/-- C25, amended: the image height and width are non-negative too. With `output_h` and
`output_w` as the source computes them, for non-negative `channels`, `kernel_h`, `kernel_w`,
`output_h`, `output_w` (given as natural numbers), strides other than 0, an image height and
width that are non-negative `int`s and image rows and columns that fit in `int`, `Im2Col` ends,
writes exactly
`channels * kernel_h * kernel_w * output_h * output_w` elements, and the element at index
`(((c * kernel_h + kr) * kernel_w + kc) * output_h + orow) * output_w + ocol` is the element of
the image at channel `c`, row `r = orow * stride_h - pad_h + kr * dilation_h` and column
`q = ocol * stride_w - pad_w + kc * dilation_w` when `0 ≤ r < height` and `0 ≤ q < width`, and 0
otherwise. -/
theorem layout {α : Type} [Zero α] (mem : Int → α) (dptr : Int) (g : ConvArgs)
    (channels kernel_h kernel_w output_h output_w : Nat)
    (hs : g.stride_h ≠ 0 ∧ g.stride_w ≠ 0)
    (hc : g.channels = (channels : Int)) (hkh : g.kernel_h = (kernel_h : Int))
    (hkw : g.kernel_w = (kernel_w : Int))
    (hoh : g.output_h = (output_h : Int)) (how : g.output_w = (output_w : Int))
    (hh : 0 ≤ g.height ∧ g.height < 2 ^ 31) (hw : 0 ≤ g.width ∧ g.width < 2 ^ 31)
    (hrow : ∀ kr orow : Nat, kr < kernel_h → orow < output_h →
      IsInt32 (g.input_row kr orow))
    (hcol : ∀ kc ocol : Nat, kc < kernel_w → ocol < output_w →
      IsInt32 (g.input_col kc ocol)) :
    ∃ out : List α,
      Im2Col mem dptr g = some out ∧
      out.length = channels * kernel_h * kernel_w * output_h * output_w ∧
      ∀ c kr kc orow ocol : Nat,
        c < channels → kr < kernel_h → kc < kernel_w → orow < output_h → ocol < output_w →
        out[(((c * kernel_h + kr) * kernel_w + kc) * output_h + orow) * output_w + ocol]?
          = some (if 0 ≤ g.input_row kr orow ∧ g.input_row kr orow < g.height ∧
                    0 ≤ g.input_col kc ocol ∧ g.input_col kc ocol < g.width then
                  mem (dptr + (((c : Int) * g.height + g.input_row kr orow) * g.width
                    + g.input_col kc ocol))
                else 0) := by
  have hrun := im2col_run_eq mem dptr g hs (by omega) (by omega) (by omega)
  have hcn : g.channels.toNat = channels := by omega
  have hkhn : g.kernel_h.toNat = kernel_h := by omega
  have hkwn : g.kernel_w.toNat = kernel_w := by omega
  have hohn : g.output_h.toNat = output_h := by omega
  have hown : g.output_w.toNat = output_w := by omega
  rw [hcn] at hrun
  -- the innermost rows
  have hinner : ∀ (p : Int) (kr kc orow : Nat),
      ((List.range output_w).map fun ocol : Nat =>
        written mem g p (g.input_row kr orow) (g.input_col kc ocol)).length = output_w := by
    intro p kr kc orow
    simp
  have hkernel : ∀ (p : Int) (kr kc : Nat),
      (kernelBlock mem g p kr kc).length = output_h * output_w ∧
      ∀ orow ocol : Nat, orow < output_h → ocol < output_w →
        (kernelBlock mem g p kr kc)[orow * output_w + ocol]?
          = some (written mem g p (g.input_row kr orow) (g.input_col kc ocol)) := by
    intro p kr kc
    unfold kernelBlock
    rw [hohn, hown]
    obtain ⟨hlen, hget⟩ := flatMap_range_uniform
      (fun orow : Nat => (List.range output_w).map fun ocol : Nat =>
        written mem g p (g.input_row kr orow) (g.input_col kc ocol))
      output_w output_h (fun orow _ => hinner p kr kc orow)
    refine ⟨hlen, fun orow ocol ho hoc => ?_⟩
    rw [hget orow ocol ho hoc]
    simp [hoc]
  have hkrow : ∀ (p : Int) (kr : Nat),
      ((List.range kernel_w).flatMap fun kc : Nat => kernelBlock mem g p kr kc).length
          = kernel_w * (output_h * output_w) ∧
      ∀ kc j : Nat, kc < kernel_w → j < output_h * output_w →
        ((List.range kernel_w).flatMap fun kc : Nat => kernelBlock mem g p kr kc)[
            kc * (output_h * output_w) + j]?
          = (kernelBlock mem g p kr kc)[j]? := by
    intro p kr
    exact flatMap_range_uniform (fun kc : Nat => kernelBlock mem g p kr kc)
      (output_h * output_w) kernel_w (fun kc _ => (hkernel p kr kc).1)
  have hchannel : ∀ p : Int,
      (channelBlock mem g p).length = kernel_h * (kernel_w * (output_h * output_w)) ∧
      ∀ kr j : Nat, kr < kernel_h → j < kernel_w * (output_h * output_w) →
        (channelBlock mem g p)[kr * (kernel_w * (output_h * output_w)) + j]?
          = ((List.range kernel_w).flatMap fun kc : Nat => kernelBlock mem g p kr kc)[j]? := by
    intro p
    unfold channelBlock
    rw [hkhn, hkwn]
    exact flatMap_range_uniform
      (fun kr : Nat => (List.range kernel_w).flatMap fun kc : Nat => kernelBlock mem g p kr kc)
      (kernel_w * (output_h * output_w)) kernel_h (fun kr _ => (hkrow p kr).1)
  obtain ⟨hlen, hget⟩ := flatMap_range_uniform
    (fun c : Nat => channelBlock mem g (dptr + (c : Int) * g.channel_size))
    (kernel_h * (kernel_w * (output_h * output_w))) channels (fun c _ => (hchannel _).1)
  refine ⟨_, hrun, ?_, ?_⟩
  · rw [hlen]
    ring
  · intro c kr kc orow ocol hc' hkr hkc horow hocol
    have h1 : orow * output_w + ocol < output_h * output_w :=
      index_lt orow ocol output_h output_w horow hocol
    have h2 : kc * (output_h * output_w) + (orow * output_w + ocol)
        < kernel_w * (output_h * output_w) := index_lt kc _ kernel_w _ hkc h1
    have hidx : (((c * kernel_h + kr) * kernel_w + kc) * output_h + orow) * output_w + ocol
        = c * (kernel_h * (kernel_w * (output_h * output_w)))
          + (kr * (kernel_w * (output_h * output_w))
            + (kc * (output_h * output_w) + (orow * output_w + ocol))) := by
      ring
    rw [hidx, hget c _ hc' (index_lt kr _ kernel_h _ hkr h2),
      (hchannel _).2 kr _ hkr h2, (hkrow _ kr).2 kc _ hkc h1,
      (hkernel _ kr kc).2 orow ocol horow hocol,
      written_eq mem g dptr c _ _ hh hw (hrow kr orow hkr horow) (hcol kc ocol hkc hocol)]

end Im2Col

end oneflow

namespace oneflow

/-! ## Facts about loops that add into a memory -/

/-- A loop that counts down, moves a cursor `x` by `step` and a read position by `w`, and whose
run adds `F x data_col` to the element at position `p`, adds the sum of these over its runs. -/
theorem forCountDown.loop_adds {α : Type} [AddCommMonoid α]
    (body : Int × Int × (Int → α) → Option (Int × Int × (Int → α)))
    (step w p : Int) (F : Int → Int → α)
    (hbody : ∀ (x dc : Int) (mem : Int → α), ∃ mem' : Int → α,
      body (x, dc, mem) = some (x + step, dc + w, mem') ∧ mem' p = mem p + F x dc)
    (n : Nat) (x₀ dc₀ : Int) (mem₀ : Int → α) :
    ∃ mem' : Int → α,
      forCountDown.loop body n (x₀, dc₀, mem₀)
        = some (x₀ + (n : Int) * step, dc₀ + (n : Int) * w, mem') ∧
      mem' p = mem₀ p
        + ∑ i ∈ Finset.range n, F (x₀ + (i : Int) * step) (dc₀ + (i : Int) * w) := by
  induction n with
  | zero => exact ⟨mem₀, by simp [forCountDown.loop], by simp⟩
  | succ n ih =>
    obtain ⟨mem₁, hrun, hval⟩ := ih
    obtain ⟨mem₂, hbody₂, hval₂⟩ :=
      hbody (x₀ + (n : Int) * step) (dc₀ + (n : Int) * w) mem₁
    refine ⟨mem₂, ?_, ?_⟩
    · rw [forCountDown.loop, hrun, Option.some_bind, hbody₂]
      congr 2
      · push_cast; ring
      · congr 1
        push_cast; ring
    · rw [hval₂, hval, Finset.sum_range_succ, add_assoc]

/-- A loop `for (i = 0; i < n; ++i)` that moves a read position by `w` and whose run `i` adds
`F i data_col` to the element at position `p` adds the sum of these over its runs. -/
theorem forCountUp.loop_adds_indexed {α : Type} [AddCommMonoid α]
    (body : Int → Int × (Int → α) → Option (Int × (Int → α)))
    (w p : Int) (F : Nat → Int → α) (n : Nat)
    (hbody : ∀ (i : Nat) (dc : Int) (mem : Int → α), i < n → ∃ mem' : Int → α,
      body (i : Int) (dc, mem) = some (dc + w, mem') ∧ mem' p = mem p + F i dc)
    (dc₀ : Int) (mem₀ : Int → α) :
    ∃ mem' : Int → α,
      forCountUp.loop body n (dc₀, mem₀) = some (dc₀ + (n : Int) * w, mem') ∧
      mem' p = mem₀ p + ∑ i ∈ Finset.range n, F i (dc₀ + (i : Int) * w) := by
  induction n with
  | zero => exact ⟨mem₀, by simp [forCountUp.loop], by simp⟩
  | succ n ih =>
    obtain ⟨mem₁, hrun, hval⟩ := ih fun i dc mem hi => hbody i dc mem (by omega)
    obtain ⟨mem₂, hbody₂, hval₂⟩ := hbody n (dc₀ + (n : Int) * w) mem₁ (Nat.lt_succ_self n)
    refine ⟨mem₂, ?_, ?_⟩
    · rw [forCountUp.loop, hrun, Option.some_bind, hbody₂]
      congr 2
      push_cast; ring
    · rw [hval₂, hval, Finset.sum_range_succ, add_assoc]

/-- A position written as `a * w + x` with `0 ≤ x < w` determines `a` and `x`. -/
theorem mul_add_unique (w a b x y : Int) (hx : 0 ≤ x ∧ x < w) (hy : 0 ≤ y ∧ y < w)
    (h : a * w + x = b * w + y) : a = b ∧ x = y := by
  have hab : a = b := by
    rcases Int.lt_trichotomy a b with hlt | heq | hgt
    · exfalso
      have : (a + 1) * w ≤ b * w := Int.mul_le_mul_of_nonneg_right (by omega) (by omega)
      rw [Int.add_mul, Int.one_mul] at this
      omega
    · exact heq
    · exfalso
      have : (b + 1) * w ≤ a * w := Int.mul_le_mul_of_nonneg_right (by omega) (by omega)
      rw [Int.add_mul, Int.one_mul] at this
      omega
  subst hab
  exact ⟨rfl, by omega⟩

end oneflow

namespace oneflow

namespace Col2Im

/-! ## What Col2Im adds to an element of the image -/

theorem colBody_acc {α : Type} [AddCommMonoid α] (col : Int → α) (g : ConvArgs)
    (mut_dptr p input_row : Int)
    (hrow : IsAGreaterThanZeroAndLessThanB input_row g.height = true)
    (input_col data_col : Int) (mem : Int → α) :
    ∃ mem' : Int → α,
      colBody col g mut_dptr input_row (input_col, data_col, mem)
        = some (input_col + g.stride_w, data_col + 1, mem') ∧
      mem' p = mem p + added col g mut_dptr p input_row input_col data_col := by
  unfold colBody added
  by_cases hcol : IsAGreaterThanZeroAndLessThanB input_col g.width = true
  · refine ⟨Function.update mem (mut_dptr + (input_row * g.width + input_col))
        (mem (mut_dptr + (input_row * g.width + input_col)) + col data_col),
      by simp only [hcol, if_true], ?_⟩
    by_cases hp : mut_dptr + (input_row * g.width + input_col) = p
    · subst hp
      simp [hrow, hcol]
    · rw [Function.update_noteq (Ne.symm hp)]
      simp [hp]
  · exact ⟨mem, by simp [hcol], by simp [hcol]⟩

theorem rowBody_acc {α : Type} [AddCommMonoid α] (col : Int → α) (g : ConvArgs)
    (mut_dptr p : Int) (kernel_col : Nat) (how : 0 ≤ g.output_w)
    (input_row data_col : Int) (mem : Int → α) :
    ∃ mem' : Int → α,
      rowBody col g mut_dptr (kernel_col : Int) (input_row, data_col, mem)
        = some (input_row + g.stride_h, data_col + g.output_w, mem') ∧
      mem' p = mem p + ∑ output_col ∈ Finset.range g.output_w.toNat,
        added col g mut_dptr p input_row (g.input_col kernel_col output_col)
          (data_col + (output_col : Int)) := by
  unfold rowBody
  by_cases hrow : IsAGreaterThanZeroAndLessThanB input_row g.height = true
  · obtain ⟨mem', hrun, hval⟩ := forCountDown.loop_adds
      (colBody col g mut_dptr input_row) g.stride_w 1 p
      (fun input_col data_col => added col g mut_dptr p input_row input_col data_col)
      (colBody_acc col g mut_dptr p input_row hrow) g.output_w.toNat
      (-g.pad_w + (kernel_col : Int) * g.dilation_w) data_col mem
    refine ⟨mem', ?_, ?_⟩
    · have hw : ((g.output_w.toNat : Nat) : Int) = g.output_w := by omega
      simp [hrow, forCountDown, how, hrun, hw]
    · rw [hval]
      congr 1
      apply Finset.sum_congr rfl
      intro i _
      unfold ConvArgs.input_col
      congr 1
      · ring
      · ring
  · refine ⟨mem, by simp [hrow], ?_⟩
    rw [Finset.sum_eq_zero, add_zero]
    intro i _
    simp [added, hrow]

theorem kernelColBody_acc {α : Type} [AddCommMonoid α] (col : Int → α) (g : ConvArgs)
    (mut_dptr p : Int) (kernel_row kernel_col : Nat)
    (hoh : 0 ≤ g.output_h) (how : 0 ≤ g.output_w) (data_col : Int) (mem : Int → α) :
    ∃ mem' : Int → α,
      kernelColBody col g mut_dptr (kernel_row : Int) (kernel_col : Int) (data_col, mem)
        = some (data_col + g.output_h * g.output_w, mem') ∧
      mem' p = mem p + kernelAdded col g mut_dptr p kernel_row kernel_col data_col := by
  obtain ⟨mem', hrun, hval⟩ := forCountDown.loop_adds
    (rowBody col g mut_dptr (kernel_col : Int)) g.stride_h g.output_w p
    (fun input_row data_col => ∑ output_col ∈ Finset.range g.output_w.toNat,
      added col g mut_dptr p input_row (g.input_col kernel_col output_col)
        (data_col + (output_col : Int)))
    (rowBody_acc col g mut_dptr p kernel_col how) g.output_h.toNat
    (-g.pad_h + (kernel_row : Int) * g.dilation_h) data_col mem
  refine ⟨mem', ?_, ?_⟩
  · have hh : ((g.output_h.toNat : Nat) : Int) = g.output_h := by omega
    simp [kernelColBody, forCountDown, hoh, hrun, hh]
  · rw [hval]
    unfold kernelAdded
    congr 1
    apply Finset.sum_congr rfl
    intro i _
    apply Finset.sum_congr rfl
    intro j _
    unfold ConvArgs.input_row
    congr 1
    ring

theorem kernelRowBody_acc {α : Type} [AddCommMonoid α] (col : Int → α) (g : ConvArgs)
    (mut_dptr p : Int) (kernel_row : Nat)
    (hoh : 0 ≤ g.output_h) (how : 0 ≤ g.output_w) (data_col : Int) (mem : Int → α) :
    ∃ mem' : Int → α,
      kernelRowBody col g mut_dptr (kernel_row : Int) (data_col, mem)
        = some (data_col + (g.kernel_w.toNat : Int) * (g.output_h * g.output_w), mem') ∧
      mem' p = mem p + ∑ kernel_col ∈ Finset.range g.kernel_w.toNat,
        kernelAdded col g mut_dptr p kernel_row kernel_col
          (data_col + (kernel_col : Int) * (g.output_h * g.output_w)) := by
  unfold kernelRowBody forCountUp
  exact forCountUp.loop_adds_indexed (kernelColBody col g mut_dptr (kernel_row : Int))
    (g.output_h * g.output_w) p
    (fun kernel_col data_col => kernelAdded col g mut_dptr p kernel_row kernel_col data_col)
    g.kernel_w.toNat
    (fun kernel_col dc mem _ =>
      kernelColBody_acc col g mut_dptr p kernel_row kernel_col hoh how dc mem)
    data_col mem

theorem channelBody_acc {α : Type} [AddCommMonoid α] (col : Int → α) (g : ConvArgs)
    (p : Int) (hoh : 0 ≤ g.output_h) (how : 0 ≤ g.output_w)
    (mut_dptr data_col : Int) (mem : Int → α) :
    ∃ mem' : Int → α,
      channelBody col g (mut_dptr, data_col, mem)
        = some (mut_dptr + g.channel_size,
            data_col + (g.kernel_h.toNat : Int)
              * ((g.kernel_w.toNat : Int) * (g.output_h * g.output_w)), mem') ∧
      mem' p = mem p + ∑ kernel_row ∈ Finset.range g.kernel_h.toNat,
        ∑ kernel_col ∈ Finset.range g.kernel_w.toNat,
          kernelAdded col g mut_dptr p kernel_row kernel_col
            (data_col + (kernel_row : Int)
                * ((g.kernel_w.toNat : Int) * (g.output_h * g.output_w))
              + (kernel_col : Int) * (g.output_h * g.output_w)) := by
  obtain ⟨mem', hrun, hval⟩ := forCountUp.loop_adds_indexed (kernelRowBody col g mut_dptr)
    ((g.kernel_w.toNat : Int) * (g.output_h * g.output_w)) p
    (fun kernel_row data_col => ∑ kernel_col ∈ Finset.range g.kernel_w.toNat,
      kernelAdded col g mut_dptr p kernel_row kernel_col
        (data_col + (kernel_col : Int) * (g.output_h * g.output_w)))
    g.kernel_h.toNat
    (fun kernel_row dc mem _ => kernelRowBody_acc col g mut_dptr p kernel_row hoh how dc mem)
    data_col mem
  exact ⟨mem', by simp [channelBody, forCountUp, hrun], hval⟩

end Col2Im

end oneflow

namespace oneflow

namespace Col2Im

theorem added_eq {α : Type} [AddCommMonoid α] (col : Int → α) (g : ConvArgs)
    (mut_dptr : Int) (c' c r q : Nat) (input_row input_col data_col : Int)
    (hh : 0 ≤ g.height ∧ g.height < 2 ^ 31) (hw : 0 ≤ g.width ∧ g.width < 2 ^ 31)
    (hrow : IsInt32 input_row) (hcol : IsInt32 input_col)
    (hr : (r : Int) < g.height) (hq : (q : Int) < g.width) :
    added col g (mut_dptr + (c' : Int) * g.channel_size)
        (mut_dptr + (((c : Int) * g.height + (r : Int)) * g.width + (q : Int)))
        input_row input_col data_col
      = if c' = c ∧ input_row = (r : Int) ∧ input_col = (q : Int) then col data_col else 0 := by
  have hr' := isAGreaterThanZeroAndLessThanB_iff input_row g.height hrow hh
  have hc' := isAGreaterThanZeroAndLessThanB_iff input_col g.width hcol hw
  unfold added
  apply if_congr _ rfl rfl
  rw [hr', hc']
  constructor
  · rintro ⟨hrow', hcol', haddr⟩
    have haddr' : ((c' : Int) * g.height + input_row) * g.width + input_col
        = ((c : Int) * g.height + (r : Int)) * g.width + (q : Int) := by
      unfold ConvArgs.channel_size at haddr
      have : mut_dptr + (c' : Int) * (g.height * g.width) + (input_row * g.width + input_col)
          = mut_dptr + (((c' : Int) * g.height + input_row) * g.width + input_col) := by ring
      rw [this] at haddr
      omega
    obtain ⟨h1, h2⟩ := mul_add_unique g.width _ _ _ _ hcol' ⟨by omega, hq⟩ haddr'
    obtain ⟨h3, h4⟩ := mul_add_unique g.height _ _ _ _ hrow' ⟨by omega, hr⟩ h1
    exact ⟨by exact_mod_cast h3, h4, h2⟩
  · rintro ⟨rfl, rfl, rfl⟩
    refine ⟨⟨by omega, hr⟩, ⟨by omega, hq⟩, ?_⟩
    unfold ConvArgs.channel_size
    ring

end Col2Im

end oneflow

namespace oneflow

namespace Col2Im

/-- The run of `Col2Im`: for non-negative sizes and strides other than 0 it ends, and the element
at a position `p` of the image is 0 plus what the channels add to it. -/
theorem run_acc {α : Type} [AddCommMonoid α] (col : Int → α) (data_col : Int) (g : ConvArgs)
    (mem : Int → α) (mut_dptr p : Int)
    (hs : g.stride_h ≠ 0 ∧ g.stride_w ≠ 0) (hc : 0 ≤ g.channels)
    (hoh : 0 ≤ g.output_h) (how : 0 ≤ g.output_w)
    (hh : 0 ≤ g.height) (hw : 0 ≤ g.width)
    (hp : mut_dptr ≤ p ∧ p < mut_dptr + g.height * g.width * g.channels) :
    ∃ out : Int → α,
      Col2Im col data_col g mem mut_dptr = some out ∧
      out p = ∑ channel ∈ Finset.range g.channels.toNat,
        ∑ kernel_row ∈ Finset.range g.kernel_h.toNat,
          ∑ kernel_col ∈ Finset.range g.kernel_w.toNat,
            kernelAdded col g (mut_dptr + (channel : Int) * g.channel_size) p
              kernel_row kernel_col
              (data_col + (channel : Int) * ((g.kernel_h.toNat : Int)
                  * ((g.kernel_w.toNat : Int) * (g.output_h * g.output_w)))
                + (kernel_row : Int) * ((g.kernel_w.toNat : Int) * (g.output_h * g.output_w))
                + (kernel_col : Int) * (g.output_h * g.output_w)) := by
  have hsize : ¬ g.height * g.width * g.channels < 0 :=
    Int.not_lt.mpr (Int.mul_nonneg (Int.mul_nonneg hh hw) hc)
  obtain ⟨out, hrun, hval⟩ := forCountDown.loop_adds (channelBody col g)
    g.channel_size
    ((g.kernel_h.toNat : Int) * ((g.kernel_w.toNat : Int) * (g.output_h * g.output_w))) p
    (fun mut_dptr data_col => ∑ kernel_row ∈ Finset.range g.kernel_h.toNat,
      ∑ kernel_col ∈ Finset.range g.kernel_w.toNat,
        kernelAdded col g mut_dptr p kernel_row kernel_col
          (data_col + (kernel_row : Int)
              * ((g.kernel_w.toNat : Int) * (g.output_h * g.output_w))
            + (kernel_col : Int) * (g.output_h * g.output_w)))
    (channelBody_acc col g p hoh how) g.channels.toNat mut_dptr data_col
    (fun p => if mut_dptr ≤ p ∧ p < mut_dptr + g.height * g.width * g.channels then 0
      else mem p)
  refine ⟨out, ?_, ?_⟩
  · simp [Col2Im, hsize, hs.1, hs.2, forCountDown, hc, hrun]
  · rw [hval, if_pos hp, zero_add]

/-- C26. Under the conditions of `Im2Col` (non-negative `channels`, `kernel_h`, `kernel_w`,
`output_h`, `output_w` given as natural numbers, strides other than 0, a non-negative height
and width, image rows and columns that fit in `int`) and with exact addition of elements,
`Col2Im` ends and leaves, at every element `(c, r, q)` of the image, the sum of the elements of
the column buffer at the indices
`(((c * kernel_h + kr) * kernel_w + kc) * output_h + orow) * output_w + ocol` whose
`(kr, kc, orow, ocol)` has `orow * stride_h - pad_h + kr * dilation_h = r` and
`ocol * stride_w - pad_w + kc * dilation_w = q`: 0 when there is none, and whatever the memory
of the image held before. -/
theorem scatter_add {α : Type} [AddCommMonoid α] (col : Int → α) (data_col : Int)
    (g : ConvArgs) (mem : Int → α) (mut_dptr : Int)
    (channels kernel_h kernel_w output_h output_w : Nat)
    (hs : g.stride_h ≠ 0 ∧ g.stride_w ≠ 0)
    (hc : g.channels = (channels : Int)) (hkh : g.kernel_h = (kernel_h : Int))
    (hkw : g.kernel_w = (kernel_w : Int))
    (hoh : g.output_h = (output_h : Int)) (how : g.output_w = (output_w : Int))
    (hh : 0 ≤ g.height ∧ g.height < 2 ^ 31) (hw : 0 ≤ g.width ∧ g.width < 2 ^ 31)
    (hrow : ∀ kr orow : Nat, kr < kernel_h → orow < output_h →
      IsInt32 (g.input_row kr orow))
    (hcol : ∀ kc ocol : Nat, kc < kernel_w → ocol < output_w →
      IsInt32 (g.input_col kc ocol)) :
    ∃ out : Int → α,
      Col2Im col data_col g mem mut_dptr = some out ∧
      ∀ c r q : Nat, c < channels → (r : Int) < g.height → (q : Int) < g.width →
        out (mut_dptr + (((c : Int) * g.height + (r : Int)) * g.width + (q : Int)))
          = ∑ kr ∈ Finset.range kernel_h, ∑ kc ∈ Finset.range kernel_w,
              ∑ orow ∈ Finset.range output_h, ∑ ocol ∈ Finset.range output_w,
                if g.input_row kr orow = (r : Int) ∧ g.input_col kc ocol = (q : Int) then
                  col (data_col + (((((c * kernel_h + kr) * kernel_w + kc) * output_h + orow)
                    * output_w + ocol : Nat) : Int))
                else 0 := by
  have hcn : g.channels.toNat = channels := by omega
  have hkhn : g.kernel_h.toNat = kernel_h := by omega
  have hkwn : g.kernel_w.toNat = kernel_w := by omega
  have hohn : g.output_h.toNat = output_h := by omega
  have hown : g.output_w.toNat = output_w := by omega
  -- the run ends whatever the element looked at
  have hsize : ¬ g.height * g.width * g.channels < 0 :=
    Int.not_lt.mpr (Int.mul_nonneg (Int.mul_nonneg hh.1 hw.1) (by omega))
  obtain ⟨out, hout⟩ : ∃ out : Int → α, Col2Im col data_col g mem mut_dptr = some out := by
    obtain ⟨out, hrun, _⟩ := forCountDown.loop_adds (channelBody col g)
      g.channel_size
      ((g.kernel_h.toNat : Int) * ((g.kernel_w.toNat : Int) * (g.output_h * g.output_w))) 0
      (fun mut_dptr data_col => ∑ kernel_row ∈ Finset.range g.kernel_h.toNat,
        ∑ kernel_col ∈ Finset.range g.kernel_w.toNat,
          kernelAdded col g mut_dptr 0 kernel_row kernel_col
            (data_col + (kernel_row : Int)
                * ((g.kernel_w.toNat : Int) * (g.output_h * g.output_w))
              + (kernel_col : Int) * (g.output_h * g.output_w)))
      (channelBody_acc col g 0 (by omega) (by omega)) g.channels.toNat mut_dptr data_col
      (fun p => if mut_dptr ≤ p ∧ p < mut_dptr + g.height * g.width * g.channels then 0
        else mem p)
    have hc0 : 0 ≤ g.channels := by omega
    exact ⟨out, by simp [Col2Im, hsize, hs.1, hs.2, forCountDown, hc0, hrun]⟩
  refine ⟨out, hout, ?_⟩
  intro c r q hcc hr hq
  -- the element lies in the image
  have hp : mut_dptr ≤ mut_dptr + (((c : Int) * g.height + (r : Int)) * g.width + (q : Int)) ∧
      mut_dptr + (((c : Int) * g.height + (r : Int)) * g.width + (q : Int))
        < mut_dptr + g.height * g.width * g.channels := by
    obtain ⟨H, hH⟩ := Int.eq_ofNat_of_zero_le hh.1
    obtain ⟨W, hW⟩ := Int.eq_ofNat_of_zero_le hw.1
    rw [hH] at hr
    rw [hW] at hq
    rw [hH, hW, hc]
    have hrH : r < H := by exact_mod_cast hr
    have hqW : q < W := by exact_mod_cast hq
    have h1 := Im2Col.index_lt c r channels H hcc hrH
    have h2 := Im2Col.index_lt (c * H + r) q (channels * H) W h1 hqW
    have h2' : (((c * H + r) * W + q : Nat) : Int) < ((channels * H * W : Nat) : Int) := by
      exact_mod_cast h2
    have h3 : (0 : Int) ≤ (((c * H + r) * W + q : Nat) : Int) := Int.ofNat_nonneg _
    push_cast at h2' h3
    have h4 : (H : Int) * (W : Int) * (channels : Int)
        = (channels : Int) * (H : Int) * (W : Int) := by ring
    rw [h4]
    constructor <;> omega
  obtain ⟨out', hout', hval⟩ := run_acc col data_col g mem mut_dptr _ hs (by omega)
    (by omega) (by omega) hh.1 hw.1 hp
  rw [hout] at hout'
  rw [Option.some.inj hout', hval, hcn, hkhn, hkwn]
  -- only channel `c` adds to the element
  rw [Finset.sum_eq_single c]
  · apply Finset.sum_congr rfl
    intro kr hkr
    apply Finset.sum_congr rfl
    intro kc hkc
    unfold kernelAdded
    rw [hohn, hown]
    apply Finset.sum_congr rfl
    intro orow horow
    apply Finset.sum_congr rfl
    intro ocol hocol
    rw [added_eq col g mut_dptr c c r q _ _ _ hh hw
      (hrow kr orow (Finset.mem_range.mp hkr) (Finset.mem_range.mp horow))
      (hcol kc ocol (Finset.mem_range.mp hkc) (Finset.mem_range.mp hocol)) hr hq]
    have hidx : data_col + (c : Int) * ((kernel_h : Int)
          * ((kernel_w : Int) * (g.output_h * g.output_w)))
          + (kr : Int) * ((kernel_w : Int) * (g.output_h * g.output_w))
          + (kc : Int) * (g.output_h * g.output_w) + (orow : Int) * g.output_w + (ocol : Int)
        = data_col + (((((c * kernel_h + kr) * kernel_w + kc) * output_h + orow)
          * output_w + ocol : Nat) : Int) := by
      rw [hoh, how]
      push_cast
      ring
    rw [hidx]
    simp only [true_and]
  · intro c' _ hne
    apply Finset.sum_eq_zero
    intro kr hkr
    apply Finset.sum_eq_zero
    intro kc hkc
    unfold kernelAdded
    rw [hohn, hown]
    apply Finset.sum_eq_zero
    intro orow horow
    apply Finset.sum_eq_zero
    intro ocol hocol
    rw [added_eq col g mut_dptr c' c r q _ _ _ hh hw
      (hrow kr orow (Finset.mem_range.mp hkr) (Finset.mem_range.mp horow))
      (hcol kc ocol (Finset.mem_range.mp hkc) (Finset.mem_range.mp hocol)) hr hq]
    simp [hne]
  · intro hnot
    exact absurd (Finset.mem_range.mpr hcc) hnot

end Col2Im

end oneflow

namespace oneflow

namespace Im2Col

/-- C25, as stated, fails when the image height is negative. At height `-1`, width 1, a
`1 × 1` kernel, 2 rows of padding and stride 1, the sizes `channels`, `kernel_h`, `kernel_w`,
`output_h = 3` and `output_w = 1` are non-negative, every visited row and column and every
product fits in `int`, and the three elements written stand for the rows `-2`, `-1` and `0`, none
of which satisfies `0 ≤ r < height`, so that the claim gives `[0, 0, 0]`. Over a memory holding
`100 + p` at address `p`, `Im2Col` writes `[98, 0, 100]`: the unsigned comparison
`IsAGreaterThanZeroAndLessThanB` reads the height `-1` as `2 ^ 32 - 1` and lets the rows `-2` and
`0` through. -/
theorem layout_fails_at_negative_height :
    convNegativeHeight.output_h = 3 ∧ convNegativeHeight.output_w = 1 ∧
      (∀ orow : Nat, orow < 3 →
        IsInt32 (convNegativeHeight.input_row 0 orow) ∧
        IsInt32 (convNegativeHeight.input_col 0 0) ∧
        ¬ (0 ≤ convNegativeHeight.input_row 0 orow ∧
            convNegativeHeight.input_row 0 orow < convNegativeHeight.height)) ∧
      IsAGreaterThanZeroAndLessThanB (-2) convNegativeHeight.height = true ∧
      IsAGreaterThanZeroAndLessThanB (-1) convNegativeHeight.height = false ∧
      IsAGreaterThanZeroAndLessThanB 0 convNegativeHeight.height = true ∧
      Im2Col (fun p : Int => 100 + p) 0 convNegativeHeight = some [98, 0, 100] ∧
      Im2Col (fun p : Int => 100 + p) 0 convNegativeHeight
        ≠ some ((List.range 3).map fun orow : Nat =>
            if 0 ≤ convNegativeHeight.input_row 0 orow ∧
                convNegativeHeight.input_row 0 orow < convNegativeHeight.height ∧
                0 ≤ convNegativeHeight.input_col 0 0 ∧
                convNegativeHeight.input_col 0 0 < convNegativeHeight.width then
              (fun p : Int => 100 + p)
                (0 + ((0 * convNegativeHeight.height + convNegativeHeight.input_row 0 orow)
                  * convNegativeHeight.width + convNegativeHeight.input_col 0 0))
            else 0) := by
  refine ⟨by decide, by decide, ?_, by decide, by decide, by decide, by decide, by decide⟩
  intro orow horow
  simp only [ConvArgs.input_row, ConvArgs.input_col, convNegativeHeight, IsInt32]
  omega

/-- C25, amended, at the `3 × 3` image `1, 2, ..., 9` with a `2 × 2` kernel, pad 1 and
stride 2: sixteen elements, the element of kernel position (0, 0) and output position (1, 1)
(index 3) is the centre 5 of the image, and the positions that fall in the padding hold 0. -/
theorem layout_witness :
    Im2Col (fun p : Int => p + 1) 0 convExample
        = some [0, 0, 0, 5, 0, 0, 4, 6, 0, 2, 0, 8, 1, 3, 7, 9] ∧
      ∃ out : List Int,
        Im2Col (fun p : Int => p + 1) 0 convExample = some out ∧
        out.length = 1 * 2 * 2 * 2 * 2 ∧
        ∀ c kr kc orow ocol : Nat, c < 1 → kr < 2 → kc < 2 → orow < 2 → ocol < 2 →
          out[(((c * 2 + kr) * 2 + kc) * 2 + orow) * 2 + ocol]?
            = some (if 0 ≤ convExample.input_row kr orow ∧
                      convExample.input_row kr orow < convExample.height ∧
                      0 ≤ convExample.input_col kc ocol ∧
                      convExample.input_col kc ocol < convExample.width then
                    (fun p : Int => p + 1)
                      (0 + (((c : Int) * convExample.height + convExample.input_row kr orow)
                        * convExample.width + convExample.input_col kc ocol))
                  else 0) :=
  ⟨by decide,
    layout (fun p : Int => p + 1) 0 convExample 1 2 2 2 2 (by decide) (by decide) (by decide)
      (by decide) (by decide) (by decide) (by decide) (by decide)
      (by
        intro kr orow hkr horow
        simp only [ConvArgs.input_row, convExample, IsInt32]
        omega)
      (by
        intro kc ocol hkc hocol
        simp only [ConvArgs.input_col, convExample, IsInt32]
        omega)⟩

end Im2Col

namespace Col2Im

/-- C26, at a `3 × 3` image with a `2 × 2` kernel, pad 1 and stride 2, a column buffer holding
`10 + i` at index `i` and an image memory holding 77 everywhere before the call: the corner
(0, 0) receives the element of index 12, the centre (1, 1) that of index 3, the corner (2, 2)
that of index 15. -/
theorem scatter_add_witness :
    (Col2Im (fun p : Int => 10 + p) 0 convExample (fun _ => 77) 0).map
        (fun out => [out 0, out 4, out 8]) = some [22, 13, 25] ∧
      ∃ out : Int → Int,
        Col2Im (fun p : Int => 10 + p) 0 convExample (fun _ => 77) 0 = some out ∧
        ∀ c r q : Nat, c < 1 → (r : Int) < convExample.height → (q : Int) < convExample.width →
          out (0 + (((c : Int) * convExample.height + (r : Int)) * convExample.width + (q : Int)))
            = ∑ kr ∈ Finset.range 2, ∑ kc ∈ Finset.range 2,
                ∑ orow ∈ Finset.range 2, ∑ ocol ∈ Finset.range 2,
                  if convExample.input_row kr orow = (r : Int) ∧
                      convExample.input_col kc ocol = (q : Int) then
                    (fun p : Int => 10 + p)
                      (0 + (((((c * 2 + kr) * 2 + kc) * 2 + orow) * 2 + ocol : Nat) : Int))
                  else 0 :=
  ⟨by decide,
    scatter_add (fun p : Int => 10 + p) 0 convExample (fun _ => 77) 0 1 2 2 2 2 (by decide)
      (by decide) (by decide) (by decide) (by decide) (by decide) (by decide) (by decide)
      (by
        intro kr orow hkr horow
        simp only [ConvArgs.input_row, convExample, IsInt32]
        omega)
      (by
        intro kc ocol hkc hocol
        simp only [ConvArgs.input_col, convExample, IsInt32]
        omega)⟩

end Col2Im

end oneflow
